import Mathlib

/-!
# ProVANT io-board: serial ring buffers and attitude estimation

A shallow embedding of `modules/common/c_common_uart.c` and `modules/io/c_io_imu.c`.

* The C globals of `c_common_uart.c` become the fields of `UartState`; every function that
  touches them takes the state and returns the new one.
* An array access with an index outside the array is undefined in C; the embedding makes it
  explicit: such an access yields `none`.
* `unsigned char` values are natural numbers reduced modulo `256` when they are stored.
-/

namespace Provant

/-! ## `c_common_uart.c` -/

/-- Capacity of each receive buffer, `#define RECV_BUFFER_SIZE 64`. -/
abbrev RECV_BUFFER_SIZE : Int := 64

/-- The peripherals a caller can name through a `USART_TypeDef*` on the STM32F4. -/
inductive USART_TypeDef where
  | USART1
  | USART2
  | USART3
  | UART4
  | UART5
  | USART6
  deriving DecidableEq, Repr

open USART_TypeDef

/-- The private variables of `c_common_uart.c`. A receive buffer maps a slot to the byte it
holds; only the slots `0 .. RECV_BUFFER_SIZE-1` exist, which `arrayGet` and `arraySet`
enforce. The indices are C `int`s. -/
structure UartState where
  usart2_recv_buffer : Nat → Nat
  usart6_recv_buffer : Nat → Nat
  usart2_rb_in : Int
  usart2_rb_out : Int
  usart6_rb_in : Int
  usart6_rb_out : Int
  usart2_available_flag : Bool
  usart6_available_flag : Bool

/-- The state after static initialisation: zeroed buffers, indices `0`, flags `0`. -/
def UartState.init : UartState where
  usart2_recv_buffer := fun _ => 0
  usart6_recv_buffer := fun _ => 0
  usart2_rb_in := 0
  usart2_rb_out := 0
  usart6_rb_in := 0
  usart6_rb_out := 0
  usart2_available_flag := false
  usart6_available_flag := false

/-- The expression `buf[i]` read from an array of `RECV_BUFFER_SIZE` bytes. -/
def arrayGet (buf : Nat → Nat) (i : Int) : Option Nat :=
  if 0 ≤ i ∧ i < RECV_BUFFER_SIZE then some (buf i.toNat) else none

/-- The assignment `buf[i] = v` into an array of `RECV_BUFFER_SIZE` bytes. -/
def arraySet (buf : Nat → Nat) (i : Int) (v : Nat) : Option (Nat → Nat) :=
  if 0 ≤ i ∧ i < RECV_BUFFER_SIZE then some (Function.update buf i.toNat v) else none

/-- The function `c_common_usart_available`. -/
def c_common_usart_available (USARTx : USART_TypeDef) (s : UartState) : Bool :=
  if USARTx = USART2 then s.usart2_available_flag
  else if USARTx = USART6 then s.usart6_available_flag
  else false

/-- The function `c_common_usart_read`: the byte returned and the state left behind. -/
def c_common_usart_read (USARTx : USART_TypeDef) (s : UartState) : Option (Nat × UartState) :=
  if USARTx = USART2 then
    match arrayGet s.usart2_recv_buffer s.usart2_rb_out with
    | none => none
    | some ret =>
      let s1 : UartState :=
        if s.usart2_rb_out < RECV_BUFFER_SIZE - 1 then
          { s with usart2_rb_out := s.usart2_rb_out + 1 }
        else { s with usart2_rb_out := 0 }
      let s2 : UartState :=
        if s1.usart2_rb_in = s1.usart2_rb_out then { s1 with usart2_available_flag := false }
        else s1
      some (ret, s2)
  else if USARTx = USART6 then
    match arrayGet s.usart6_recv_buffer s.usart6_rb_out with
    | none => none
    | some ret =>
      let s1 : UartState :=
        if s.usart6_rb_out < RECV_BUFFER_SIZE - 1 then
          { s with usart6_rb_out := s.usart6_rb_out + 1 }
        else { s with usart6_rb_out := 0 }
      let s2 : UartState :=
        if s1.usart6_rb_in = s1.usart6_rb_out then { s1 with usart6_available_flag := false }
        else s1
      some (ret, s2)
  else some (0, s)

/-- The handler `USART2_IRQHandler`. `rxne` is what `USART_GetITStatus(USART2, USART_IT_RXNE)`
answers and `data` the `uint16_t` that `USART_ReceiveData(USART2)` delivers; storing it in an
`unsigned char` keeps its low eight bits. -/
def USART2_IRQHandler (rxne : Bool) (data : Nat) (s : UartState) : Option UartState :=
  if rxne then
    let s1 : UartState := { s with usart2_available_flag := true }
    match arraySet s1.usart2_recv_buffer s1.usart2_rb_in (data % 256) with
    | none => none
    | some buf =>
      let s2 : UartState := { s1 with usart2_recv_buffer := buf }
      if s2.usart2_rb_in < RECV_BUFFER_SIZE - 1 then
        some { s2 with usart2_rb_in := s2.usart2_rb_in + 1 }
      else some { s2 with usart2_rb_in := 0 }
  else some s

/-- The handler `USART6_IRQHandler`, with `rxne` and `data` as for `USART2_IRQHandler`. -/
def USART6_IRQHandler (rxne : Bool) (data : Nat) (s : UartState) : Option UartState :=
  if rxne then
    let s1 : UartState := { s with usart6_available_flag := true }
    match arraySet s1.usart6_recv_buffer s1.usart6_rb_in (data % 256) with
    | none => none
    | some buf =>
      let s2 : UartState := { s1 with usart6_recv_buffer := buf }
      if s2.usart6_rb_in < RECV_BUFFER_SIZE - 1 then
        some { s2 with usart6_rb_in := s2.usart6_rb_in + 1 }
      else some { s2 with usart6_rb_in := 0 }
  else some s

/-! ### One serial line at a time -/

/-- The two serial lines that own a ring buffer. -/
inductive SerialLine where
  | usart2
  | usart6
  deriving DecidableEq, Repr

/-- The handle of a serial line. -/
def SerialLine.handle : SerialLine → USART_TypeDef
  | .usart2 => USART2
  | .usart6 => USART6

/-- The ring buffer of one line: storage, write index, read index and flag. -/
structure RingBuffer where
  recv_buffer : Nat → Nat
  rb_in : Int
  rb_out : Int
  available_flag : Bool

/-- The ring buffer a line owns inside the module state. -/
def UartState.line (s : UartState) : SerialLine → RingBuffer
  | .usart2 => ⟨s.usart2_recv_buffer, s.usart2_rb_in, s.usart2_rb_out, s.usart2_available_flag⟩
  | .usart6 => ⟨s.usart6_recv_buffer, s.usart6_rb_in, s.usart6_rb_out, s.usart6_available_flag⟩

/-- The module state with the ring buffer of one line replaced. -/
def UartState.setLine (s : UartState) : SerialLine → RingBuffer → UartState
  | .usart2, r =>
    { s with
      usart2_recv_buffer := r.recv_buffer, usart2_rb_in := r.rb_in,
      usart2_rb_out := r.rb_out, usart2_available_flag := r.available_flag }
  | .usart6, r =>
    { s with
      usart6_recv_buffer := r.recv_buffer, usart6_rb_in := r.rb_in,
      usart6_rb_out := r.rb_out, usart6_available_flag := r.available_flag }

/-- A push on a line: its receive interrupt fires with the receive flag raised. -/
def push (l : SerialLine) (data : Nat) (s : UartState) : Option UartState :=
  match l with
  | .usart2 => USART2_IRQHandler true data s
  | .usart6 => USART6_IRQHandler true data s

/-- A pop on a line: one call of `c_common_usart_read` with the handle of the line. -/
def pop (l : SerialLine) (s : UartState) : Option (Nat × UartState) :=
  c_common_usart_read l.handle s

/-- One push per byte, in the order of the list. -/
def pushes (l : SerialLine) : List Nat → UartState → Option UartState
  | [], s => some s
  | x :: xs, s =>
    match push l x s with
    | none => none
    | some s1 => pushes l xs s1

/-- The given number of pops in a row: the bytes returned, in order, and the final state. -/
def pops (l : SerialLine) : Nat → UartState → Option (List Nat × UartState)
  | 0, s => some ([], s)
  | k + 1, s =>
    match pop l s with
    | none => none
    | some (r, s1) =>
      match pops l k s1 with
      | none => none
      | some (rs, s2) => some (r :: rs, s2)

/-! ### What one handler or one read does to the ring buffer of its line -/

/-- The successor of a ring index: `if (i < RECV_BUFFER_SIZE-1) i++; else i = 0;`. -/
def RingBuffer.next (i : Int) : Int :=
  if i < RECV_BUFFER_SIZE - 1 then i + 1 else 0

/-- The effect of a receive interrupt on the ring buffer it serves. -/
def RingBuffer.push (data : Nat) (r : RingBuffer) : Option RingBuffer :=
  if 0 ≤ r.rb_in ∧ r.rb_in < RECV_BUFFER_SIZE then
    some ⟨Function.update r.recv_buffer r.rb_in.toNat (data % 256),
      RingBuffer.next r.rb_in, r.rb_out, true⟩
  else none

/-- The effect of `c_common_usart_read` on the ring buffer it reads. -/
def RingBuffer.pop (r : RingBuffer) : Option (Nat × RingBuffer) :=
  if 0 ≤ r.rb_out ∧ r.rb_out < RECV_BUFFER_SIZE then
    some (r.recv_buffer r.rb_out.toNat,
      ⟨r.recv_buffer, r.rb_in, RingBuffer.next r.rb_out,
        if r.rb_in = RingBuffer.next r.rb_out then false else r.available_flag⟩)
  else none

/-- Pushes in a row on one ring buffer. -/
def RingBuffer.pushes : List Nat → RingBuffer → Option RingBuffer
  | [], r => some r
  | x :: xs, r =>
    match RingBuffer.push x r with
    | none => none
    | some r1 => RingBuffer.pushes xs r1

/-- Pops in a row on one ring buffer. -/
def RingBuffer.pops : Nat → RingBuffer → Option (List Nat × RingBuffer)
  | 0, r => some ([], r)
  | k + 1, r =>
    match RingBuffer.pop r with
    | none => none
    | some (x, r1) =>
      match RingBuffer.pops k r1 with
      | none => none
      | some (xs, r2) => some (x :: xs, r2)

/-! ### Arbitrary interleavings -/

/-- What can happen to the module between two observations: an interrupt of either line (with
what the status and data registers answer), or a call of one of the two readers. -/
inductive UartEvent where
  | irq2 (rxne : Bool) (data : Nat)
  | irq6 (rxne : Bool) (data : Nat)
  | read (USARTx : USART_TypeDef)
  | available (USARTx : USART_TypeDef)

/-- The state after one event; `none` when the event makes an access outside a buffer. -/
def UartEvent.apply : UartEvent → UartState → Option UartState
  | .irq2 rxne data, s => USART2_IRQHandler rxne data s
  | .irq6 rxne data, s => USART6_IRQHandler rxne data s
  | .read USARTx, s => (c_common_usart_read USARTx s).map Prod.snd
  | .available _, s => some s

/-- The state after a sequence of events, oldest first. -/
def runEvents : List UartEvent → UartState → Option UartState
  | [], s => some s
  | e :: es, s =>
    match e.apply s with
    | none => none
    | some s1 => runEvents es s1

/-- All four ring indices are valid positions of their buffer. -/
def UartState.IndicesInRange (s : UartState) : Prop :=
  (0 ≤ s.usart2_rb_in ∧ s.usart2_rb_in < RECV_BUFFER_SIZE) ∧
  (0 ≤ s.usart2_rb_out ∧ s.usart2_rb_out < RECV_BUFFER_SIZE) ∧
  (0 ≤ s.usart6_rb_in ∧ s.usart6_rb_in < RECV_BUFFER_SIZE) ∧
  (0 ≤ s.usart6_rb_out ∧ s.usart6_rb_out < RECV_BUFFER_SIZE)

/-! ## `c_io_imu.c`

The arithmetic of `float` is idealised: the filter is embedded over an arbitrary field `K`
(the rationals to compute, the reals to reason), so sums, products and quotients are exact.
The conversion `(float)` of a tick count is not idealised: it is a parameter of the filter,
`float_of_long` for the rounding to binary32 that the code performs. A quotient whose
divisor is zero has no value in a field; the embedding makes that explicit, and a
computation that performs such a division yields `none`. -/

/-- Modelled from the spec: the macro `PV_IMU_ROLL` of the header `c_io_imu.h`, which is not
among the sources; the estimate is the six-element array (roll, pitch, yaw, their rates). -/
def PV_IMU_ROLL : Nat := 0

/-- Modelled from the spec: the macro `PV_IMU_PITCH` of the missing header `c_io_imu.h`. -/
def PV_IMU_PITCH : Nat := 1

/-- Modelled from the spec: the macro `PV_IMU_YAW` of the missing header `c_io_imu.h`. -/
def PV_IMU_YAW : Nat := 2

/-- Modelled from the spec: the macro `PV_IMU_DROLL` of the missing header `c_io_imu.h`. -/
def PV_IMU_DROLL : Nat := 3

/-- Modelled from the spec: the macro `PV_IMU_DPITCH` of the missing header `c_io_imu.h`. -/
def PV_IMU_DPITCH : Nat := 4

/-- Modelled from the spec: the macro `PV_IMU_DYAW` of the missing header `c_io_imu.h`. -/
def PV_IMU_DYAW : Nat := 5

/-- Modelled from the spec: the macro `PV_IMU_X` of the missing header `c_io_imu.h`; a sample
vector is the three-element array (x, y, z). -/
def PV_IMU_X : Nat := 0

/-- Modelled from the spec: the macro `PV_IMU_Y` of the missing header `c_io_imu.h`. -/
def PV_IMU_Y : Nat := 1

/-- Modelled from the spec: the macro `PV_IMU_Z` of the missing header `c_io_imu.h`. -/
def PV_IMU_Z : Nat := 2

/-- The functions of `math.h` that the complementary filter calls, over the number type `K`.
`atan2 y x` takes its arguments in the order of C. -/
structure MathLib (K : Type) where
  sqrt : K → K
  atan : K → K
  atan2 : K → K → K
  sin : K → K
  cos : K → K

/-- The quotient `x / y` of two `float`s; `none` when the divisor is zero. -/
def fdiv {K : Type} [Field K] [DecidableEq K] (x y : K) : Option K :=
  if y = 0 then none else some (x / y)

/-- The variables of `c_io_imu.c` that the complementary filter keeps between calls. -/
structure ImuState (K : Type) where
  last_rpy : Nat → K
  lastIntegrationTime : Int

/-- The filter memory after static initialisation: `last_rpy = {0,0,0,0,0,0}` and
`lastIntegrationTime = 0`. -/
def ImuState.init {K : Type} [Field K] : ImuState K where
  last_rpy := fun _ => 0
  lastIntegrationTime := 0

/-- What one invocation of the filter obtains from outside: the three vectors that
`c_io_imu_getRaw` writes and the tick count that `c_common_utils_millis` answers. -/
structure ImuSample (K : Type) where
  acce_raw : Nat → K
  gyro_raw : Nat → K
  magn_raw : Nat → K
  millis : Int

/-- Lines 265-270 of `c_io_imu_getComplimentaryRPY`: the array `acce_rpy` of tilt angles
and heading computed from the accelerometer and magnetometer vectors. The local array starts
uninitialised in C; all three of its elements are assigned before they are read, so its
initial contents (here `0`) do not matter. `pow(v, 2)` is the square `v ^ 2`. -/
def getComplimentaryRPY_acce_rpy {K : Type} [Field K] [DecidableEq K] (m : MathLib K)
    (acce_raw magn_raw : Nat → K) : Option (Nat → K) := do
  let acce_rpy : Nat → K := fun _ => 0
  let qp ← fdiv (acce_raw PV_IMU_X) (m.sqrt (acce_raw PV_IMU_Y ^ 2 + acce_raw PV_IMU_Z ^ 2))
  let acce_rpy := Function.update acce_rpy PV_IMU_PITCH (m.atan qp)
  let qr ← fdiv (acce_raw PV_IMU_Y) (m.sqrt (acce_raw PV_IMU_X ^ 2 + acce_raw PV_IMU_Z ^ 2))
  let acce_rpy := Function.update acce_rpy PV_IMU_ROLL (m.atan qr)
  let xh : K := magn_raw PV_IMU_X * m.cos (acce_rpy PV_IMU_PITCH)
    + magn_raw PV_IMU_Y * m.sin (acce_rpy PV_IMU_ROLL) * m.sin (acce_rpy PV_IMU_PITCH)
    - magn_raw PV_IMU_Z * m.cos (acce_rpy PV_IMU_ROLL) * m.sin (acce_rpy PV_IMU_PITCH)
  let yh : K := magn_raw PV_IMU_Y * m.cos (acce_rpy PV_IMU_ROLL)
    - magn_raw PV_IMU_Z * m.sin (acce_rpy PV_IMU_ROLL)
  pure (Function.update acce_rpy PV_IMU_YAW (m.atan2 yh xh))

/-- The search for the distance between neighbouring binary32 numbers at the magnitude `n`:
the candidate `p` is doubled until `n < 2^24 · p`. -/
def float_ulp_from : Nat → Nat → Nat → Nat
  | 0, p, _ => p
  | fuel + 1, p, n => if n < 16777216 * p then p else float_ulp_from fuel (2 * p) n

/-- The distance between neighbouring binary32 numbers at the magnitude `n`: `1` below
`2^24`, where every integer is a binary32 number, `2` below `2^25`, and twice as much with
every further bit. The search needs far fewer than `n` doublings. -/
def float_ulp (n : Nat) : Nat :=
  float_ulp_from n 1 n

/-- The multiple of `p` nearest to `n`; of two equally near ones, the even multiple. -/
def float_round (n p : Nat) : Nat :=
  if 2 * (n % p) < p ∨ (2 * (n % p) = p ∧ n / p % 2 = 0) then n / p * p else (n / p + 1) * p

/-- The conversion `(float)v` of a `long` to binary32, which keeps 24 significant bits and
rounds to nearest, ties to even. The result is an integer. The largest binary32 number is
far above every `long`, so no conversion overflows. -/
def float_of_long (v : Int) : Int :=
  if v < 0 then -(float_round v.natAbs (float_ulp v.natAbs) : Int)
  else (float_round v.natAbs (float_ulp v.natAbs) : Int)

/-- Lines 279-281: the elapsed time in seconds,
`((float)IntegrationTime - (float)lastIntegrationTime)/1000.0`, with the stored tick count
replaced by the current one plus one when it is still the initial `0`. `toFloat` is the
conversion `(float)` of a tick count: `float_of_long` for binary32, the identity where the
conversion is taken as exact. The subtraction and the division are those of `K`. -/
def getComplimentaryRPY_IntegrationTimeDiff {K : Type} [Field K] (toFloat : Int → Int)
    (IntegrationTime lastIntegrationTime : Int) : K :=
  let lastIntegrationTime : Int :=
    if lastIntegrationTime = 0 then IntegrationTime + 1 else lastIntegrationTime
  ((toFloat IntegrationTime : K) - (toFloat lastIntegrationTime : K)) / 1000

/-- Lines 272-285, the first blend: `rpy` receives the angles of `acce_rpy`, then each angle
is replaced by `a*(rpy[i] + gyro_raw[i]*IntegrationTimeDiff) + (1.0f - a)*acce_rpy[i]`. -/
def getComplimentaryRPY_stage1 {K : Type} [Field K] (acce_rpy gyro_raw : Nat → K)
    (IntegrationTimeDiff : K) (rpy : Nat → K) : Nat → K :=
  let rpy := Function.update rpy PV_IMU_ROLL (acce_rpy PV_IMU_ROLL)
  let rpy := Function.update rpy PV_IMU_PITCH (acce_rpy PV_IMU_PITCH)
  let rpy := Function.update rpy PV_IMU_YAW (acce_rpy PV_IMU_YAW)
  let a : K := 93 / 100
  let rpy := Function.update rpy PV_IMU_ROLL
    (a * (rpy PV_IMU_ROLL + gyro_raw PV_IMU_ROLL * IntegrationTimeDiff)
      + (1 - a) * acce_rpy PV_IMU_ROLL)
  let rpy := Function.update rpy PV_IMU_PITCH
    (a * (rpy PV_IMU_PITCH + gyro_raw PV_IMU_PITCH * IntegrationTimeDiff)
      + (1 - a) * acce_rpy PV_IMU_PITCH)
  let rpy := Function.update rpy PV_IMU_YAW
    (a * (rpy PV_IMU_YAW + gyro_raw PV_IMU_YAW * IntegrationTimeDiff)
      + (1 - a) * acce_rpy PV_IMU_YAW)
  rpy

/-- Lines 288-293, the second blend of the angles against `last_rpy`, which then stores
them. -/
def getComplimentaryRPY_stage2 {K : Type} [Field K] [DecidableEq K]
    (IntegrationTimeDiff : K) (rpy last_rpy : Nat → K) : Option ((Nat → K) × (Nat → K)) := do
  let a : K := 93 / 100
  let w ← fdiv IntegrationTimeDiff (a + IntegrationTimeDiff)
  let rpy := Function.update rpy PV_IMU_ROLL
    (w * last_rpy PV_IMU_ROLL + rpy PV_IMU_ROLL * (1 - w))
  let rpy := Function.update rpy PV_IMU_PITCH
    (w * last_rpy PV_IMU_PITCH + rpy PV_IMU_PITCH * (1 - w))
  let rpy := Function.update rpy PV_IMU_YAW
    (w * last_rpy PV_IMU_YAW + rpy PV_IMU_YAW * (1 - w))
  let last_rpy := Function.update last_rpy PV_IMU_ROLL (rpy PV_IMU_ROLL)
  let last_rpy := Function.update last_rpy PV_IMU_PITCH (rpy PV_IMU_PITCH)
  let last_rpy := Function.update last_rpy PV_IMU_YAW (rpy PV_IMU_YAW)
  pure (rpy, last_rpy)

/-- Lines 295-300, the smoothed rates, stored in `last_rpy` as well. -/
def getComplimentaryRPY_rates {K : Type} [Field K] [DecidableEq K] (gyro_raw : Nat → K)
    (IntegrationTimeDiff : K) (rpy last_rpy : Nat → K) : Option ((Nat → K) × (Nat → K)) := do
  let b : K := 93 / 100
  let w ← fdiv IntegrationTimeDiff (b + IntegrationTimeDiff)
  let rpy := Function.update rpy PV_IMU_DROLL
    (w * last_rpy PV_IMU_DROLL + gyro_raw PV_IMU_ROLL * (1 - w))
  let rpy := Function.update rpy PV_IMU_DPITCH
    (w * last_rpy PV_IMU_DPITCH + gyro_raw PV_IMU_PITCH * (1 - w))
  let rpy := Function.update rpy PV_IMU_DYAW
    (w * last_rpy PV_IMU_DYAW + gyro_raw PV_IMU_YAW * (1 - w))
  let last_rpy := Function.update last_rpy PV_IMU_DROLL (rpy PV_IMU_DROLL)
  let last_rpy := Function.update last_rpy PV_IMU_DPITCH (rpy PV_IMU_DPITCH)
  let last_rpy := Function.update last_rpy PV_IMU_DYAW (rpy PV_IMU_DYAW)
  pure (rpy, last_rpy)

/-- The function `c_io_imu_getComplimentaryRPY`: from the sample of this call, the contents
of the caller's array `rpy` and the filter memory, the array written back and the new
memory. `toFloat` is the conversion `(float)` of a tick count, as in
`getComplimentaryRPY_IntegrationTimeDiff`. -/
def c_io_imu_getComplimentaryRPY {K : Type} [Field K] [DecidableEq K] (m : MathLib K)
    (toFloat : Int → Int) (x : ImuSample K) (rpy : Nat → K) (st : ImuState K) :
    Option ((Nat → K) × ImuState K) := do
  let acce_rpy ← getComplimentaryRPY_acce_rpy m x.acce_raw x.magn_raw
  let IntegrationTime : Int := x.millis
  let IntegrationTimeDiff : K :=
    getComplimentaryRPY_IntegrationTimeDiff toFloat IntegrationTime st.lastIntegrationTime
  let rpy := getComplimentaryRPY_stage1 acce_rpy x.gyro_raw IntegrationTimeDiff rpy
  let (rpy, last_rpy) ← getComplimentaryRPY_stage2 IntegrationTimeDiff rpy st.last_rpy
  let (rpy, last_rpy) ← getComplimentaryRPY_rates x.gyro_raw IntegrationTimeDiff rpy last_rpy
  pure (rpy, { last_rpy := last_rpy, lastIntegrationTime := IntegrationTime })

/-- The filter as `module_io_run` drives it: call number `i` (from `0`) receives the sample
`x i` and the array the previous call wrote. The result is the array and the memory after
`n` calls. -/
def getComplimentaryRPY_calls {K : Type} [Field K] [DecidableEq K] (m : MathLib K)
    (toFloat : Int → Int) (x : Nat → ImuSample K) :
    Nat → (Nat → K) → ImuState K → Option ((Nat → K) × ImuState K)
  | 0, rpy, st => some (rpy, st)
  | n + 1, rpy, st =>
    match getComplimentaryRPY_calls m toFloat x n rpy st with
    | none => none
    | some (rpy1, st1) => c_io_imu_getComplimentaryRPY m toFloat (x n) rpy1 st1

/-- The blend of the specification's stage 1:
`a·(previous_angle + gyro_rate·Δt) + (1−a)·tilt_or_heading_angle`. -/
def stage1_blend_spec {K : Type} [Field K] (a previous_angle gyro_rate dt angle : K) : K :=
  a * (previous_angle + gyro_rate * dt) + (1 - a) * angle

/-! ### `c_io_imu_getRaw`

The two bodies of `c_io_imu_getRaw`, one per `#ifdef`. The bytes that
`c_common_i2c_readBytes` delivers are inputs. C integers are mathematical integers, reduced
to their width where the source casts or operates on bit patterns. -/

/-- The value of a C `int` (32 bits, two's complement) that has the bit pattern of `v`. -/
def int32_t (v : Int) : Int :=
  if v % 4294967296 < 2147483648 then v % 4294967296 else v % 4294967296 - 4294967296

/-- The cast `(int16_t)v`. -/
def int16_t (v : Int) : Int :=
  if v % 65536 < 32768 then v % 65536 else v % 65536 - 65536

/-- The cast `(signed char)v`. -/
def signed_char (v : Int) : Int :=
  if v % 256 < 128 then v % 256 else v % 256 - 256

/-- The cast `(uint8_t)v`, also the content of a `uint8_t` array element. -/
def uint8_t (v : Int) : Int :=
  v % 256

/-- The expression `x | y` on two `int`s: bitwise or of the two 32-bit patterns. -/
def int_or (x y : Int) : Int :=
  int32_t (((x % 4294967296).toNat ||| (y % 4294967296).toNat : Nat) : Int)

/-- The expression `x & y` on two `int`s: bitwise and of the two 32-bit patterns. -/
def int_and (x y : Int) : Int :=
  int32_t (((x % 4294967296).toNat &&& (y % 4294967296).toNat : Nat) : Int)

/-- The expression `x << n` on an `int`: the low 32 bits of `x * 2^n`. -/
def int_shl (x : Int) (n : Nat) : Int :=
  int32_t (x * 2 ^ n)

/-- The body of `c_io_imu_getRaw` under `C_IO_IMU_USE_ITG_ADXL_HMC`. `accl`, `gyro` and
`magn` are the three six-byte blocks read from the ADXL345, the ITG3205 and the HMC5883;
the result is the contents of `accRaw`, `gyrRaw` and `magRaw` on return. -/
def c_io_imu_getRaw_ITG_ADXL_HMC {K : Type} [Field K] (accl gyro magn : Nat → Int)
    (accRaw gyrRaw magRaw : Nat → K) : (Nat → K) × (Nat → K) × (Nat → K) :=
  let imuBuffer : Nat → Int := fun i => uint8_t (accl i)
  let accRaw := Function.update accRaw 0
    ((int16_t (int_or (imuBuffer 0) (int_shl (imuBuffer 1) 8)) : Int) : K)
  let accRaw := Function.update accRaw 1
    ((int16_t (int_or (imuBuffer 2) (int_shl (imuBuffer 3) 8)) : Int) : K)
  let accRaw := Function.update accRaw 2
    ((int16_t (int_or (imuBuffer 4) (int_shl (imuBuffer 5) 8)) : Int) : K)
  let accScale : K := 14375 / 1000
  let accScale : K := 174532925 / 10000000000 / accScale
  let imuBuffer : Nat → Int := fun i => uint8_t (gyro i)
  let gyrRaw := Function.update gyrRaw 0
    (((int16_t (int_or (imuBuffer 1) (int_shl (imuBuffer 0) 8)) : Int) : K) * accScale)
  let gyrRaw := Function.update gyrRaw 1
    (((int16_t (int_or (imuBuffer 3) (int_shl (imuBuffer 2) 8)) : Int) : K) * accScale)
  let gyrRaw := Function.update gyrRaw 2
    (((int16_t (int_or (imuBuffer 5) (int_shl (imuBuffer 4) 8)) : Int) : K) * accScale)
  let imuBuffer : Nat → Int := fun i => uint8_t (magn i)
  let magRaw := Function.update magRaw 0
    ((int16_t (int_or (imuBuffer 1) (int_shl (imuBuffer 0) 8)) : Int) : K)
  let magRaw := Function.update magRaw 1
    ((int16_t (int_or (imuBuffer 5) (int_shl (imuBuffer 4) 8)) : Int) : K)
  let magRaw := Function.update magRaw 2
    ((int16_t (int_or (imuBuffer 3) (int_shl (imuBuffer 2) 8)) : Int) : K)
  let magRaw := Function.update magRaw 1
    ((magRaw 1 - ((Int.tdiv (250 - 488) 2 : Int) : K)) / (369 / 100))
  let magRaw := Function.update magRaw 0
    ((magRaw 0 - ((Int.tdiv (607 - 196) 2 : Int) : K)) / (4015 / 1000))
  let magRaw := Function.update magRaw 2
    ((magRaw 2 - ((Int.tdiv (263 - 422) 2 : Int) : K)) / (3425 / 1000))
  (accRaw, gyrRaw, magRaw)

/-- The body of `c_io_imu_getRaw` under `C_IO_IMU_USE_MPU6050_HMC5883`. `regs` is the
block of fourteen bytes read from the MPU6050 into `buffer`; `magRaw` is not written. -/
def c_io_imu_getRaw_MPU6050_HMC5883 {K : Type} [Field K] (regs : Nat → Int)
    (accRaw gyrRaw magRaw : Nat → K) : (Nat → K) × (Nat → K) × (Nat → K) :=
  let buffer : Nat → Int := fun i => uint8_t (regs i)
  let accScale : K := 16384
  let accRaw := Function.update accRaw 0
    (-1 * ((int_or (int_shl (signed_char (buffer 0)) 8)
      (int_and (uint8_t (buffer 1)) 255) : Int) : K) / accScale)
  let accRaw := Function.update accRaw 1
    (-1 * ((int_or (int_shl (signed_char (buffer 2)) 8)
      (int_and (uint8_t (buffer 3)) 255) : Int) : K) / accScale)
  let accRaw := Function.update accRaw 2
    (((int_or (int_shl (signed_char (buffer 4)) 8)
      (int_and (uint8_t (buffer 5)) 255) : Int) : K) / accScale)
  let gyrScale : K := 131
  let gyrRaw := Function.update gyrRaw 0
    (((int_or (int_shl (signed_char (buffer 8)) 8)
      (int_and (uint8_t (buffer 9)) 255) : Int) : K) / gyrScale)
  let gyrRaw := Function.update gyrRaw 1
    (((int_or (int_shl (signed_char (buffer 10)) 8)
      (int_and (uint8_t (buffer 11)) 255) : Int) : K) / gyrScale)
  let gyrRaw := Function.update gyrRaw 2
    (((int_or (int_shl (signed_char (buffer 12)) 8)
      (int_and (uint8_t (buffer 13)) 255) : Int) : K) / gyrScale)
  (accRaw, gyrRaw, magRaw)

/-- The two's-complement value of the sixteen bits whose high byte is `hi` and whose low
byte is `lo` (both in `[0, 256)`): `256*hi + lo - 65536*[hi ≥ 128]`. -/
def signed16_spec (hi lo : Int) : Int :=
  256 * hi + lo - 65536 * (if 128 ≤ hi then 1 else 0)

/-! ### The Kalman filter of `c_io_imu.c`

The state vector is `x = [e0 e1 e2 e3 bp bq br]`. `Cos`, `Sin`, `Sqrt` and `Power` are the
functions `cos`, `sin`, `sqrt` and `pow` of `math.h`. An entry of a matrix is `none` when
the expression assigned to it divides by zero. -/

/-- The matrices of the Kalman filter that `c_io_imu.c` keeps between calls. -/
structure KalmanState (K : Type) where
  TransitionMatrix_f32 : Fin 7 → Fin 7 → Option K
  P_f32 : Fin 7 → Fin 7 → K
  StateVector_f32 : Fin 7 → K

/-- The second part of `c_io_imu_CalculateTransitionMatrix` (`// Calculo da matriz de
Transicao`): the forty-nine entries assigned to `TransitionMatrix_f32`, from the quaternion
`e0..e3`, the half rates `a`, `b`, `c`, their sum of squares `d` and the time step. -/
def TransitionMatrix_entries {K : Type} [Field K] [DecidableEq K] (m : MathLib K)
    (e0 e1 e2 e3 a b c d deltat : K) : Fin 7 → Fin 7 → Option K :=
  let r : K := m.sqrt d
  let C : K := m.cos (m.sqrt d * deltat)
  let S : K := m.sin (m.sqrt d * deltat)
  ![![some C,
      (fdiv (a * S) r).map Neg.neg,
      (fdiv (b * S) r).map Neg.neg,
      (fdiv (c * S) r).map Neg.neg,
      fdiv (-((a * e0 - c * e2 + b * e3) * (-1 + C)) + r * e1 * S) (2 * d),
      fdiv (-((b * e0 + c * e1 - a * e3) * (-1 + C)) + r * e2 * S) (2 * d),
      fdiv (-((c * e0 - b * e1 + a * e2) * (-1 + C)) + r * e3 * S) (2 * d)],
    ![fdiv (a * S) r,
      some C,
      fdiv (c * S) r,
      (fdiv (b * S) r).map Neg.neg,
      fdiv (-((a * e1 - b * e2 - c * e3) * (-1 + C) + r * e0 * S)) (2 * d),
      fdiv ((c * e0 - b * e1 - a * e2) * (-1 + C) + r * e3 * S) (2 * d),
      fdiv (-((b * e0 + c * e1 + a * e3) * (-1 + C) + r * e2 * S)) (2 * d)],
    ![fdiv (b * S) r,
      (fdiv (c * S) r).map Neg.neg,
      some C,
      fdiv (a * S) r,
      fdiv (-((c * e0 + b * e1 + a * e2) * (-1 + C) + r * e3 * S)) (2 * d),
      fdiv ((a * e1 - b * e2 + c * e3) * (-1 + C) - r * e0 * S) (2 * d),
      fdiv ((a * e0 - c * e2 - b * e3) * (-1 + C) + r * e1 * S) (2 * d)],
    ![fdiv (c * S) r,
      fdiv (b * S) r,
      (fdiv (a * S) r).map Neg.neg,
      some C,
      fdiv ((b * e0 - c * e1 - a * e3) * (-1 + C) + r * e2 * S) (2 * d),
      fdiv (-((a * e0 + c * e2 + b * e3) * (-1 + C) + r * e1 * S)) (2 * d),
      fdiv ((a * e1 + b * e2 - c * e3) * (-1 + C) - r * e0 * S) (2 * d)],
    ![some 0, some 0, some 0, some 0, some 1, some 0, some 0],
    ![some 0, some 0, some 0, some 0, some 0, some 1, some 0],
    ![some 0, some 0, some 0, some 0, some 0, some 0, some 1]]

/-- The function `c_io_imu_CalculateTransitionMatrix`: its first part (`// Definicoes`)
reads the quaternion and forms `a`, `b`, `c`, `d` from the state vector and the gyro rates;
the entries it then assigns are those of `TransitionMatrix_entries`. -/
def c_io_imu_CalculateTransitionMatrix {K : Type} [Field K] [DecidableEq K] (m : MathLib K)
    (StateVector : Fin 7 → K) (gyro_raw : Nat → K) (deltat : K) : Fin 7 → Fin 7 → Option K :=
  let e0 := StateVector 0
  let e1 := StateVector 1
  let e2 := StateVector 2
  let e3 := StateVector 3
  let a : K := 1 / 2 * (-StateVector 4 + gyro_raw 0)
  let b : K := 1 / 2 * (-StateVector 5 + gyro_raw 1)
  let c : K := 1 / 2 * (-StateVector 6 + gyro_raw 2)
  let d : K := a ^ 2 + b ^ 2 + c ^ 2
  TransitionMatrix_entries m e0 e1 e2 e3 a b c d deltat

/-- The function `c_io_imu_CalculateH`: the twenty-eight entries it assigns to `H`, from the
state vector. `G` is a macro of the header `c_io_imu.h`, which is not among the sources, and
is taken as a parameter. -/
def c_io_imu_CalculateH {K : Type} [Field K] [DecidableEq K] (G : K)
    (StateVector : Fin 7 → K) : Fin 4 → Fin 7 → Option K :=
  let e0 := StateVector 0
  let e1 := StateVector 1
  let e2 := StateVector 2
  let e3 := StateVector 3
  ![![some (-2 * e2 * G), some (2 * e3 * G), some (-2 * e0 * G), some (2 * e1 * G),
      some 0, some 0, some 0],
    ![some (2 * e1 * G), some (2 * e0 * G), some (2 * e3 * G), some (2 * e2 * G),
      some 0, some 0, some 0],
    ![some (2 * e0 * G), some (-2 * e1 * G), some (-2 * e2 * G), some (2 * e3 * G),
      some 0, some 0, some 0],
    ![fdiv (-2 * (2 * e0 * e1 * e2 + (e0 ^ 2 - e1 ^ 2 + e2 ^ 2) * e3 + e3 ^ 3))
        (((e0 + e2) ^ 2 + (e1 - e3) ^ 2) * ((e0 - e2) ^ 2 + (e1 + e3) ^ 2)),
      fdiv (-2 * (-(e0 ^ 2 * e2) + 2 * e0 * e1 * e3 + e2 * (e1 ^ 2 + e2 ^ 2 + e3 ^ 2)))
        (((e0 + e2) ^ 2 + (e1 - e3) ^ 2) * ((e0 - e2) ^ 2 + (e1 + e3) ^ 2)),
      fdiv (2 * e1 * (e0 ^ 2 + e1 ^ 2 + e2 ^ 2) + 4 * e0 * e2 * e3 - 2 * e1 * e3 ^ 2)
        (((e0 + e2) ^ 2 + (e1 - e3) ^ 2) * ((e0 - e2) ^ 2 + (e1 + e3) ^ 2)),
      fdiv (2 * (e0 ^ 3 + 2 * e1 * e2 * e3 + e0 * (e1 ^ 2 - e2 ^ 2 + e3 ^ 2)))
        (((e0 + e2) ^ 2 + (e1 - e3) ^ 2) * ((e0 - e2) ^ 2 + (e1 + e3) ^ 2)),
      some 0, some 0, some 0]]

/-- The function `c_io_imu_getKalmanFilterRPY`: it reads a sample with `c_io_imu_getRaw`
and does nothing else; every later step of its body is a comment. The result is the
caller's array `rpy` and the matrices of the filter on return. -/
def c_io_imu_getKalmanFilterRPY {K : Type} (_x : ImuSample K) (rpy : Nat → K)
    (st : KalmanState K) : (Nat → K) × KalmanState K :=
  (rpy, st)

/-- The matrix of the values of the entries, when every entry has one. -/
def matrixValues {K : Type} [Zero K] {n : Nat} (Φ : Fin n → Fin 7 → Option K) :
    Option (Fin n → Fin 7 → K) :=
  if ∀ i j, (Φ i j).isSome = true then some (fun i j => (Φ i j).getD 0) else none

/-- The prediction of the specification for the state, `newState = Φ · state`, with `Φ`
computed by `c_io_imu_CalculateTransitionMatrix` from the state, the gyro rates and the time
step. -/
def predict_state_spec {K : Type} [Field K] [DecidableEq K] (m : MathLib K)
    (gyro_raw : Nat → K) (deltat : K) (x : Fin 7 → K) : Option (Fin 7 → K) :=
  (matrixValues (c_io_imu_CalculateTransitionMatrix m x gyro_raw deltat)).map
    (fun Φ => Matrix.mulVec (Matrix.of Φ) x)

/-- The prediction of the specification applied `n` times with the same gyro rates and time
step. -/
def predict_state_iterate_spec {K : Type} [Field K] [DecidableEq K] (m : MathLib K)
    (gyro_raw : Nat → K) (deltat : K) : Nat → (Fin 7 → K) → Option (Fin 7 → K)
  | 0, x => some x
  | n + 1, x =>
    match predict_state_iterate_spec m gyro_raw deltat n x with
    | none => none
    | some x1 => predict_state_spec m gyro_raw deltat x1

/-- The body-frame gravity measurement that the first three rows of `H` linearise:
`G·(2(e1·e3 − e0·e2), 2(e2·e3 + e0·e1), e0² − e1² − e2² + e3²)`. -/
def gravity_measurement_spec {K : Type} [Field K] (G : K) (x : Fin 7 → K) : Fin 3 → K :=
  ![G * (2 * (x 1 * x 3 - x 0 * x 2)), G * (2 * (x 2 * x 3 + x 0 * x 1)),
    G * (x 0 ^ 2 - x 1 ^ 2 - x 2 ^ 2 + x 3 ^ 2)]

/-- The heading numerator `Y = 2(e1·e2 + e0·e3)` of `ψ = atan2(Y, X)`. -/
def heading_Y_spec {K : Type} [Field K] (x : Fin 7 → K) : K :=
  2 * (x 1 * x 2 + x 0 * x 3)

/-- The heading denominator `X = e0² + e1² − e2² − e3²` of `ψ = atan2(Y, X)`. -/
def heading_X_spec {K : Type} [Field K] (x : Fin 7 → K) : K :=
  x 0 ^ 2 + x 1 ^ 2 - x 2 ^ 2 - x 3 ^ 2

/-- The divisor of the four quotients of row 3 of `c_io_imu_CalculateH`:
`((e0 + e2)² + (e1 − e3)²)·((e0 − e2)² + (e1 + e3)²)`. -/
def CalculateH_divisor {K : Type} [Field K] (x : Fin 7 → K) : K :=
  ((x 0 + x 2) ^ 2 + (x 1 - x 3) ^ 2) * ((x 0 - x 2) ^ 2 + (x 1 + x 3) ^ 2)

/-- The upper-left 4×4 block of a 7×7 matrix: the part that acts on the quaternion. -/
def quaternionBlock {K : Type} (Φ : Fin 7 → Fin 7 → K) : Matrix (Fin 4) (Fin 4) K :=
  Matrix.of (fun i j => Φ (Fin.castLE (by decide) i) (Fin.castLE (by decide) j))

/-- The component `Σ_j row[j]·x[j]` of a matrix-vector product, for one row of a matrix whose
entries may lack a value; it has a value when every entry of the row has one. -/
def rowApply {K : Type} [Field K] (row : Fin 7 → Option K) (x : Fin 7 → K) : Option K :=
  if ∀ j, (row j).isSome = true then some (∑ j, (row j).getD 0 * x j) else none

/-! ## `pv_module_io.c` -/

/-- An argument of `sprintf`: a `long` for `%ld`, a string for `%s`. -/
inductive SprintfArg where
  | long (v : Int)
  | str (s : String)

/-- The part of `sprintf` that `module_io_run` uses: the characters of the format are copied,
`%ld` is replaced by the decimal digits of the next argument and `%s` by the characters of
the next argument; `none` when an argument is missing or of the wrong kind. -/
def sprintf_chars : List Char → List SprintfArg → Option (List Char)
  | [], _ => some []
  | '%' :: 'l' :: 'd' :: fmt, SprintfArg.long v :: args =>
    (sprintf_chars fmt args).map (fun out => (toString v).data ++ out)
  | '%' :: 's' :: fmt, SprintfArg.str s :: args =>
    (sprintf_chars fmt args).map (fun out => s.data ++ out)
  | '%' :: _, _ => none
  | c :: fmt, args => (sprintf_chars fmt args).map (fun out => c :: out)

/-- The status line that `module_io_run` writes into `str` and hands to
`c_common_usart_puts`: `sprintf(str, "Time: %ld \t %s \t\t %s\n\r", millis, r, p)`, where
`millis` is what `c_common_utils_millis()` answers and `r`, `p` are the strings that
`c_common_utils_floatToString` produced for roll and pitch. -/
def module_io_run_status_line (millis : Int) (r p : String) : Option (List Char) :=
  sprintf_chars "Time: %ld \t %s \t\t %s\n\r".data
    [SprintfArg.long millis, SprintfArg.str r, SprintfArg.str p]

/-- The call `xQueueReceive(queue, &buffer, 0)` on the depth-one actuation mailbox: a
waiting message is copied into the buffer and leaves the mailbox; with an empty mailbox the
buffer keeps what it held. The result is the buffer and the mailbox after the call. -/
def xQueueReceive {Msg : Type} (mailbox : Option Msg) (buffer : Msg) : Msg × Option Msg :=
  match mailbox with
  | some msg => (msg, none)
  | none => (buffer, none)

/-- A call that `module_io_run` makes to the actuation collaborator. -/
inductive ActuatorCall where
  | c_io_blctrl_setSpeed (channel : Int) (speed : Int)
  deriving DecidableEq, Repr

/-- The first statements of a cycle of `module_io_run`, up to the actuator commands: the
mailbox is polled into `iActuation`, then `c_io_blctrl_setSpeed(0, 700)` and
`c_io_blctrl_setSpeed(1, 700)` are called. `Msg` is the type `pv_msg_io_actuation`, whose
declaration is not among the sources. The result is the list of calls made to the actuation
collaborator, in order, and `iActuation` after them. -/
def module_io_run_actuation {Msg : Type} (mailbox : Option Msg) (iActuation : Msg) :
    List ActuatorCall × Msg :=
  let iActuation := (xQueueReceive mailbox iActuation).1
  ([ActuatorCall.c_io_blctrl_setSpeed 0 700, ActuatorCall.c_io_blctrl_setSpeed 1 700],
    iActuation)

/-- The local array of `module_io_run` that it passes to `c_io_imu_getComplimentaryRPY`:
`float rpy[] = {0,0,0};`. -/
def module_io_run_rpy {K : Type} [Field K] : List K :=
  [0, 0, 0]

/-- The elements of its parameter `rpy` that `c_io_imu_getComplimentaryRPY` assigns, in the
order of the assignments of lines 272-297. -/
def getComplimentaryRPY_rpy_writes : List Nat :=
  [PV_IMU_ROLL, PV_IMU_PITCH, PV_IMU_YAW, PV_IMU_ROLL, PV_IMU_PITCH, PV_IMU_YAW,
    PV_IMU_ROLL, PV_IMU_PITCH, PV_IMU_YAW, PV_IMU_DROLL, PV_IMU_DPITCH, PV_IMU_DYAW]

/-- The call `c_io_imu_getComplimentaryRPY(rpy)` on a caller's array of `rpy.length` floats.
An assignment `rpy[i] = v` of the callee needs the element `i` to exist; the call has no
value when one of the assigned elements lies outside the array. Otherwise the array holds
afterwards what the callee wrote into it. -/
def getComplimentaryRPY_on_array {K : Type} [Field K] [DecidableEq K] (m : MathLib K)
    (toFloat : Int → Int) (x : ImuSample K) (rpy : List K) (st : ImuState K) :
    Option (List K × ImuState K) :=
  if ∀ i ∈ getComplimentaryRPY_rpy_writes, i < rpy.length then
    (c_io_imu_getComplimentaryRPY m toFloat x (fun i => rpy.getD i 0) st).map
      (fun out => ((List.range rpy.length).map out.1, out.2))
  else none

/-! ## Theorems on the serial ring buffers -/

theorem setLine_line (s : UartState) (l : SerialLine) : s.setLine l (s.line l) = s := by
  cases l <;> rfl

theorem line_setLine (s : UartState) (l : SerialLine) (r : RingBuffer) :
    (s.setLine l r).line l = r := by
  cases l <;> rfl

theorem setLine_setLine (s : UartState) (l : SerialLine) (r r1 : RingBuffer) :
    (s.setLine l r).setLine l r1 = s.setLine l r1 := by
  cases l <;> rfl

/-- A push acts on the ring buffer of its line as `RingBuffer.push` and on nothing else. -/
theorem push_eq (l : SerialLine) (data : Nat) (s : UartState) :
    push l data s = (RingBuffer.push data (s.line l)).map (s.setLine l) := by
  cases l
  · simp only [push, USART2_IRQHandler, RingBuffer.push, arraySet, UartState.line, if_true]
    by_cases h : 0 ≤ s.usart2_rb_in ∧ s.usart2_rb_in < RECV_BUFFER_SIZE
    · simp only [h, and_self, if_true, Option.map_some', RingBuffer.next, UartState.setLine]
      split <;> rfl
    · simp [h]
  · simp only [push, USART6_IRQHandler, RingBuffer.push, arraySet, UartState.line, if_true]
    by_cases h : 0 ≤ s.usart6_rb_in ∧ s.usart6_rb_in < RECV_BUFFER_SIZE
    · simp only [h, and_self, if_true, Option.map_some', RingBuffer.next, UartState.setLine]
      split <;> rfl
    · simp [h]

/-- A pop acts on the ring buffer of its line as `RingBuffer.pop` and on nothing else. -/
theorem pop_eq (l : SerialLine) (s : UartState) :
    pop l s = (RingBuffer.pop (s.line l)).map (fun p => (p.1, s.setLine l p.2)) := by
  cases l
  · simp only [pop, SerialLine.handle, c_common_usart_read, RingBuffer.pop, arrayGet,
      UartState.line, if_true]
    by_cases h : 0 ≤ s.usart2_rb_out ∧ s.usart2_rb_out < RECV_BUFFER_SIZE
    · simp only [h, and_self, if_true, Option.map_some', RingBuffer.next, UartState.setLine]
      by_cases h1 : s.usart2_rb_out < RECV_BUFFER_SIZE - 1
      · simp only [h1, if_true]
        split <;> rfl
      · simp only [h1, if_false]
        split <;> rfl
    · simp [h]
  · simp only [pop, SerialLine.handle, c_common_usart_read, RingBuffer.pop, arrayGet,
      UartState.line, if_true]
    have h26 : ¬ (USART6 = USART2) := by decide
    simp only [h26, if_false]
    by_cases h : 0 ≤ s.usart6_rb_out ∧ s.usart6_rb_out < RECV_BUFFER_SIZE
    · simp only [h, and_self, if_true, Option.map_some', RingBuffer.next, UartState.setLine]
      by_cases h1 : s.usart6_rb_out < RECV_BUFFER_SIZE - 1
      · simp only [h1, if_true]
        split <;> rfl
      · simp only [h1, if_false]
        split <;> rfl
    · simp [h]

theorem pushes_eq (l : SerialLine) (xs : List Nat) (s : UartState) :
    pushes l xs s = (RingBuffer.pushes xs (s.line l)).map (s.setLine l) := by
  induction xs generalizing s with
  | nil => simp [pushes, RingBuffer.pushes, setLine_line]
  | cons x xs ih =>
    simp only [pushes, RingBuffer.pushes, push_eq]
    cases h : RingBuffer.push x (s.line l) with
    | none => simp
    | some r1 =>
      simp only [Option.map_some', ih, line_setLine]
      cases RingBuffer.pushes xs r1 with
      | none => simp
      | some r2 => simp [setLine_setLine]

theorem pops_eq (l : SerialLine) (k : Nat) (s : UartState) :
    pops l k s = (RingBuffer.pops k (s.line l)).map (fun p => (p.1, s.setLine l p.2)) := by
  induction k generalizing s with
  | zero => simp [pops, RingBuffer.pops, setLine_line]
  | succ k ih =>
    simp only [pops, RingBuffer.pops, pop_eq]
    cases h : RingBuffer.pop (s.line l) with
    | none => simp
    | some p =>
      obtain ⟨x, r1⟩ := p
      simp only [Option.map_some', ih, line_setLine]
      cases RingBuffer.pops k r1 with
      | none => simp
      | some q => simp [setLine_setLine]

theorem next_eq (i : Int) (h0 : 0 ≤ i) (h1 : i < 64) : RingBuffer.next i = (i + 1) % 64 := by
  unfold RingBuffer.next RECV_BUFFER_SIZE
  split <;> omega

theorem next_range (i : Int) (h0 : 0 ≤ i) :
    0 ≤ RingBuffer.next i ∧ RingBuffer.next i < 64 := by
  unfold RingBuffer.next RECV_BUFFER_SIZE
  split <;> omega

theorem RingBuffer.push_some (x : Nat) (r : RingBuffer) (h0 : 0 ≤ r.rb_in) (h1 : r.rb_in < 64) :
    RingBuffer.push x r = some ⟨Function.update r.recv_buffer r.rb_in.toNat (x % 256),
      (r.rb_in + 1) % 64, r.rb_out, true⟩ := by
  have h : 0 ≤ r.rb_in ∧ r.rb_in < RECV_BUFFER_SIZE := ⟨h0, h1⟩
  simp only [RingBuffer.push, h, and_self, if_true, next_eq r.rb_in h0 h1]

theorem RingBuffer.pop_some (r : RingBuffer) (h0 : 0 ≤ r.rb_out) (h1 : r.rb_out < 64) :
    RingBuffer.pop r = some (r.recv_buffer r.rb_out.toNat,
      ⟨r.recv_buffer, r.rb_in, (r.rb_out + 1) % 64,
        if r.rb_in = (r.rb_out + 1) % 64 then false else r.available_flag⟩) := by
  have h : 0 ≤ r.rb_out ∧ r.rb_out < RECV_BUFFER_SIZE := ⟨h0, h1⟩
  simp only [RingBuffer.pop, h, and_self, if_true, next_eq r.rb_out h0 h1]

/-- The state a run of pushes leaves: indices, flag, and the slots it did not write. -/
theorem RingBuffer.pushes_spec (xs : List Nat) (r : RingBuffer)
    (h0 : 0 ≤ r.rb_in) (h1 : r.rb_in < 64) :
    ∃ r1, RingBuffer.pushes xs r = some r1 ∧ r1.rb_in = (r.rb_in + xs.length) % 64 ∧
      r1.rb_out = r.rb_out ∧ (xs ≠ [] → r1.available_flag = true) ∧
      (xs = [] → r1.available_flag = r.available_flag) ∧
      (∀ j : Nat, (∀ m : Nat, m < xs.length → ((r.rb_in + m) % 64).toNat ≠ j) →
        r1.recv_buffer j = r.recv_buffer j) := by
  induction xs generalizing r with
  | nil =>
    refine ⟨r, rfl, ?_, rfl, by simp, by simp, by simp⟩
    simp only [List.length_nil, Nat.cast_zero, add_zero]
    omega
  | cons x xs ih =>
    have hlt : 0 ≤ (r.rb_in + 1) % 64 ∧ (r.rb_in + 1) % 64 < 64 := by omega
    obtain ⟨r1, hr1, hin, hout, hflag, _, hframe⟩ :=
      ih ⟨Function.update r.recv_buffer r.rb_in.toNat (x % 256), (r.rb_in + 1) % 64,
        r.rb_out, true⟩ hlt.1 hlt.2
    refine ⟨r1, ?_, ?_, hout, ?_, by simp, ?_⟩
    · simp only [RingBuffer.pushes, RingBuffer.push_some x r h0 h1, hr1]
    · rw [hin]
      simp only [List.length_cons, Nat.cast_add, Nat.cast_one]
      omega
    · intro _
      by_cases hxs : xs = []
      · subst hxs
        simp only [RingBuffer.pushes, Option.some.injEq] at hr1
        rw [← hr1]
      · exact hflag hxs
    · intro j hj
      have h2 : ∀ m : Nat, m < xs.length → (((r.rb_in + 1) % 64 + m) % 64).toNat ≠ j := by
        intro m hm
        have := hj (m + 1) (by simp only [List.length_cons]; omega)
        have e : ((r.rb_in + 1) % 64 + (m : Int)) % 64 = (r.rb_in + ((m + 1 : Nat) : Int)) % 64 := by
          push_cast
          omega
        rw [e]
        exact this
      rw [hframe j h2]
      have h3 := hj 0 (by simp)
      simp only [Nat.cast_zero, add_zero] at h3
      have h4 : r.rb_in % 64 = r.rb_in := by omega
      rw [h4] at h3
      simp only
      rw [Function.update_noteq (Ne.symm h3)]

/-- After at most `64` pushes, the slot `m` places after the old write index holds byte `m`. -/
theorem RingBuffer.pushes_content (xs : List Nat) (r r1 : RingBuffer)
    (h0 : 0 ≤ r.rb_in) (h1 : r.rb_in < 64) (hlen : xs.length ≤ 64)
    (hr : RingBuffer.pushes xs r = some r1) (m x : Nat) (hx : xs[m]? = some x) :
    r1.recv_buffer ((r.rb_in + m) % 64).toNat = x % 256 := by
  induction xs generalizing r m with
  | nil => simp at hx
  | cons y ys ih =>
    have hlt : 0 ≤ (r.rb_in + 1) % 64 ∧ (r.rb_in + 1) % 64 < 64 := by omega
    simp only [RingBuffer.pushes, RingBuffer.push_some y r h0 h1] at hr
    simp only [List.length_cons] at hlen
    cases m with
    | zero =>
      simp only [List.getElem?_cons_zero, Option.some.injEq] at hx
      obtain ⟨r2, hr2, _, _, _, _, hframe⟩ :=
        RingBuffer.pushes_spec ys ⟨Function.update r.recv_buffer r.rb_in.toNat (y % 256),
          (r.rb_in + 1) % 64, r.rb_out, true⟩ hlt.1 hlt.2
      rw [hr] at hr2
      simp only [Option.some.injEq] at hr2
      subst hr2
      simp only [Nat.cast_zero, add_zero]
      have h4 : r.rb_in % 64 = r.rb_in := by omega
      rw [h4, hframe]
      · simp [hx]
      · intro k hk
        simp only
        omega
    | succ k =>
      simp only [List.getElem?_cons_succ] at hx
      have := ih ⟨Function.update r.recv_buffer r.rb_in.toNat (y % 256),
          (r.rb_in + 1) % 64, r.rb_out, true⟩ hlt.1 hlt.2 (by omega) hr k hx
      have e : ((r.rb_in + 1) % 64 + (k : Int)) % 64 = (r.rb_in + ((k + 1 : Nat) : Int)) % 64 := by
        push_cast
        omega
      simp only at this
      rw [e] at this
      exact this

/-- A run of pops returns the slots from the read index on, and leaves storage alone. -/
theorem RingBuffer.pops_spec (k : Nat) (r : RingBuffer)
    (h0 : 0 ≤ r.rb_out) (h1 : r.rb_out < 64) :
    ∃ r1, RingBuffer.pops k r =
        some ((List.range k).map (fun m : Nat => r.recv_buffer ((r.rb_out + m) % 64).toNat), r1) ∧
      r1.rb_out = (r.rb_out + k) % 64 ∧ r1.rb_in = r.rb_in ∧
      r1.recv_buffer = r.recv_buffer ∧
      ((∀ m : Nat, m < k → (r.rb_out + m + 1) % 64 ≠ r.rb_in) →
        r1.available_flag = r.available_flag) ∧
      (1 ≤ k → (r.rb_out + k) % 64 = r.rb_in → r1.available_flag = false) := by
  induction k generalizing r with
  | zero =>
    refine ⟨r, rfl, ?_, rfl, rfl, by simp, by simp⟩
    simp only [Nat.cast_zero, add_zero]
    omega
  | succ k ih =>
    have hlt : 0 ≤ (r.rb_out + 1) % 64 ∧ (r.rb_out + 1) % 64 < 64 := by omega
    obtain ⟨r1, hr1, hout, hin, hbuf, hkeep, hclear⟩ :=
      ih ⟨r.recv_buffer, r.rb_in, (r.rb_out + 1) % 64,
        if r.rb_in = (r.rb_out + 1) % 64 then false else r.available_flag⟩ hlt.1 hlt.2
    have e : ∀ m : Nat, ((r.rb_out + 1) % 64 + (m : Int)) % 64
        = (r.rb_out + ((m + 1 : Nat) : Int)) % 64 := by
      intro m
      push_cast
      omega
    refine ⟨r1, ?_, ?_, hin, hbuf, ?_, ?_⟩
    · simp only [RingBuffer.pops, RingBuffer.pop_some r h0 h1, hr1, List.range_succ_eq_map,
        List.map_cons, List.map_map, Nat.cast_zero, add_zero]
      have h4 : r.rb_out % 64 = r.rb_out := by omega
      rw [h4]
      congr 3
      apply List.map_congr_left
      intro m _
      simp only [Function.comp, e m, Nat.succ_eq_add_one]
    · rw [hout]
      push_cast
      omega
    · intro hne
      have hfirst := hne 0 (by omega)
      simp only [Nat.cast_zero, add_zero] at hfirst
      rw [hkeep]
      · simp only
        rw [if_neg (Ne.symm hfirst)]
      · intro m hm
        have := hne (m + 1) (by omega)
        simp only
        push_cast at this
        omega
    · intro _ hk
      by_cases hk0 : k = 0
      · subst hk0
        simp only [RingBuffer.pops, Option.some.injEq, Prod.mk.injEq] at hr1
        rw [← hr1.2]
        simp only [Nat.cast_zero, zero_add, Nat.cast_one] at hk
        simp only
        rw [if_pos hk.symm]
      · apply hclear (by omega)
        simp only
        push_cast at hk
        omega

theorem RingBuffer.pushes_append (xs ys : List Nat) (r : RingBuffer) :
    RingBuffer.pushes (xs ++ ys) r = (RingBuffer.pushes xs r).bind (RingBuffer.pushes ys) := by
  induction xs generalizing r with
  | nil => simp [RingBuffer.pushes]
  | cons x xs ih =>
    simp only [List.cons_append, RingBuffer.pushes]
    cases RingBuffer.push x r with
    | none => simp
    | some r1 => simp [ih]

/-- Sixty-four pushes bring the write index back; the next push overwrites that slot. -/
theorem RingBuffer.pushes_overflow (ys : List Nat) (x : Nat) (r : RingBuffer)
    (h0 : 0 ≤ r.rb_in) (h1 : r.rb_in < 64) (hlen : ys.length = 64) :
    ∃ r64 r65, RingBuffer.pushes ys r = some r64 ∧
      RingBuffer.pushes (ys ++ [x]) r = some r65 ∧
      r65.recv_buffer = Function.update r64.recv_buffer r.rb_in.toNat (x % 256) ∧
      r65.rb_in = (r.rb_in + 1) % 64 ∧ r65.rb_out = r.rb_out ∧
      r65.available_flag = true ∧ r64.rb_in = r.rb_in := by
  obtain ⟨r64, hr64, hin, hout, _, _, _⟩ := RingBuffer.pushes_spec ys r h0 h1
  have hin64 : r64.rb_in = r.rb_in := by
    rw [hin, hlen]
    push_cast
    omega
  refine ⟨r64, ⟨Function.update r64.recv_buffer r.rb_in.toNat (x % 256), (r.rb_in + 1) % 64,
    r.rb_out, true⟩, hr64, ?_, rfl, rfl, rfl, rfl, hin64⟩
  rw [RingBuffer.pushes_append, hr64]
  simp only [Option.some_bind, RingBuffer.pushes]
  rw [RingBuffer.push_some x r64 (by omega) (by omega), hin64, hout]

/-- C1. On either serial line, from any state whose read index equals its write index (both
in `[0,64)`), pushing the bytes `x_1..x_k` (`k ≤ 64`) through the receive interrupt handler
and then calling `c_common_usart_read` `k` times succeeds with every access in bounds and
returns exactly `x_1..x_k`, in the order pushed. -/
theorem fifo_order (l : SerialLine) (s : UartState) (xs : List Nat)
    (hin : 0 ≤ (s.line l).rb_in ∧ (s.line l).rb_in < 64)
    (heq : (s.line l).rb_out = (s.line l).rb_in)
    (hk : xs.length ≤ 64) (hbyte : ∀ x ∈ xs, x < 256) :
    ∃ s1 s2, pushes l xs s = some s1 ∧ pops l xs.length s1 = some (xs, s2) := by
  obtain ⟨r1, hr1, _, hout, _, _, _⟩ := RingBuffer.pushes_spec xs (s.line l) hin.1 hin.2
  have ho : 0 ≤ r1.rb_out ∧ r1.rb_out < 64 := by
    rw [hout, heq]
    exact hin
  obtain ⟨r2, hr2, _⟩ := RingBuffer.pops_spec xs.length r1 ho.1 ho.2
  refine ⟨s.setLine l r1, (s.setLine l r1).setLine l r2, ?_, ?_⟩
  · rw [pushes_eq, hr1]
    rfl
  · rw [pops_eq, line_setLine, hr2]
    simp only [Option.map_some', Option.some.injEq, Prod.mk.injEq, and_true]
    apply List.ext_getElem?
    intro m
    by_cases hm : m < xs.length
    · rw [List.getElem?_map, List.getElem?_range hm, List.getElem?_eq_getElem hm]
      simp only [Option.map_some', Option.some.injEq]
      rw [hout, heq]
      have hc := RingBuffer.pushes_content xs (s.line l) r1 hin.1 hin.2 hk hr1 m xs[m]
        (List.getElem?_eq_getElem hm)
      rw [hc]
      exact Nat.mod_eq_of_lt (hbyte _ (List.getElem_mem hm))
    · rw [List.getElem?_eq_none (by simpa using hm), List.getElem?_eq_none (by simpa using hm)]

/-- C1, witness: three bytes through the freshly initialised USART2 buffer. -/
theorem fifo_order_witness :
    (0 ≤ (UartState.init.line .usart2).rb_in ∧ (UartState.init.line .usart2).rb_in < 64) ∧
    (UartState.init.line .usart2).rb_out = (UartState.init.line .usart2).rb_in ∧
    [7, 8, 9].length ≤ 64 ∧ (∀ x ∈ [7, 8, 9], x < 256) ∧
    ∃ s1 s2, pushes .usart2 [7, 8, 9] UartState.init = some s1 ∧
      pops .usart2 [7, 8, 9].length s1 = some ([7, 8, 9], s2) :=
  ⟨by decide, rfl, by decide, by decide,
    fifo_order .usart2 UartState.init [7, 8, 9] (by decide) rfl (by decide) (by decide)⟩

set_option maxRecDepth 100000 in
/-- C2, as stated, fails. After the bytes `0, 1, .., 64` are pushed into the freshly
initialised USART2 buffer, sixty-four reads return `64, 1, 2, .., 63`: the first read returns
the newest byte, not the second one pushed, so the reads are not `1, 2, .., 64`. -/
theorem overflow_pop_order_counterexample :
    ((pushes .usart2 (List.range 64 ++ [64]) UartState.init).bind (pops .usart2 64)).map Prod.fst
        = some (64 :: List.range' 1 63) ∧
      (64 :: List.range' 1 63) ≠ List.range' 1 63 ++ [64] := by
  constructor
  · decide
  · decide

/-- Storage after sixty-five pushes `y_0..y_63, x`: the slot at the old write index holds
`x`, the slot `m` places further (`1 ≤ m < 64`) holds `y_m`. -/
theorem RingBuffer.overflow_slots (ys : List Nat) (x : Nat) (r r64 r65 : RingBuffer)
    (h0 : 0 ≤ r.rb_in) (h1 : r.rb_in < 64) (hlen : ys.length = 64)
    (h64 : RingBuffer.pushes ys r = some r64)
    (hbuf : r65.recv_buffer = Function.update r64.recv_buffer r.rb_in.toNat (x % 256))
    (m : Nat) (hm : m < 64) :
    r65.recv_buffer ((r.rb_in + m) % 64).toNat
      = if m = 0 then x % 256 else ys.getD m 0 % 256 := by
  rw [hbuf]
  by_cases hm0 : m = 0
  · subst hm0
    have h4 : (r.rb_in + ((0 : Nat) : Int)) % 64 = r.rb_in := by omega
    rw [h4, Function.update_same, if_pos rfl]
  · rw [if_neg hm0, Function.update_noteq (by omega)]
    have hml : m < ys.length := by omega
    rw [RingBuffer.pushes_content ys r r64 h0 h1 (by omega) h64 m ys[m]
      (List.getElem?_eq_getElem hml)]
    simp [List.getD_eq_getElem?_getD, List.getElem?_eq_getElem hml]

/-- C2, amended. On either line, from any state whose read index equals its write index
(both in `[0,64)`), after the sixty-five bytes `y_0..y_63, x` are pushed with no read in
between, sixty-four calls of `c_common_usart_read` return `x` first (the newest byte, which
overwrote `y_0`) and then `y_1..y_63` in order: the `N`-th call returns the `N`-th pushed
byte for `2 ≤ N ≤ 64`, and only `y_0` is lost. -/
theorem overflow_pop_order (l : SerialLine) (s : UartState) (ys : List Nat) (x : Nat)
    (hin : 0 ≤ (s.line l).rb_in ∧ (s.line l).rb_in < 64)
    (heq : (s.line l).rb_out = (s.line l).rb_in)
    (hlen : ys.length = 64) (hbyte : ∀ y ∈ ys, y < 256) (hx : x < 256) :
    ∃ s65 s2, pushes l (ys ++ [x]) s = some s65 ∧ pops l 64 s65 = some (x :: ys.tail, s2) := by
  obtain ⟨r64, r65, h64, h65, hbuf, _, hout, _, _⟩ :=
    RingBuffer.pushes_overflow ys x (s.line l) hin.1 hin.2 hlen
  have ho : 0 ≤ r65.rb_out ∧ r65.rb_out < 64 := by
    rw [hout, heq]
    exact hin
  obtain ⟨r2, hr2, _⟩ := RingBuffer.pops_spec 64 r65 ho.1 ho.2
  refine ⟨s.setLine l r65, (s.setLine l r65).setLine l r2, ?_, ?_⟩
  · rw [pushes_eq, h65]
    rfl
  · rw [pops_eq, line_setLine, hr2]
    simp only [Option.map_some', Option.some.injEq, Prod.mk.injEq, and_true]
    apply List.ext_getElem?
    intro m
    by_cases hm : m < 64
    · rw [List.getElem?_map, List.getElem?_range hm]
      simp only [Option.map_some']
      rw [hout, heq, RingBuffer.overflow_slots ys x (s.line l) r64 r65 hin.1 hin.2 hlen h64
        hbuf m hm]
      cases m with
      | zero => simp [Nat.mod_eq_of_lt hx]
      | succ k =>
        have hk : k + 1 < ys.length := by omega
        simp only [Nat.add_one_ne_zero, if_false, List.getElem?_cons_succ, List.getElem?_tail,
          List.getD_eq_getElem?_getD, List.getElem?_eq_getElem hk, Option.getD_some]
        rw [Nat.mod_eq_of_lt (hbyte _ (List.getElem_mem hk))]
    · rw [List.getElem?_eq_none (by simp; omega), List.getElem?_eq_none (by simp; omega)]

/-- C2, amended, witness: the bytes `0..64` through the freshly initialised USART6 buffer. -/
theorem overflow_pop_order_witness :
    (0 ≤ (UartState.init.line .usart6).rb_in ∧ (UartState.init.line .usart6).rb_in < 64) ∧
    (UartState.init.line .usart6).rb_out = (UartState.init.line .usart6).rb_in ∧
    (List.range 64).length = 64 ∧ (∀ y ∈ List.range 64, y < 256) ∧ 64 < 256 ∧
    ∃ s65 s2, pushes .usart6 (List.range 64 ++ [64]) UartState.init = some s65 ∧
      pops .usart6 64 s65 = some (64 :: (List.range 64).tail, s2) :=
  ⟨by decide, rfl, by simp, by intro y hy; have := List.mem_range.mp hy; omega, by decide,
    overflow_pop_order .usart6 UartState.init (List.range 64) 64 (by decide) rfl (by simp)
      (by intro y hy; have := List.mem_range.mp hy; omega) (by decide)⟩

theorem available_eq (l : SerialLine) (s : UartState) :
    c_common_usart_available l.handle s = (s.line l).available_flag := by
  cases l <;> simp [c_common_usart_available, SerialLine.handle, UartState.line]

/-- C3. On either line, from any state whose write index is in `[0,64)` (an empty buffer
included), pushing the bytes `y_0..y_63` and then one more byte `x`, with no read in between,
leaves the storage holding `y_1..y_63, x`: after the first sixty-four pushes the slot at the
old write index holds `y_0`; after the sixty-fifth that slot holds `x`, every other slot is as
the first sixty-four pushes left it (so the slot `m` places further on still holds `y_m`),
and `c_common_usart_available` returns true. -/
theorem overflow_overwrites_oldest (l : SerialLine) (s : UartState) (ys : List Nat) (x : Nat)
    (hin : 0 ≤ (s.line l).rb_in ∧ (s.line l).rb_in < 64)
    (hlen : ys.length = 64) (hbyte : ∀ y ∈ ys, y < 256) (hx : x < 256) :
    ∃ s64 s65, pushes l ys s = some s64 ∧ pushes l (ys ++ [x]) s = some s65 ∧
      (s64.line l).recv_buffer (s.line l).rb_in.toNat = ys.getD 0 0 ∧
      (s65.line l).recv_buffer (s.line l).rb_in.toNat = x ∧
      (∀ j : Nat, j ≠ (s.line l).rb_in.toNat →
        (s65.line l).recv_buffer j = (s64.line l).recv_buffer j) ∧
      (∀ m : Nat, 1 ≤ m → m < 64 →
        (s65.line l).recv_buffer (((s.line l).rb_in + m) % 64).toNat = ys.getD m 0) ∧
      c_common_usart_available l.handle s65 = true := by
  obtain ⟨r64, r65, h64, h65, hbuf, _, _, hflag, _⟩ :=
    RingBuffer.pushes_overflow ys x (s.line l) hin.1 hin.2 hlen
  have hy : ∀ m : Nat, m < 64 → ys.getD m 0 % 256 = ys.getD m 0 := by
    intro m hm
    have hml : m < ys.length := by omega
    simp only [List.getD_eq_getElem?_getD, List.getElem?_eq_getElem hml, Option.getD_some]
    exact Nat.mod_eq_of_lt (hbyte _ (List.getElem_mem hml))
  refine ⟨s.setLine l r64, s.setLine l r65, ?_, ?_, ?_, ?_, ?_, ?_, ?_⟩
  · rw [pushes_eq, h64]
    rfl
  · rw [pushes_eq, h65]
    rfl
  · rw [line_setLine]
    have hc := RingBuffer.pushes_content ys (s.line l) r64 hin.1 hin.2 (by omega) h64 0
      (ys.getD 0 0) (by
        have hml : 0 < ys.length := by omega
        simp [List.getD_eq_getElem?_getD, List.getElem?_eq_getElem hml])
    have h4 : ((s.line l).rb_in + ((0 : Nat) : Int)) % 64 = (s.line l).rb_in := by omega
    rw [h4, hy 0 (by omega)] at hc
    exact hc
  · rw [line_setLine, hbuf, Function.update_same]
    exact Nat.mod_eq_of_lt hx
  · intro j hj
    rw [line_setLine, line_setLine, hbuf, Function.update_noteq hj]
  · intro m hm1 hm
    rw [line_setLine, RingBuffer.overflow_slots ys x (s.line l) r64 r65 hin.1 hin.2 hlen h64
      hbuf m hm, if_neg (by omega), hy m hm]
  · rw [available_eq, line_setLine, hflag]

/-- C3, witness: the bytes `0..63` and then `64` into the freshly initialised USART2 buffer. -/
theorem overflow_overwrites_oldest_witness :
    (0 ≤ (UartState.init.line .usart2).rb_in ∧ (UartState.init.line .usart2).rb_in < 64) ∧
    (List.range 64).length = 64 ∧ (∀ y ∈ List.range 64, y < 256) ∧ 64 < 256 ∧
    ∃ s64 s65, pushes .usart2 (List.range 64) UartState.init = some s64 ∧
      pushes .usart2 (List.range 64 ++ [64]) UartState.init = some s65 ∧
      (s64.line .usart2).recv_buffer (UartState.init.line .usart2).rb_in.toNat
        = (List.range 64).getD 0 0 ∧
      (s65.line .usart2).recv_buffer (UartState.init.line .usart2).rb_in.toNat = 64 ∧
      (∀ j : Nat, j ≠ (UartState.init.line .usart2).rb_in.toNat →
        (s65.line .usart2).recv_buffer j = (s64.line .usart2).recv_buffer j) ∧
      (∀ m : Nat, 1 ≤ m → m < 64 →
        (s65.line .usart2).recv_buffer (((UartState.init.line .usart2).rb_in + m) % 64).toNat
          = (List.range 64).getD m 0) ∧
      c_common_usart_available SerialLine.usart2.handle s65 = true :=
  ⟨by decide, by simp, by intro y hy; have := List.mem_range.mp hy; omega, by decide,
    overflow_overwrites_oldest .usart2 UartState.init (List.range 64) 64 (by decide) (by simp)
      (by intro y hy; have := List.mem_range.mp hy; omega) (by decide)⟩

/-- C4, as stated, fails. In the freshly initialised state no data is available on USART2
and its read index is `0`; one call of `c_common_usart_read` leaves the read index at `1`. -/
theorem read_when_empty_counterexample :
    c_common_usart_available USART2 UartState.init = false ∧
      UartState.init.usart2_rb_out = 0 ∧
      (c_common_usart_read USART2 UartState.init).map (fun p => p.2.usart2_rb_out) = some 1 := by
  decide

/-- C4, amended. `c_common_usart_read` makes no availability check: on either line, for
every state whose read index is in `[0,64)`, whatever the flag (so also when no data is
available), the call returns the byte stored at the read index and moves the read index to
its successor modulo `64`, which differs from the index before the call. -/
theorem read_always_advances (l : SerialLine) (s : UartState)
    (hout : 0 ≤ (s.line l).rb_out ∧ (s.line l).rb_out < 64) :
    ∃ s1, c_common_usart_read l.handle s
        = some ((s.line l).recv_buffer (s.line l).rb_out.toNat, s1) ∧
      (s1.line l).rb_out = ((s.line l).rb_out + 1) % 64 ∧
      (s1.line l).rb_out ≠ (s.line l).rb_out := by
  have h := pop_eq l s
  rw [RingBuffer.pop_some (s.line l) hout.1 hout.2] at h
  refine ⟨_, h, ?_, ?_⟩
  · rw [line_setLine]
  · rw [line_setLine]
    simp only
    omega

/-- C4, amended, witness: a read on the freshly initialised, empty USART2 buffer. -/
theorem read_always_advances_witness :
    (0 ≤ (UartState.init.line .usart2).rb_out ∧ (UartState.init.line .usart2).rb_out < 64) ∧
    ∃ s1, c_common_usart_read SerialLine.usart2.handle UartState.init
        = some ((UartState.init.line .usart2).recv_buffer
            (UartState.init.line .usart2).rb_out.toNat, s1) ∧
      (s1.line .usart2).rb_out = ((UartState.init.line .usart2).rb_out + 1) % 64 ∧
      (s1.line .usart2).rb_out ≠ (UartState.init.line .usart2).rb_out :=
  ⟨by decide, read_always_advances .usart2 UartState.init (by decide)⟩

/-- C5. On either line, from any state whose read index equals its write index (both in
`[0,64)`; the flag may be clear), after `k` pushes (`1 ≤ k ≤ 64`) followed by `j` reads,
all of which succeed, `c_common_usart_available` returns true when `j < k` and false when
`j = k`: the flag is cleared by the read that makes the indices equal and not before. -/
theorem available_until_drained (l : SerialLine) (s : UartState) (xs : List Nat) (j : Nat)
    (hin : 0 ≤ (s.line l).rb_in ∧ (s.line l).rb_in < 64)
    (heq : (s.line l).rb_out = (s.line l).rb_in)
    (hk1 : 1 ≤ xs.length) (hk : xs.length ≤ 64) :
    ∃ s1 rs s2, pushes l xs s = some s1 ∧ pops l j s1 = some (rs, s2) ∧
      (j < xs.length → c_common_usart_available l.handle s2 = true) ∧
      (j = xs.length → c_common_usart_available l.handle s2 = false) := by
  obtain ⟨r1, hr1, hin1, hout, hflag, _, _⟩ :=
    RingBuffer.pushes_spec xs (s.line l) hin.1 hin.2
  have hne : xs ≠ [] := by
    intro h
    simp [h] at hk1
  have ho : 0 ≤ r1.rb_out ∧ r1.rb_out < 64 := by
    rw [hout, heq]
    exact hin
  obtain ⟨r2, hr2, _, _, _, hkeep, hclear⟩ := RingBuffer.pops_spec j r1 ho.1 ho.2
  refine ⟨s.setLine l r1,
    (List.range j).map (fun m : Nat => r1.recv_buffer ((r1.rb_out + m) % 64).toNat),
    (s.setLine l r1).setLine l r2, ?_, ?_, ?_, ?_⟩
  · rw [pushes_eq, hr1]
    rfl
  · rw [pops_eq, line_setLine, hr2]
    rfl
  · intro hlt
    rw [available_eq, line_setLine, hkeep, hflag hne]
    intro m hm
    rw [hout, heq, hin1]
    omega
  · intro hjk
    rw [available_eq, line_setLine]
    apply hclear (by omega)
    rw [hout, heq, hin1, hjk]

/-- C5, witness: three pushes and two reads on the freshly initialised USART2 buffer. -/
theorem available_until_drained_witness :
    (0 ≤ (UartState.init.line .usart2).rb_in ∧ (UartState.init.line .usart2).rb_in < 64) ∧
    (UartState.init.line .usart2).rb_out = (UartState.init.line .usart2).rb_in ∧
    1 ≤ [7, 8, 9].length ∧ [7, 8, 9].length ≤ 64 ∧
    ∃ s1 rs s2, pushes .usart2 [7, 8, 9] UartState.init = some s1 ∧
      pops .usart2 2 s1 = some (rs, s2) ∧
      (2 < [7, 8, 9].length → c_common_usart_available SerialLine.usart2.handle s2 = true) ∧
      (2 = [7, 8, 9].length → c_common_usart_available SerialLine.usart2.handle s2 = false) :=
  ⟨by decide, rfl, by decide, by decide,
    available_until_drained .usart2 UartState.init [7, 8, 9] 2 (by decide) rfl (by decide)
      (by decide)⟩

theorem UartEvent.apply_inRange (e : UartEvent) (s : UartState) (h : s.IndicesInRange) :
    ∃ s1, e.apply s = some s1 ∧ s1.IndicesInRange := by
  obtain ⟨h2i, h2o, h6i, h6o⟩ := h
  cases e with
  | irq2 rxne data =>
    cases rxne with
    | false => exact ⟨s, rfl, h2i, h2o, h6i, h6o⟩
    | true =>
      have hp := push_eq .usart2 data s
      rw [RingBuffer.push_some data (s.line .usart2) h2i.1 h2i.2] at hp
      refine ⟨_, hp, ?_, h2o, h6i, h6o⟩
      simp only [UartState.setLine, UartState.line, RECV_BUFFER_SIZE]
      omega
  | irq6 rxne data =>
    cases rxne with
    | false => exact ⟨s, rfl, h2i, h2o, h6i, h6o⟩
    | true =>
      have hp := push_eq .usart6 data s
      rw [RingBuffer.push_some data (s.line .usart6) h6i.1 h6i.2] at hp
      refine ⟨_, hp, h2i, h2o, ?_, h6o⟩
      simp only [UartState.setLine, UartState.line, RECV_BUFFER_SIZE]
      omega
  | read USARTx =>
    by_cases hu2 : USARTx = USART2
    · subst hu2
      have hp := pop_eq .usart2 s
      rw [RingBuffer.pop_some (s.line .usart2) h2o.1 h2o.2] at hp
      refine ⟨_, congrArg (Option.map Prod.snd) hp, h2i, ?_, h6i, h6o⟩
      simp only [UartState.setLine, UartState.line, RECV_BUFFER_SIZE]
      omega
    · by_cases hu6 : USARTx = USART6
      · subst hu6
        have hp := pop_eq .usart6 s
        rw [RingBuffer.pop_some (s.line .usart6) h6o.1 h6o.2] at hp
        refine ⟨_, congrArg (Option.map Prod.snd) hp, h2i, h2o, h6i, ?_⟩
        simp only [UartState.setLine, UartState.line, RECV_BUFFER_SIZE]
        omega
      · refine ⟨s, ?_, h2i, h2o, h6i, h6o⟩
        simp [UartEvent.apply, c_common_usart_read, hu2, hu6]
  | available USARTx => exact ⟨s, rfl, h2i, h2o, h6i, h6o⟩

theorem runEvents_inRange (es : List UartEvent) (s : UartState) (h : s.IndicesInRange) :
    ∃ s1, runEvents es s = some s1 ∧ s1.IndicesInRange := by
  induction es generalizing s with
  | nil => exact ⟨s, rfl, h⟩
  | cons e es ih =>
    obtain ⟨s1, h1, hr1⟩ := UartEvent.apply_inRange e s h
    obtain ⟨s2, h2, hr2⟩ := ih s1 hr1
    refine ⟨s2, ?_, hr2⟩
    simp only [runEvents, h1, h2]

/-- C6. Every finite sequence of receive interrupts of either line (flag raised or not, any
data) and of calls of `c_common_usart_read` and `c_common_usart_available` with any handle
(reads on an empty buffer included), applied to the initial state, runs to the end with every
buffer access in bounds, and leaves all four ring indices in `[0, 64)`. -/
theorem indices_stay_in_range (es : List UartEvent) :
    ∃ s, runEvents es UartState.init = some s ∧
      (0 ≤ s.usart2_rb_in ∧ s.usart2_rb_in < 64) ∧ (0 ≤ s.usart2_rb_out ∧ s.usart2_rb_out < 64) ∧
      (0 ≤ s.usart6_rb_in ∧ s.usart6_rb_in < 64) ∧ (0 ≤ s.usart6_rb_out ∧ s.usart6_rb_out < 64) :=
  runEvents_inRange es UartState.init (by unfold UartState.IndicesInRange; decide)

/-! ## Theorems on the complementary filter -/

section Filter

variable {K : Type} [Field K] [DecidableEq K]

theorem fdiv_of_ne (x y : K) (h : y ≠ 0) : fdiv x y = some (x / y) := by
  simp [fdiv, h]

theorem fdiv_eq_none (x y : K) : fdiv x y = none ↔ y = 0 := by
  unfold fdiv
  split <;> simp_all

/-- The tilt angles exist as soon as the two divisors are not zero, and are the arc tangents
of the two quotients. -/
theorem acce_rpy_of_ne (m : MathLib K) (acce_raw magn_raw : Nat → K)
    (hp : m.sqrt (acce_raw PV_IMU_Y ^ 2 + acce_raw PV_IMU_Z ^ 2) ≠ 0)
    (hr : m.sqrt (acce_raw PV_IMU_X ^ 2 + acce_raw PV_IMU_Z ^ 2) ≠ 0) :
    ∃ acce_rpy, getComplimentaryRPY_acce_rpy m acce_raw magn_raw = some acce_rpy ∧
      acce_rpy PV_IMU_ROLL = m.atan (acce_raw PV_IMU_Y
        / m.sqrt (acce_raw PV_IMU_X ^ 2 + acce_raw PV_IMU_Z ^ 2)) ∧
      acce_rpy PV_IMU_PITCH = m.atan (acce_raw PV_IMU_X
        / m.sqrt (acce_raw PV_IMU_Y ^ 2 + acce_raw PV_IMU_Z ^ 2)) := by
  simp only [getComplimentaryRPY_acce_rpy, fdiv_of_ne _ _ hp, fdiv_of_ne _ _ hr,
    Option.bind_eq_bind, Option.some_bind, Option.pure_def]
  refine ⟨_, rfl, ?_, ?_⟩
  · simp [Function.update, PV_IMU_ROLL, PV_IMU_PITCH, PV_IMU_YAW]
  · simp [Function.update, PV_IMU_ROLL, PV_IMU_PITCH, PV_IMU_YAW]

omit [DecidableEq K] in
/-- The first blend does not read the incoming `rpy`: each angle it leaves is
`a*(acce_rpy[i] + gyro_raw[i]*dt) + (1 - a)*acce_rpy[i]`. -/
theorem stage1_angles (acce_rpy gyro_raw : Nat → K) (dt : K) (rpy : Nat → K) :
    getComplimentaryRPY_stage1 acce_rpy gyro_raw dt rpy PV_IMU_ROLL
        = 93 / 100 * (acce_rpy PV_IMU_ROLL + gyro_raw PV_IMU_ROLL * dt)
          + (1 - 93 / 100) * acce_rpy PV_IMU_ROLL ∧
      getComplimentaryRPY_stage1 acce_rpy gyro_raw dt rpy PV_IMU_PITCH
        = 93 / 100 * (acce_rpy PV_IMU_PITCH + gyro_raw PV_IMU_PITCH * dt)
          + (1 - 93 / 100) * acce_rpy PV_IMU_PITCH := by
  constructor <;>
    simp [getComplimentaryRPY_stage1, Function.update, PV_IMU_ROLL, PV_IMU_PITCH, PV_IMU_YAW]

/-- One invocation, when no divisor is zero: the roll and pitch written back and stored. -/
theorem call_of_ne (m : MathLib K) (toFloat : Int → Int) (x : ImuSample K) (rpy : Nat → K)
    (st : ImuState K) (acce_rpy : Nat → K)
    (hacc : getComplimentaryRPY_acce_rpy m x.acce_raw x.magn_raw = some acce_rpy)
    (dt : K)
    (hdt : getComplimentaryRPY_IntegrationTimeDiff toFloat x.millis st.lastIntegrationTime = dt)
    (hw : 93 / 100 + dt ≠ 0) :
    ∃ rpy1 st1, c_io_imu_getComplimentaryRPY m toFloat x rpy st = some (rpy1, st1) ∧
      rpy1 PV_IMU_ROLL = dt / (93 / 100 + dt) * st.last_rpy PV_IMU_ROLL
        + (93 / 100 * (acce_rpy PV_IMU_ROLL + x.gyro_raw PV_IMU_ROLL * dt)
          + (1 - 93 / 100) * acce_rpy PV_IMU_ROLL) * (1 - dt / (93 / 100 + dt)) ∧
      rpy1 PV_IMU_PITCH = dt / (93 / 100 + dt) * st.last_rpy PV_IMU_PITCH
        + (93 / 100 * (acce_rpy PV_IMU_PITCH + x.gyro_raw PV_IMU_PITCH * dt)
          + (1 - 93 / 100) * acce_rpy PV_IMU_PITCH) * (1 - dt / (93 / 100 + dt)) ∧
      st1.last_rpy PV_IMU_ROLL = rpy1 PV_IMU_ROLL ∧
      st1.last_rpy PV_IMU_PITCH = rpy1 PV_IMU_PITCH ∧
      st1.lastIntegrationTime = x.millis := by
  obtain ⟨h1r, h1p⟩ := stage1_angles acce_rpy x.gyro_raw dt rpy
  simp only [c_io_imu_getComplimentaryRPY, hacc, hdt, getComplimentaryRPY_stage2,
    getComplimentaryRPY_rates, fdiv_of_ne _ _ hw, Option.bind_eq_bind, Option.some_bind,
    Option.pure_def]
  refine ⟨_, _, rfl, ?_, ?_, ?_, ?_, ?_⟩
  · simp [Function.update, PV_IMU_ROLL, PV_IMU_PITCH, PV_IMU_YAW, PV_IMU_DROLL, PV_IMU_DPITCH,
      PV_IMU_DYAW] at h1r ⊢
    exact Or.inl h1r
  · simp [Function.update, PV_IMU_ROLL, PV_IMU_PITCH, PV_IMU_YAW, PV_IMU_DROLL, PV_IMU_DPITCH,
      PV_IMU_DYAW] at h1p ⊢
    exact Or.inl h1p
  · simp [Function.update, PV_IMU_ROLL, PV_IMU_PITCH, PV_IMU_YAW, PV_IMU_DROLL, PV_IMU_DPITCH,
      PV_IMU_DYAW]
  · simp [Function.update, PV_IMU_ROLL, PV_IMU_PITCH, PV_IMU_YAW, PV_IMU_DROLL, PV_IMU_DPITCH,
      PV_IMU_DYAW]
  · rfl

/-- One invocation in which the divisor `a + dt` of the second blend is zero has no value. -/
theorem call_none_of_zero (m : MathLib K) (toFloat : Int → Int) (x : ImuSample K)
    (rpy : Nat → K) (st : ImuState K) (acce_rpy : Nat → K)
    (hacc : getComplimentaryRPY_acce_rpy m x.acce_raw x.magn_raw = some acce_rpy)
    (hw : 93 / 100
      + getComplimentaryRPY_IntegrationTimeDiff (K := K) toFloat x.millis st.lastIntegrationTime
        = 0) :
    c_io_imu_getComplimentaryRPY m toFloat x rpy st = none := by
  simp only [c_io_imu_getComplimentaryRPY, hacc, getComplimentaryRPY_stage2,
    (fdiv_eq_none _ _).mpr hw, Option.bind_eq_bind, Option.some_bind, Option.none_bind]

end Filter

/-- The search for the spacing returns a positive number from a positive candidate. -/
theorem float_ulp_from_pos (fuel p n : Nat) (hp : 0 < p) : 0 < float_ulp_from fuel p n := by
  induction fuel generalizing p with
  | zero => exact hp
  | succ k ih =>
    unfold float_ulp_from
    split_ifs
    · exact hp
    · exact ih _ (by omega)

/-- The search for the spacing stops at the first candidate `p·2^j` with `n < 2^24·p·2^j`,
if not earlier. -/
theorem float_ulp_from_le (fuel p n j : Nat) (h : n < 16777216 * p * 2 ^ j) :
    float_ulp_from fuel p n ≤ p * 2 ^ j := by
  induction fuel generalizing p j with
  | zero => exact Nat.le_mul_of_pos_right _ (by positivity)
  | succ k ih =>
    unfold float_ulp_from
    split_ifs with hc
    · exact Nat.le_mul_of_pos_right _ (by positivity)
    · cases j with
      | zero =>
        simp at h
        omega
      | succ i =>
        have e : p * 2 ^ (i + 1) = 2 * p * 2 ^ i := by ring
        rw [e]
        apply ih
        have e2 : 16777216 * (2 * p) * 2 ^ i = 16777216 * p * 2 ^ (i + 1) := by ring
        rw [e2]
        exact h

/-- Below `2^24` the binary32 numbers are one apart. -/
theorem float_ulp_small (n : Nat) (h : n < 16777216) : float_ulp n = 1 := by
  unfold float_ulp
  cases n with
  | zero => rfl
  | succ k =>
    unfold float_ulp_from
    rw [if_pos (by omega)]

/-- At the magnitudes of a 32-bit `long` the binary32 numbers are at most 256 apart. -/
theorem float_ulp_long (n : Nat) (h : n ≤ 2147483648) :
    0 < float_ulp n ∧ float_ulp n ≤ 256 := by
  refine ⟨float_ulp_from_pos _ _ _ one_pos, ?_⟩
  have := float_ulp_from_le n 1 n 8 (by norm_num; omega)
  simpa [float_ulp] using this

/-- Rounding to a multiple of `p` moves a number by at most `p/2`. -/
theorem float_round_near (n p : Nat) (hp : 0 < p) :
    2 * float_round n p ≤ 2 * n + p ∧ 2 * n ≤ 2 * float_round n p + p := by
  have h := Nat.div_add_mod n p
  have hr := Nat.mod_lt n hp
  have e1 : n / p * p = p * (n / p) := Nat.mul_comm _ _
  have e2 : (n / p + 1) * p = p * (n / p) + p := by ring
  unfold float_round
  rw [e1, e2]
  split_ifs with hc
  · rcases hc with hc | ⟨hc, -⟩ <;> omega
  · rw [not_or] at hc
    omega

/-- Rounding to a multiple of `1` changes nothing. -/
theorem float_round_one (n : Nat) : float_round n 1 = n := by
  simp [float_round, Nat.mod_one]

/-- Every integer of magnitude at most `2^24` is a binary32 number: its conversion is
exact. -/
theorem float_of_long_exact (v : Int) (h1 : -16777216 ≤ v) (h2 : v ≤ 16777216) :
    float_of_long v = v := by
  by_cases hn : v.natAbs < 16777216
  · unfold float_of_long
    rw [float_ulp_small _ hn, float_round_one]
    split_ifs <;> omega
  · have hv : v = 16777216 ∨ v = -16777216 := by omega
    rcases hv with hv | hv <;> subst hv <;> decide

/-- The conversion of a 32-bit `long` to binary32 moves it by at most 128. -/
theorem float_of_long_near (v : Int) (h1 : -2147483648 ≤ v) (h2 : v ≤ 2147483648) :
    v - 128 ≤ float_of_long v ∧ float_of_long v ≤ v + 128 := by
  obtain ⟨hp, hq⟩ := float_ulp_long v.natAbs (by omega)
  obtain ⟨ha, hb⟩ := float_round_near v.natAbs _ hp
  unfold float_of_long
  split_ifs <;> omega

/-- On non-decreasing tick counts of a 32-bit `long` the converted counts never differ by
`-930`. -/
theorem float_of_long_forward (T L : Int) (hL : -2147483648 ≤ L) (hLT : L ≤ T)
    (hT : T ≤ 2147483648) : float_of_long T - float_of_long L ≠ -930 := by
  obtain ⟨h1, _⟩ := float_of_long_near T (by omega) hT
  obtain ⟨_, h2⟩ := float_of_long_near L hL (by omega)
  omega

/-- The elapsed time of a call that finds the stored tick count still `0`. -/
theorem timeDiff_first (toFloat : Int → Int) (T : Int) :
    getComplimentaryRPY_IntegrationTimeDiff (K := ℝ) toFloat T 0
      = ((toFloat T - toFloat (T + 1) : Int) : ℝ) / 1000 := by
  simp only [getComplimentaryRPY_IntegrationTimeDiff, if_true]
  rw [Int.cast_sub]

/-- The elapsed time of a call that finds the stored tick count still `0`, at a tick count
`T` with `-2^24 ≤ T < 2^24`, where `T` and `T + 1` are binary32 numbers: `-0.001`. -/
theorem timeDiff_first_exact (T : Int) (h1 : -16777216 ≤ T) (h2 : T < 16777216) :
    getComplimentaryRPY_IntegrationTimeDiff (K := ℝ) float_of_long T 0 = -1 / 1000 := by
  rw [timeDiff_first, float_of_long_exact T h1 (by omega),
    float_of_long_exact (T + 1) (by omega) (by omega)]
  push_cast
  ring

/-- The elapsed time of a call that finds a stored tick count other than `0`. -/
theorem timeDiff_later (toFloat : Int → Int) (T L : Int) (hL : L ≠ 0) :
    getComplimentaryRPY_IntegrationTimeDiff (K := ℝ) toFloat T L
      = ((toFloat T - toFloat L : Int) : ℝ) / 1000 := by
  simp only [getComplimentaryRPY_IntegrationTimeDiff, if_neg hL]
  rw [Int.cast_sub]

/-- The elapsed time of a call that finds a stored tick count other than `0`, both tick
counts of magnitude at most `2^24`: the difference of the counts, in seconds. -/
theorem timeDiff_later_exact (T L : Int) (hL : L ≠ 0)
    (hT : -16777216 ≤ T ∧ T ≤ 16777216) (hL2 : -16777216 ≤ L ∧ L ≤ 16777216) :
    getComplimentaryRPY_IntegrationTimeDiff (K := ℝ) float_of_long T L
      = ((T - L : Int) : ℝ) / 1000 := by
  rw [timeDiff_later _ _ _ hL, float_of_long_exact T hT.1 hT.2,
    float_of_long_exact L hL2.1 hL2.2]

/-- With binary32 conversions and a tick count of a 32-bit `long` below its maximum, the
divisor `a + dt` is not zero on a call that finds the stored tick count `0`, nor on any
other call unless the converted tick counts differ by `-930`. -/
theorem blend_divisor_ne (T L : Int) (hT1 : -2147483648 ≤ T) (hT2 : T < 2147483647)
    (h : L = 0 ∨ float_of_long T - float_of_long L ≠ -930) :
    (93 / 100 : ℝ) + getComplimentaryRPY_IntegrationTimeDiff (K := ℝ) float_of_long T L ≠ 0 := by
  have key : ∀ D : Int, D ≠ -930 → (93 / 100 : ℝ) + ((D : Int) : ℝ) / 1000 ≠ 0 := by
    intro D hD h0
    apply hD
    have h2 : ((D : Int) : ℝ) = ((-930 : Int) : ℝ) := by
      push_cast
      linarith
    exact_mod_cast h2
  by_cases hL : L = 0
  · subst hL
    rw [timeDiff_first]
    apply key
    obtain ⟨h1, _⟩ := float_of_long_near T hT1 (by omega)
    obtain ⟨_, h2⟩ := float_of_long_near (T + 1) (by omega) (by omega)
    omega
  · rw [timeDiff_later _ _ _ hL]
    apply key
    rcases h with h | h
    · exact absurd h hL
    · exact h

section Agree
variable {K : Type} [Field K] [DecidableEq K]

omit [DecidableEq K] in
/-- For tick counts of magnitude at most `2^24` the elapsed time with binary32 conversions
is the elapsed time with exact conversions. -/
theorem timeDiff_agree (T L : Int) (hT : -16777216 ≤ T ∧ T < 16777216)
    (hL : -16777216 ≤ L ∧ L ≤ 16777216) :
    getComplimentaryRPY_IntegrationTimeDiff (K := K) float_of_long T L
      = getComplimentaryRPY_IntegrationTimeDiff (K := K) (fun t => t) T L := by
  unfold getComplimentaryRPY_IntegrationTimeDiff
  by_cases h : L = 0
  · simp only [h, if_true]
    rw [float_of_long_exact T hT.1 (by omega),
      float_of_long_exact (T + 1) (by omega) (by omega)]
  · simp only [if_neg h]
    rw [float_of_long_exact T hT.1 (by omega), float_of_long_exact L hL.1 hL.2]

/-- For tick counts of magnitude at most `2^24` one invocation with binary32 conversions is
the invocation with exact conversions. -/
theorem call_agree (m : MathLib K) (x : ImuSample K) (rpy : Nat → K) (st : ImuState K)
    (hT : -16777216 ≤ x.millis ∧ x.millis < 16777216)
    (hL : -16777216 ≤ st.lastIntegrationTime ∧ st.lastIntegrationTime ≤ 16777216) :
    c_io_imu_getComplimentaryRPY m float_of_long x rpy st
      = c_io_imu_getComplimentaryRPY m (fun t => t) x rpy st := by
  simp only [c_io_imu_getComplimentaryRPY, timeDiff_agree _ _ hT hL]

/-- An invocation that returns stores the tick count of its sample. -/
theorem call_time (m : MathLib K) (toFloat : Int → Int) (x : ImuSample K) (rpy : Nat → K)
    (st : ImuState K) (out : (Nat → K) × ImuState K)
    (h : c_io_imu_getComplimentaryRPY m toFloat x rpy st = some out) :
    out.2.lastIntegrationTime = x.millis := by
  unfold c_io_imu_getComplimentaryRPY at h
  cases hA : getComplimentaryRPY_acce_rpy m x.acce_raw x.magn_raw with
  | none => simp [hA] at h
  | some A =>
    by_cases hw : (93 / 100 : K)
        + getComplimentaryRPY_IntegrationTimeDiff toFloat x.millis st.lastIntegrationTime = 0
    · simp [hA, getComplimentaryRPY_stage2, (fdiv_eq_none _ _).mpr hw] at h
    · simp only [hA, getComplimentaryRPY_stage2, getComplimentaryRPY_rates,
        fdiv_of_ne _ _ hw, Option.bind_eq_bind, Option.some_bind, Option.pure_def,
        Option.some.injEq] at h
      subst h
      rfl

/-- For tick counts of magnitude at most `2^24`, that is for the first 4 h 39 min of the
millisecond counter, the filter with binary32 conversions is the filter with exact
conversions. -/
theorem calls_agree (m : MathLib K) (x : Nat → ImuSample K) (n : Nat) (rpy : Nat → K)
    (st : ImuState K)
    (hst : -16777216 ≤ st.lastIntegrationTime ∧ st.lastIntegrationTime ≤ 16777216)
    (hx : ∀ i, i < n → -16777216 ≤ (x i).millis ∧ (x i).millis < 16777216) :
    getComplimentaryRPY_calls m float_of_long x n rpy st
        = getComplimentaryRPY_calls m (fun t => t) x n rpy st ∧
      ∀ out, getComplimentaryRPY_calls m (fun t => t) x n rpy st = some out →
        -16777216 ≤ out.2.lastIntegrationTime ∧ out.2.lastIntegrationTime ≤ 16777216 := by
  induction n with
  | zero =>
    refine ⟨rfl, fun out h => ?_⟩
    simp only [getComplimentaryRPY_calls, Option.some.injEq] at h
    subst h
    exact hst
  | succ n ih =>
    obtain ⟨ih1, ih2⟩ := ih (fun i hi => hx i (by omega))
    have hn := hx n (by omega)
    simp only [getComplimentaryRPY_calls, ih1]
    cases hc : getComplimentaryRPY_calls m (fun t => t) x n rpy st with
    | none => exact ⟨rfl, fun out h => by simp at h⟩
    | some o =>
      obtain ⟨rpy1, st1⟩ := o
      have hs := ih2 _ hc
      refine ⟨call_agree m (x n) rpy1 st1 hn hs, fun out h => ?_⟩
      rw [call_time m _ (x n) rpy1 st1 out h]
      omega

end Agree

/-- With the acceleration `(0, 0, 1)` both tilt divisors are `1` and both tilt angles `0`. -/
theorem level_acce_rpy (acce_raw magn_raw : Nat → ℝ) (hx : acce_raw PV_IMU_X = 0)
    (hy : acce_raw PV_IMU_Y = 0) (hz : acce_raw PV_IMU_Z = 1) :
    ∃ acce_rpy, getComplimentaryRPY_acce_rpy
        (⟨Real.sqrt, Real.arctan, fun y x => Complex.arg ⟨x, y⟩, Real.sin, Real.cos⟩ : MathLib ℝ)
        acce_raw magn_raw = some acce_rpy ∧
      acce_rpy PV_IMU_ROLL = 0 ∧ acce_rpy PV_IMU_PITCH = 0 := by
  obtain ⟨v, hv, hr, hp⟩ := acce_rpy_of_ne
    (⟨Real.sqrt, Real.arctan, fun y x => Complex.arg ⟨x, y⟩, Real.sin, Real.cos⟩ : MathLib ℝ)
    acce_raw magn_raw (by simp [hx, hy, hz]) (by simp [hx, hy, hz])
  refine ⟨v, hv, ?_, ?_⟩
  · rw [hr]
    simp [hx, hy, hz]
  · rw [hp]
    simp [hx, hy, hz]

/-- C7: the code at the failing input. From the initial filter state, a first invocation at
tick 1000 on the acceleration `(0, 1, 1)` (zero gyro rate, so `dt = -0.001`) stores the roll
`(930/929)·(π/4)`. In a second invocation at tick 1100 (`dt = 0.1`) on the acceleration
`(0, 0, 1)`, whose implied roll is `0`, the first blend of the code leaves roll `0`, whatever
was stored: it reads `rpy`, which it has just overwritten with the implied angle. The blend
of the claim, with the stored roll as previous angle, is `0.93·(930/929)·(π/4)`, not `0`. -/
theorem stage1_previous_angle_divergence :
    ∃ rpy1 st1 acce_rpy,
      c_io_imu_getComplimentaryRPY
        (⟨Real.sqrt, Real.arctan, fun y x => Complex.arg ⟨x, y⟩, Real.sin, Real.cos⟩ : MathLib ℝ)
        float_of_long
        (⟨fun j => if j = PV_IMU_X then 0 else 1, fun _ => 0, fun _ => 0, 1000⟩ : ImuSample ℝ)
        (fun _ => 0) ImuState.init = some (rpy1, st1) ∧
      rpy1 PV_IMU_ROLL = 930 / 929 * (Real.pi / 4) ∧
      st1.last_rpy PV_IMU_ROLL = 930 / 929 * (Real.pi / 4) ∧
      getComplimentaryRPY_IntegrationTimeDiff (K := ℝ) float_of_long 1100 st1.lastIntegrationTime
        = 1 / 10 ∧
      getComplimentaryRPY_acce_rpy
        (⟨Real.sqrt, Real.arctan, fun y x => Complex.arg ⟨x, y⟩, Real.sin, Real.cos⟩ : MathLib ℝ)
        (fun j => if j = PV_IMU_Z then 1 else 0) (fun _ => 0) = some acce_rpy ∧
      acce_rpy PV_IMU_ROLL = 0 ∧
      getComplimentaryRPY_stage1 acce_rpy (fun _ => 0) (1 / 10) rpy1 PV_IMU_ROLL = 0 ∧
      stage1_blend_spec (93 / 100) (st1.last_rpy PV_IMU_ROLL) 0 (1 / 10)
          (acce_rpy PV_IMU_ROLL) = 93 / 100 * (930 / 929 * (Real.pi / 4)) ∧
      (93 / 100 * (930 / 929 * (Real.pi / 4)) : ℝ) ≠ 0 := by
  obtain ⟨A1, hA1, hA1r, _⟩ := acce_rpy_of_ne
    (⟨Real.sqrt, Real.arctan, fun y x => Complex.arg ⟨x, y⟩, Real.sin, Real.cos⟩ : MathLib ℝ)
    (fun j => if j = PV_IMU_X then 0 else 1) (fun _ => 0)
    (by simp [PV_IMU_X, PV_IMU_Y, PV_IMU_Z]) (by simp [PV_IMU_X, PV_IMU_Z])
  have hθ : A1 PV_IMU_ROLL = Real.pi / 4 := by
    rw [hA1r]
    simp [PV_IMU_X, PV_IMU_Y, PV_IMU_Z]
  obtain ⟨rpy1, st1, hcall, hr1, _, hsr, _, hT⟩ :=
    call_of_ne
      (⟨Real.sqrt, Real.arctan, fun y x => Complex.arg ⟨x, y⟩, Real.sin, Real.cos⟩ : MathLib ℝ)
      float_of_long
      (⟨fun j => if j = PV_IMU_X then 0 else 1, fun _ => 0, fun _ => 0, 1000⟩ : ImuSample ℝ)
      (fun _ => 0) ImuState.init A1 hA1 (-1 / 1000) 
      (timeDiff_first_exact 1000 (by norm_num) (by norm_num)) (by norm_num)
  obtain ⟨A2, hA2, hA2r, _⟩ := level_acce_rpy (fun j => if j = PV_IMU_Z then 1 else 0)
    (fun _ => 0) (by simp [PV_IMU_X, PV_IMU_Z]) (by simp [PV_IMU_Y, PV_IMU_Z]) (by simp)
  have hroll : rpy1 PV_IMU_ROLL = 930 / 929 * (Real.pi / 4) := by
    rw [hr1, hθ]
    simp only [ImuState.init]
    ring
  refine ⟨rpy1, st1, A2, hcall, hroll, by rw [hsr, hroll], ?_, hA2, hA2r, ?_, ?_, ?_⟩
  · rw [hT, timeDiff_later_exact 1100 1000 (by decide) ⟨by norm_num, by norm_num⟩
      ⟨by norm_num, by norm_num⟩]
    norm_num
  · rw [(stage1_angles A2 (fun _ => 0) (1 / 10) rpy1).1, hA2r]
    ring
  · rw [hsr, hroll, hA2r]
    simp only [stage1_blend_spec]
    ring
  · positivity

/-- The invariant behind C8: on level, motionless samples the stored roll and pitch stay
`0` through the first `n` calls, provided no call has converted tick counts that differ by
`-930` from those of its predecessor. -/
theorem level_calls (x : Nat → ImuSample ℝ) (rpy0 : Nat → ℝ) (n : Nat)
    (hacc : ∀ i, i < n → (x i).acce_raw PV_IMU_X = 0 ∧ (x i).acce_raw PV_IMU_Y = 0 ∧
      (x i).acce_raw PV_IMU_Z = 1)
    (hgyro : ∀ i j, i < n → j < 3 → (x i).gyro_raw j = 0)
    (hrange : ∀ i, i < n → -2147483648 ≤ (x i).millis ∧ (x i).millis < 2147483647)
    (htime : ∀ i, i + 1 < n →
      float_of_long (x (i + 1)).millis - float_of_long (x i).millis ≠ -930) :
    ∃ rpy st, getComplimentaryRPY_calls
        (⟨Real.sqrt, Real.arctan, fun y x => Complex.arg ⟨x, y⟩, Real.sin, Real.cos⟩ : MathLib ℝ)
        float_of_long x n rpy0 ImuState.init = some (rpy, st) ∧
      st.last_rpy PV_IMU_ROLL = 0 ∧ st.last_rpy PV_IMU_PITCH = 0 ∧
      (st.lastIntegrationTime = 0 ∨ ∃ k, n = k + 1 ∧ st.lastIntegrationTime = (x k).millis) ∧
      (1 ≤ n → rpy PV_IMU_ROLL = 0 ∧ rpy PV_IMU_PITCH = 0) := by
  induction n with
  | zero =>
    exact ⟨rpy0, ImuState.init, rfl, rfl, rfl, Or.inl rfl, by simp⟩
  | succ n ih =>
    obtain ⟨rpy, st, hcalls, hlr, hlp, htm, _⟩ := ih
      (fun i hi => hacc i (by omega)) (fun i j hi hj => hgyro i j (by omega) hj)
      (fun i hi => hrange i (by omega)) (fun i hi => htime i (by omega))
    obtain ⟨hx, hy, hz⟩ := hacc n (by omega)
    obtain ⟨A, hA, hAr, hAp⟩ := level_acce_rpy (x n).acce_raw (x n).magn_raw hx hy hz
    have hw := blend_divisor_ne (x n).millis st.lastIntegrationTime
      (hrange n (by omega)).1 (hrange n (by omega)).2 (by
        rcases htm with h | ⟨k, hk, hL⟩
        · exact Or.inl h
        · right
          rw [hL, hk]
          exact htime k (by omega))
    obtain ⟨rpy1, st1, hcall, hr, hp, hsr, hsp, hT⟩ :=
      call_of_ne _ _ (x n) rpy st A hA _ rfl hw
    have hgr : (x n).gyro_raw PV_IMU_ROLL = 0 := hgyro n _ (by omega) (by decide)
    have hgp : (x n).gyro_raw PV_IMU_PITCH = 0 := hgyro n _ (by omega) (by decide)
    have hr0 : rpy1 PV_IMU_ROLL = 0 := by
      rw [hr, hlr, hAr, hgr]
      ring
    have hp0 : rpy1 PV_IMU_PITCH = 0 := by
      rw [hp, hlp, hAp, hgp]
      ring
    refine ⟨rpy1, st1, ?_, ?_, ?_, Or.inr ⟨n, rfl, hT⟩, fun _ => ⟨hr0, hp0⟩⟩
    · simp only [getComplimentaryRPY_calls, hcalls, hcall]
    · rw [hsr, hr0]
    · rw [hsp, hp0]

/-- The exception of C8 is about the converted tick counts. With level, motionless samples,
an invocation at tick 16778150 followed by one at tick 16777219, which is 931 ticks earlier,
has `(float)16777219 = 16777220` and `(float)16778150 = 16778150`: the converted counts
differ by `-930`, `dt = -0.93`, and the second invocation returns no number. -/
theorem level_sample_rounded_ticks :
    float_of_long 16777219 - float_of_long 16778150 = -930 ∧
    (getComplimentaryRPY_calls
        (⟨Real.sqrt, Real.arctan, fun y x => Complex.arg ⟨x, y⟩, Real.sin, Real.cos⟩ : MathLib ℝ)
        float_of_long
        (fun i => ⟨fun j => if j = PV_IMU_Z then 1 else 0, fun _ => 0, fun _ => 0,
          if i = 0 then 16778150 else 16777219⟩)
        1 (fun _ => 0) ImuState.init).isSome = true ∧
      getComplimentaryRPY_calls
        (⟨Real.sqrt, Real.arctan, fun y x => Complex.arg ⟨x, y⟩, Real.sin, Real.cos⟩ : MathLib ℝ)
        float_of_long
        (fun i => ⟨fun j => if j = PV_IMU_Z then 1 else 0, fun _ => 0, fun _ => 0,
          if i = 0 then 16778150 else 16777219⟩)
        2 (fun _ => 0) ImuState.init = none := by
  have hD : float_of_long 16777219 - float_of_long 16778150 = -930 := by decide
  obtain ⟨A, hA, _, _⟩ := level_acce_rpy (fun j => if j = PV_IMU_Z then 1 else 0)
    (fun _ => 0) (by simp [PV_IMU_X, PV_IMU_Z]) (by simp [PV_IMU_Y, PV_IMU_Z]) (by simp)
  obtain ⟨rpy1, st1, hcall, _, _, _, _, hT⟩ :=
    call_of_ne
      (⟨Real.sqrt, Real.arctan, fun y x => Complex.arg ⟨x, y⟩, Real.sin, Real.cos⟩ : MathLib ℝ)
      float_of_long
      (⟨fun j => if j = PV_IMU_Z then 1 else 0, fun _ => 0, fun _ => 0, 16778150⟩ :
        ImuSample ℝ)
      (fun _ => 0) ImuState.init A hA _ rfl
      (blend_divisor_ne 16778150 (ImuState.init (K := ℝ)).lastIntegrationTime (by norm_num)
        (by norm_num) (Or.inl rfl))
  have h1 : getComplimentaryRPY_calls
      (⟨Real.sqrt, Real.arctan, fun y x => Complex.arg ⟨x, y⟩, Real.sin, Real.cos⟩ : MathLib ℝ)
      float_of_long
      (fun i => ⟨fun j => if j = PV_IMU_Z then 1 else 0, fun _ => 0, fun _ => 0,
        if i = 0 then 16778150 else 16777219⟩)
      1 (fun _ => 0) ImuState.init = some (rpy1, st1) := by
    simp only [getComplimentaryRPY_calls, if_true]
    exact hcall
  refine ⟨hD, ?_, ?_⟩
  · rw [h1]
    rfl
  · have h2 : getComplimentaryRPY_calls
        (⟨Real.sqrt, Real.arctan, fun y x => Complex.arg ⟨x, y⟩, Real.sin, Real.cos⟩ : MathLib ℝ)
        float_of_long
        (fun i => ⟨fun j => if j = PV_IMU_Z then 1 else 0, fun _ => 0, fun _ => 0,
          if i = 0 then 16778150 else 16777219⟩)
        2 (fun _ => 0) ImuState.init
        = c_io_imu_getComplimentaryRPY
          (⟨Real.sqrt, Real.arctan, fun y x => Complex.arg ⟨x, y⟩, Real.sin, Real.cos⟩ :
            MathLib ℝ)
          float_of_long
          (⟨fun j => if j = PV_IMU_Z then 1 else 0, fun _ => 0, fun _ => 0, 16777219⟩ :
            ImuSample ℝ)
          rpy1 st1 := by
      rw [getComplimentaryRPY_calls, h1]
      simp
    rw [h2]
    apply call_none_of_zero _ _ _ _ _ A hA
    simp only [hT]
    rw [timeDiff_later _ _ _ (by decide), hD]
    norm_num

/-- Every non-decreasing sequence of timestamps qualifies for C8: with level, motionless
samples at non-decreasing timestamps of the 32-bit tick counter below its maximum, every
invocation divides by no zero and the last one returns roll `0` and pitch `0`. -/
theorem level_sample_forward_clock (x : Nat → ImuSample ℝ) (rpy0 : Nat → ℝ) (n : Nat)
    (hacc : ∀ i, i < n + 1 → (x i).acce_raw PV_IMU_X = 0 ∧ (x i).acce_raw PV_IMU_Y = 0 ∧
      (x i).acce_raw PV_IMU_Z = 1)
    (hgyro : ∀ i j, i < n + 1 → j < 3 → (x i).gyro_raw j = 0)
    (hrange : ∀ i, i < n + 1 → -2147483648 ≤ (x i).millis ∧ (x i).millis < 2147483647)
    (hclock : ∀ i, i + 1 < n + 1 → (x i).millis ≤ (x (i + 1)).millis) :
    ∃ rpy st, getComplimentaryRPY_calls
        (⟨Real.sqrt, Real.arctan, fun y x => Complex.arg ⟨x, y⟩, Real.sin, Real.cos⟩ : MathLib ℝ)
        float_of_long x (n + 1) rpy0 ImuState.init = some (rpy, st) ∧
      rpy PV_IMU_ROLL = 0 ∧ rpy PV_IMU_PITCH = 0 := by
  obtain ⟨rpy, st, h, _, _, _, h0⟩ := level_calls x rpy0 (n + 1) hacc hgyro hrange
    (fun i hi => float_of_long_forward _ _ (hrange i (by omega)).1 (hclock i hi)
      (by
        have := (hrange (i + 1) hi).2
        omega))
  exact ⟨rpy, st, h, h0 (by omega)⟩

/-- A sequence `θ + w^n * c` with `0 ≤ w < 1` approaches `θ` monotonically, strictly while
it differs from `θ`, and comes within any `ε > 0` of it. -/
theorem geometric_approach (w θ c : ℝ) (hw0 : 0 ≤ w) (hw1 : w < 1) :
    (∀ n : Nat, |θ + w ^ (n + 1) * c - θ| ≤ |θ + w ^ n * c - θ| ∧
      (θ + w ^ n * c ≠ θ → |θ + w ^ (n + 1) * c - θ| < |θ + w ^ n * c - θ|)) ∧
    (∀ ε : ℝ, 0 < ε → ∃ N : Nat, ∀ n : Nat, N ≤ n → |θ + w ^ n * c - θ| < ε) := by
  have habs : ∀ n : Nat, |θ + w ^ n * c - θ| = w ^ n * |c| := by
    intro n
    rw [add_sub_cancel_left, abs_mul, abs_of_nonneg (pow_nonneg hw0 n)]
  constructor
  · intro n
    rw [habs, habs, pow_succ]
    have hn : 0 ≤ w ^ n * |c| := mul_nonneg (pow_nonneg hw0 n) (abs_nonneg c)
    constructor
    · nlinarith
    · intro hne
      have hpos : 0 < w ^ n * |c| := by
        rcases hn.lt_or_eq with h | h
        · exact h
        · exfalso
          apply hne
          have h0 : w ^ n * c = 0 := by
            rcases mul_eq_zero.mp h.symm with h1 | h1
            · rw [h1, zero_mul]
            · rw [abs_eq_zero.mp h1, mul_zero]
          rw [h0, add_zero]
      nlinarith
  · intro ε hε
    obtain ⟨N, hN⟩ := exists_pow_lt_of_lt_one (div_pos hε (by positivity : 0 < |c| + 1)) hw1
    refine ⟨N, fun n hn => ?_⟩
    rw [habs]
    have h1 : w ^ n ≤ w ^ N := pow_le_pow_of_le_one hw0 hw1.le hn
    have h2 : w ^ n * |c| ≤ w ^ N * (|c| + 1) :=
      mul_le_mul h1 (by linarith) (abs_nonneg c) (pow_nonneg hw0 N)
    have h3 : w ^ N * (|c| + 1) < ε := by
      rwa [lt_div_iff₀ (by positivity)] at hN
    linarith

/-- The closed form behind C9: with a constant sample, zero gyro rate, the conversion of the
tick counts taken as exact and calls every `Δ` ticks after a stored tick count `t0 > 0`,
the stored roll and pitch after `n` calls are `θ + w^n * (y_0 - θ)` with `w = dt/(a + dt)`
and `dt = Δ/1000`. -/
theorem steady_calls (acce_raw gyro_raw magn_raw : Nat → ℝ) (t0 Δ : Int) (ht0 : 0 < t0)
    (hΔ : 0 < Δ) (rpy0 last0 : Nat → ℝ) (hgyro : ∀ j, j < 3 → gyro_raw j = 0)
    (hp : acce_raw PV_IMU_Y ^ 2 + acce_raw PV_IMU_Z ^ 2 ≠ 0)
    (hr : acce_raw PV_IMU_X ^ 2 + acce_raw PV_IMU_Z ^ 2 ≠ 0) (n : Nat) :
    ∃ rpy st, getComplimentaryRPY_calls
        (⟨Real.sqrt, Real.arctan, fun y x => Complex.arg ⟨x, y⟩, Real.sin, Real.cos⟩ : MathLib ℝ)
        (fun t => t)
        (fun i => ⟨acce_raw, gyro_raw, magn_raw, t0 + ((i : Int) + 1) * Δ⟩)
        n rpy0 ⟨last0, t0⟩ = some (rpy, st) ∧
      st.lastIntegrationTime = t0 + (n : Int) * Δ ∧
      st.last_rpy PV_IMU_ROLL
        = Real.arctan (acce_raw PV_IMU_Y
            / Real.sqrt (acce_raw PV_IMU_X ^ 2 + acce_raw PV_IMU_Z ^ 2))
          + ((Δ : ℝ) / 1000 / (93 / 100 + (Δ : ℝ) / 1000)) ^ n
            * (last0 PV_IMU_ROLL - Real.arctan (acce_raw PV_IMU_Y
              / Real.sqrt (acce_raw PV_IMU_X ^ 2 + acce_raw PV_IMU_Z ^ 2))) ∧
      st.last_rpy PV_IMU_PITCH
        = Real.arctan (acce_raw PV_IMU_X
            / Real.sqrt (acce_raw PV_IMU_Y ^ 2 + acce_raw PV_IMU_Z ^ 2))
          + ((Δ : ℝ) / 1000 / (93 / 100 + (Δ : ℝ) / 1000)) ^ n
            * (last0 PV_IMU_PITCH - Real.arctan (acce_raw PV_IMU_X
              / Real.sqrt (acce_raw PV_IMU_Y ^ 2 + acce_raw PV_IMU_Z ^ 2))) ∧
      (1 ≤ n → rpy PV_IMU_ROLL = st.last_rpy PV_IMU_ROLL ∧
        rpy PV_IMU_PITCH = st.last_rpy PV_IMU_PITCH) := by
  have hs : ∀ u v : ℝ, u ^ 2 + v ^ 2 ≠ 0 → Real.sqrt (u ^ 2 + v ^ 2) ≠ 0 := by
    intro u v h
    rwa [Ne, Real.sqrt_eq_zero (by positivity)]
  induction n with
  | zero =>
    refine ⟨rpy0, ⟨last0, t0⟩, rfl, ?_, ?_, ?_, by simp⟩
    · simp
    · simp
    · simp
  | succ n ih =>
    obtain ⟨rpy, st, hcalls, hT, hlr, hlp, _⟩ := ih
    obtain ⟨A, hA, hAr, hAp⟩ := acce_rpy_of_ne
      (⟨Real.sqrt, Real.arctan, fun y x => Complex.arg ⟨x, y⟩, Real.sin, Real.cos⟩ : MathLib ℝ)
      acce_raw magn_raw (hs _ _ hp) (hs _ _ hr)
    have hn0 : (0 : Int) ≤ (n : Int) * Δ := mul_nonneg (Int.natCast_nonneg n) hΔ.le
    have hL : st.lastIntegrationTime ≠ 0 := by
      rw [hT]
      omega
    have hdt : getComplimentaryRPY_IntegrationTimeDiff (K := ℝ) (fun t => t)
        (t0 + ((n : Int) + 1) * Δ) st.lastIntegrationTime = (Δ : ℝ) / 1000 := by
      rw [timeDiff_later _ _ _ hL, hT]
      congr 2
      ring
    have hΔr : (0 : ℝ) < (Δ : ℝ) := by exact_mod_cast hΔ
    have hw : (93 / 100 : ℝ) + (Δ : ℝ) / 1000 ≠ 0 := by positivity
    obtain ⟨rpy1, st1, hcall, hr1, hp1, hsr, hsp, hT1⟩ :=
      call_of_ne
        (⟨Real.sqrt, Real.arctan, fun y x => Complex.arg ⟨x, y⟩, Real.sin, Real.cos⟩ : MathLib ℝ)
        (fun t => t)
        (⟨acce_raw, gyro_raw, magn_raw, t0 + ((n : Int) + 1) * Δ⟩ : ImuSample ℝ)
        rpy st A hA _ hdt hw
    have hgr : gyro_raw PV_IMU_ROLL = 0 := hgyro _ (by decide)
    have hgp : gyro_raw PV_IMU_PITCH = 0 := hgyro _ (by decide)
    refine ⟨rpy1, st1, ?_, ?_, ?_, ?_, fun _ => ⟨hsr.symm, hsp.symm⟩⟩
    · simp only [getComplimentaryRPY_calls, hcalls, hcall]
    · rw [hT1]
      push_cast
      ring
    · rw [hsr, hr1, hlr, hAr]
      simp only [hgr]
      field_simp
      ring
    · rw [hsp, hp1, hlp, hAp]
      simp only [hgp]
      field_simp
      ring

/-- C9. With a constant sample whose two tilt angles are defined (both divisors non-zero;
this holds whenever the roll or pitch angle implied by the accelerometer is a non-zero
`θ`), zero gyro rate, a stored tick count `t0 > 0` and one call every `Δ > 0` ticks (a fixed
`dt = Δ/1000 > 0`), and any stored previous angles `y_0`, every invocation of
`c_io_imu_getComplimentaryRPY` returns, and the roll outputs `y_n` satisfy
`|y_(n+1) - θ| ≤ |y_n - θ|`, strictly while `y_n ≠ θ`, where `θ` is the roll angle implied
by the accelerometer; for every `ε > 0` there is `N` with `|y_n - θ| < ε` for all `n ≥ N`.
The same holds for pitch. Over the reals, with `a = 0.93` and the conversion of the tick
counts to `float` taken as exact, which is what makes `dt` the same in every call. -/
theorem steady_tilt_convergence (acce_raw gyro_raw magn_raw : Nat → ℝ) (t0 Δ : Int)
    (ht0 : 0 < t0) (hΔ : 0 < Δ) (rpy0 last0 : Nat → ℝ) (hgyro : ∀ j, j < 3 → gyro_raw j = 0)
    (hp : acce_raw PV_IMU_Y ^ 2 + acce_raw PV_IMU_Z ^ 2 ≠ 0)
    (hr : acce_raw PV_IMU_X ^ 2 + acce_raw PV_IMU_Z ^ 2 ≠ 0) :
    ∃ roll pitch : Nat → ℝ,
      roll 0 = last0 PV_IMU_ROLL ∧ pitch 0 = last0 PV_IMU_PITCH ∧
      (∀ n : Nat, ∃ rpy st, getComplimentaryRPY_calls
          (⟨Real.sqrt, Real.arctan, fun y x => Complex.arg ⟨x, y⟩, Real.sin, Real.cos⟩ : MathLib ℝ)
          (fun t => t)
          (fun i => ⟨acce_raw, gyro_raw, magn_raw, t0 + ((i : Int) + 1) * Δ⟩)
          (n + 1) rpy0 ⟨last0, t0⟩ = some (rpy, st) ∧
        rpy PV_IMU_ROLL = roll (n + 1) ∧ rpy PV_IMU_PITCH = pitch (n + 1)) ∧
      (∀ n : Nat,
        |roll (n + 1) - Real.arctan (acce_raw PV_IMU_Y
            / Real.sqrt (acce_raw PV_IMU_X ^ 2 + acce_raw PV_IMU_Z ^ 2))|
          ≤ |roll n - Real.arctan (acce_raw PV_IMU_Y
            / Real.sqrt (acce_raw PV_IMU_X ^ 2 + acce_raw PV_IMU_Z ^ 2))| ∧
        (roll n ≠ Real.arctan (acce_raw PV_IMU_Y
            / Real.sqrt (acce_raw PV_IMU_X ^ 2 + acce_raw PV_IMU_Z ^ 2)) →
          |roll (n + 1) - Real.arctan (acce_raw PV_IMU_Y
              / Real.sqrt (acce_raw PV_IMU_X ^ 2 + acce_raw PV_IMU_Z ^ 2))|
            < |roll n - Real.arctan (acce_raw PV_IMU_Y
              / Real.sqrt (acce_raw PV_IMU_X ^ 2 + acce_raw PV_IMU_Z ^ 2))|)) ∧
      (∀ n : Nat,
        |pitch (n + 1) - Real.arctan (acce_raw PV_IMU_X
            / Real.sqrt (acce_raw PV_IMU_Y ^ 2 + acce_raw PV_IMU_Z ^ 2))|
          ≤ |pitch n - Real.arctan (acce_raw PV_IMU_X
            / Real.sqrt (acce_raw PV_IMU_Y ^ 2 + acce_raw PV_IMU_Z ^ 2))| ∧
        (pitch n ≠ Real.arctan (acce_raw PV_IMU_X
            / Real.sqrt (acce_raw PV_IMU_Y ^ 2 + acce_raw PV_IMU_Z ^ 2)) →
          |pitch (n + 1) - Real.arctan (acce_raw PV_IMU_X
              / Real.sqrt (acce_raw PV_IMU_Y ^ 2 + acce_raw PV_IMU_Z ^ 2))|
            < |pitch n - Real.arctan (acce_raw PV_IMU_X
              / Real.sqrt (acce_raw PV_IMU_Y ^ 2 + acce_raw PV_IMU_Z ^ 2))|)) ∧
      (∀ ε : ℝ, 0 < ε → ∃ N : Nat, ∀ n : Nat, N ≤ n →
        |roll n - Real.arctan (acce_raw PV_IMU_Y
            / Real.sqrt (acce_raw PV_IMU_X ^ 2 + acce_raw PV_IMU_Z ^ 2))| < ε ∧
        |pitch n - Real.arctan (acce_raw PV_IMU_X
            / Real.sqrt (acce_raw PV_IMU_Y ^ 2 + acce_raw PV_IMU_Z ^ 2))| < ε) := by
  have hΔr : (0 : ℝ) < (Δ : ℝ) := by exact_mod_cast hΔ
  have hw0 : (0 : ℝ) ≤ (Δ : ℝ) / 1000 / (93 / 100 + (Δ : ℝ) / 1000) := by positivity
  have hw1 : (Δ : ℝ) / 1000 / (93 / 100 + (Δ : ℝ) / 1000) < 1 := by
    rw [div_lt_one (by positivity)]
    linarith
  obtain ⟨hrm, hrc⟩ := geometric_approach _
    (Real.arctan (acce_raw PV_IMU_Y / Real.sqrt (acce_raw PV_IMU_X ^ 2 + acce_raw PV_IMU_Z ^ 2)))
    (last0 PV_IMU_ROLL - Real.arctan (acce_raw PV_IMU_Y
      / Real.sqrt (acce_raw PV_IMU_X ^ 2 + acce_raw PV_IMU_Z ^ 2))) hw0 hw1
  obtain ⟨hpm, hpc⟩ := geometric_approach _
    (Real.arctan (acce_raw PV_IMU_X / Real.sqrt (acce_raw PV_IMU_Y ^ 2 + acce_raw PV_IMU_Z ^ 2)))
    (last0 PV_IMU_PITCH - Real.arctan (acce_raw PV_IMU_X
      / Real.sqrt (acce_raw PV_IMU_Y ^ 2 + acce_raw PV_IMU_Z ^ 2))) hw0 hw1
  refine ⟨fun n => Real.arctan (acce_raw PV_IMU_Y
        / Real.sqrt (acce_raw PV_IMU_X ^ 2 + acce_raw PV_IMU_Z ^ 2))
      + ((Δ : ℝ) / 1000 / (93 / 100 + (Δ : ℝ) / 1000)) ^ n
        * (last0 PV_IMU_ROLL - Real.arctan (acce_raw PV_IMU_Y
          / Real.sqrt (acce_raw PV_IMU_X ^ 2 + acce_raw PV_IMU_Z ^ 2))),
    fun n => Real.arctan (acce_raw PV_IMU_X
        / Real.sqrt (acce_raw PV_IMU_Y ^ 2 + acce_raw PV_IMU_Z ^ 2))
      + ((Δ : ℝ) / 1000 / (93 / 100 + (Δ : ℝ) / 1000)) ^ n
        * (last0 PV_IMU_PITCH - Real.arctan (acce_raw PV_IMU_X
          / Real.sqrt (acce_raw PV_IMU_Y ^ 2 + acce_raw PV_IMU_Z ^ 2))),
    by simp, by simp, ?_, hrm, hpm, ?_⟩
  · intro n
    obtain ⟨rpy, st, hc, _, hlr, hlp, hout⟩ :=
      steady_calls acce_raw gyro_raw magn_raw t0 Δ ht0 hΔ rpy0 last0 hgyro hp hr (n + 1)
    obtain ⟨h1, h2⟩ := hout (by omega)
    exact ⟨rpy, st, hc, by rw [h1, hlr], by rw [h2, hlp]⟩
  · intro ε hε
    obtain ⟨N1, hN1⟩ := hrc ε hε
    obtain ⟨N2, hN2⟩ := hpc ε hε
    exact ⟨max N1 N2, fun n hn =>
      ⟨hN1 n (le_trans (le_max_left _ _) hn), hN2 n (le_trans (le_max_right _ _) hn)⟩⟩

/-- C9, witness: the constant acceleration `(0, 1, 1)`, whose implied roll is `π/4`, sampled
every 100 ms from tick 1000 on, from a zero stored estimate. -/
theorem steady_tilt_convergence_witness :
    (0 : Int) < 1000 ∧ (0 : Int) < 100 ∧ (∀ j : Nat, j < 3 → (0 : ℝ) = 0) ∧
    ∃ roll pitch : Nat → ℝ,
      roll 0 = (fun _ => 0) PV_IMU_ROLL ∧ pitch 0 = (fun _ => 0) PV_IMU_PITCH ∧
      (∀ n : Nat, ∃ rpy st, getComplimentaryRPY_calls
          (⟨Real.sqrt, Real.arctan, fun y x => Complex.arg ⟨x, y⟩, Real.sin, Real.cos⟩ : MathLib ℝ)
          (fun t => t)
          (fun i => ⟨fun j => if j = PV_IMU_X then 0 else 1, fun _ => 0, fun _ => 0, 1000 + ((i : Int) + 1) * 100⟩)
          (n + 1) (fun _ => 0) ⟨fun _ => 0, 1000⟩ = some (rpy, st) ∧
        rpy PV_IMU_ROLL = roll (n + 1) ∧ rpy PV_IMU_PITCH = pitch (n + 1)) ∧
      (∀ n : Nat,
        |roll (n + 1) - Real.arctan ((fun j => if j = PV_IMU_X then 0 else 1) PV_IMU_Y
            / Real.sqrt ((fun j => if j = PV_IMU_X then 0 else 1) PV_IMU_X ^ 2 + (fun j => if j = PV_IMU_X then 0 else 1) PV_IMU_Z ^ 2))|
          ≤ |roll n - Real.arctan ((fun j => if j = PV_IMU_X then 0 else 1) PV_IMU_Y
            / Real.sqrt ((fun j => if j = PV_IMU_X then 0 else 1) PV_IMU_X ^ 2 + (fun j => if j = PV_IMU_X then 0 else 1) PV_IMU_Z ^ 2))| ∧
        (roll n ≠ Real.arctan ((fun j => if j = PV_IMU_X then 0 else 1) PV_IMU_Y
            / Real.sqrt ((fun j => if j = PV_IMU_X then 0 else 1) PV_IMU_X ^ 2 + (fun j => if j = PV_IMU_X then 0 else 1) PV_IMU_Z ^ 2)) →
          |roll (n + 1) - Real.arctan ((fun j => if j = PV_IMU_X then 0 else 1) PV_IMU_Y
              / Real.sqrt ((fun j => if j = PV_IMU_X then 0 else 1) PV_IMU_X ^ 2 + (fun j => if j = PV_IMU_X then 0 else 1) PV_IMU_Z ^ 2))|
            < |roll n - Real.arctan ((fun j => if j = PV_IMU_X then 0 else 1) PV_IMU_Y
              / Real.sqrt ((fun j => if j = PV_IMU_X then 0 else 1) PV_IMU_X ^ 2 + (fun j => if j = PV_IMU_X then 0 else 1) PV_IMU_Z ^ 2))|)) ∧
      (∀ n : Nat,
        |pitch (n + 1) - Real.arctan ((fun j => if j = PV_IMU_X then 0 else 1) PV_IMU_X
            / Real.sqrt ((fun j => if j = PV_IMU_X then 0 else 1) PV_IMU_Y ^ 2 + (fun j => if j = PV_IMU_X then 0 else 1) PV_IMU_Z ^ 2))|
          ≤ |pitch n - Real.arctan ((fun j => if j = PV_IMU_X then 0 else 1) PV_IMU_X
            / Real.sqrt ((fun j => if j = PV_IMU_X then 0 else 1) PV_IMU_Y ^ 2 + (fun j => if j = PV_IMU_X then 0 else 1) PV_IMU_Z ^ 2))| ∧
        (pitch n ≠ Real.arctan ((fun j => if j = PV_IMU_X then 0 else 1) PV_IMU_X
            / Real.sqrt ((fun j => if j = PV_IMU_X then 0 else 1) PV_IMU_Y ^ 2 + (fun j => if j = PV_IMU_X then 0 else 1) PV_IMU_Z ^ 2)) →
          |pitch (n + 1) - Real.arctan ((fun j => if j = PV_IMU_X then 0 else 1) PV_IMU_X
              / Real.sqrt ((fun j => if j = PV_IMU_X then 0 else 1) PV_IMU_Y ^ 2 + (fun j => if j = PV_IMU_X then 0 else 1) PV_IMU_Z ^ 2))|
            < |pitch n - Real.arctan ((fun j => if j = PV_IMU_X then 0 else 1) PV_IMU_X
              / Real.sqrt ((fun j => if j = PV_IMU_X then 0 else 1) PV_IMU_Y ^ 2 + (fun j => if j = PV_IMU_X then 0 else 1) PV_IMU_Z ^ 2))|)) ∧
      (∀ ε : ℝ, 0 < ε → ∃ N : Nat, ∀ n : Nat, N ≤ n →
        |roll n - Real.arctan ((fun j => if j = PV_IMU_X then 0 else 1) PV_IMU_Y
            / Real.sqrt ((fun j => if j = PV_IMU_X then 0 else 1) PV_IMU_X ^ 2 + (fun j => if j = PV_IMU_X then 0 else 1) PV_IMU_Z ^ 2))| < ε ∧
        |pitch n - Real.arctan ((fun j => if j = PV_IMU_X then 0 else 1) PV_IMU_X
            / Real.sqrt ((fun j => if j = PV_IMU_X then 0 else 1) PV_IMU_Y ^ 2 + (fun j => if j = PV_IMU_X then 0 else 1) PV_IMU_Z ^ 2))| < ε) :=
  ⟨by decide, by decide, fun _ _ => rfl,
    steady_tilt_convergence (fun j => if j = PV_IMU_X then 0 else 1) (fun _ => 0) (fun _ => 0)
      1000 100 (by decide) (by decide) (fun _ => 0) (fun _ => 0) (fun _ _ => rfl)
      (by simp [PV_IMU_X, PV_IMU_Y, PV_IMU_Z]) (by simp [PV_IMU_X, PV_IMU_Z])⟩

/-- C10, as stated, fails. For the acceleration `(1, 0, 0)`, which has
`accel_y = accel_z = 0`, the pitch quotient `accel_x / sqrt(accel_y^2 + accel_z^2)` has the
divisor `sqrt 0 = 0`: the tilt computation divides by zero, nothing guards it. -/
theorem tilt_division_counterexample :
    getComplimentaryRPY_acce_rpy
      (⟨Real.sqrt, Real.arctan, fun y x => Complex.arg ⟨x, y⟩, Real.sin, Real.cos⟩ : MathLib ℝ)
      (fun i => if i = PV_IMU_X then 1 else 0) (fun _ => 0) = none := by
  simp [getComplimentaryRPY_acce_rpy, fdiv, PV_IMU_X, PV_IMU_Y, PV_IMU_Z]

/-- C10, amended. The tilt computation of `c_io_imu_getComplimentaryRPY` has no guard: it
divides by `sqrt(accel_y^2 + accel_z^2)` and by `sqrt(accel_x^2 + accel_z^2)` as they are.
It performs no division by zero exactly for the samples with `accel_y^2 + accel_z^2 ≠ 0` and
`accel_x^2 + accel_z^2 ≠ 0`. -/
theorem tilt_division_defined_iff (acce_raw magn_raw : Nat → ℝ) :
    getComplimentaryRPY_acce_rpy
        (⟨Real.sqrt, Real.arctan, fun y x => Complex.arg ⟨x, y⟩, Real.sin, Real.cos⟩ : MathLib ℝ)
        acce_raw magn_raw ≠ none ↔
      acce_raw PV_IMU_Y ^ 2 + acce_raw PV_IMU_Z ^ 2 ≠ 0 ∧
        acce_raw PV_IMU_X ^ 2 + acce_raw PV_IMU_Z ^ 2 ≠ 0 := by
  have hs : ∀ u v : ℝ, Real.sqrt (u ^ 2 + v ^ 2) = 0 ↔ u ^ 2 + v ^ 2 = 0 := by
    intro u v
    rw [Real.sqrt_eq_zero (by positivity)]
  constructor
  · intro h
    by_contra hc
    apply h
    rw [not_and_or, not_not, not_not] at hc
    rcases hc with hc | hc
    · simp only [getComplimentaryRPY_acce_rpy, (fdiv_eq_none _ _).mpr ((hs _ _).mpr hc),
        Option.bind_eq_bind, Option.none_bind]
    · by_cases hp : Real.sqrt (acce_raw PV_IMU_Y ^ 2 + acce_raw PV_IMU_Z ^ 2) = 0
      · simp only [getComplimentaryRPY_acce_rpy, (fdiv_eq_none _ _).mpr hp,
          Option.bind_eq_bind, Option.none_bind]
      · simp only [getComplimentaryRPY_acce_rpy, fdiv_of_ne _ _ hp,
          (fdiv_eq_none _ _).mpr ((hs _ _).mpr hc), Option.bind_eq_bind, Option.some_bind,
          Option.none_bind]
  · rintro ⟨hp, hr⟩
    obtain ⟨v, hv, _⟩ := acce_rpy_of_ne
      (⟨Real.sqrt, Real.arctan, fun y x => Complex.arg ⟨x, y⟩, Real.sin, Real.cos⟩ : MathLib ℝ)
      acce_raw magn_raw (fun h => hp ((hs _ _).mp h)) (fun h => hr ((hs _ _).mp h))
    rw [hv]
    simp

/-! ## Theorems on the first time step of the complementary filter -/

/-- C11, as stated, fails. On a first invocation at the tick count `T = 16777216 = 2^24`
the stored count becomes `T + 1 = 16777217`, which is not a binary32 number: `(float)(T+1)`
is `16777216`, the same as `(float)T`, and the elapsed time
`((float)T - (float)(T+1))/1000` is exactly zero. -/
theorem first_call_time_step_counterexample :
    float_of_long 16777216 = 16777216 ∧ float_of_long (16777216 + 1) = 16777216 ∧
    getComplimentaryRPY_IntegrationTimeDiff (K := ℝ) float_of_long 16777216 0 = 0 := by
  refine ⟨by decide, by decide, ?_⟩
  have e : float_of_long 16777216 - float_of_long (16777216 + 1) = 0 := by decide
  rw [timeDiff_first, e]
  simp

/-- C11, amended. On the first invocation of `c_io_imu_getComplimentaryRPY` (stored tick
count `0`), for every tick count `T` of the 32-bit counter below its maximum, the elapsed
time is `((float)T - (float)(T+1))/1000` with the two counts converted to binary32, the
blend divisors `a + dt` and `b + dt` (`a = b = 0.93`) are not zero, and neither the second
blend nor the rate smoothing divides by zero. For `-2^24 ≤ T < 2^24` both conversions are
exact and the elapsed time is `(T - (T+1))/1000 = -0.001` seconds, which is not zero. -/
theorem first_call_time_step (T : Int) (hT1 : -2147483648 ≤ T) (hT2 : T < 2147483647) :
    getComplimentaryRPY_IntegrationTimeDiff (K := ℝ) float_of_long T 0
        = ((float_of_long T : ℝ) - (float_of_long (T + 1) : ℝ)) / 1000 ∧
      (93 / 100 : ℝ) + getComplimentaryRPY_IntegrationTimeDiff (K := ℝ) float_of_long T 0 ≠ 0 ∧
      (∀ rpy last_rpy : Nat → ℝ, getComplimentaryRPY_stage2
        (getComplimentaryRPY_IntegrationTimeDiff (K := ℝ) float_of_long T 0) rpy last_rpy
          ≠ none) ∧
      (∀ gyro_raw rpy last_rpy : Nat → ℝ, getComplimentaryRPY_rates gyro_raw
        (getComplimentaryRPY_IntegrationTimeDiff (K := ℝ) float_of_long T 0) rpy last_rpy
          ≠ none) ∧
      (-16777216 ≤ T → T < 16777216 →
        getComplimentaryRPY_IntegrationTimeDiff (K := ℝ) float_of_long T 0
            = ((T : ℝ) - ((T + 1 : Int) : ℝ)) / 1000 ∧
          getComplimentaryRPY_IntegrationTimeDiff (K := ℝ) float_of_long T 0 = -1 / 1000 ∧
          getComplimentaryRPY_IntegrationTimeDiff (K := ℝ) float_of_long T 0 ≠ 0) := by
  have hw := blend_divisor_ne T 0 hT1 hT2 (Or.inl rfl)
  refine ⟨?_, hw, ?_, ?_, ?_⟩
  · simp only [getComplimentaryRPY_IntegrationTimeDiff, if_true]
  · intro rpy last_rpy
    simp only [getComplimentaryRPY_stage2, fdiv_of_ne _ _ hw, Option.bind_eq_bind,
      Option.some_bind, Option.pure_def]
    simp
  · intro gyro_raw rpy last_rpy
    simp only [getComplimentaryRPY_rates, fdiv_of_ne _ _ hw, Option.bind_eq_bind,
      Option.some_bind, Option.pure_def]
    simp
  · intro h1 h2
    have e := timeDiff_first_exact T h1 h2
    refine ⟨?_, e, ?_⟩
    · rw [e]
      push_cast
      ring
    · rw [e]
      norm_num

/-- C11, amended, witness: a first invocation at tick count 1000. -/
theorem first_call_time_step_witness :
    (-2147483648 : Int) ≤ 1000 ∧ (1000 : Int) < 2147483647 ∧
    (93 / 100 : ℝ) + getComplimentaryRPY_IntegrationTimeDiff (K := ℝ) float_of_long 1000 0 ≠ 0 ∧
    getComplimentaryRPY_IntegrationTimeDiff (K := ℝ) float_of_long 1000 0 = -1 / 1000 :=
  ⟨by norm_num, by norm_num,
    (first_call_time_step 1000 (by norm_num) (by norm_num)).2.1,
    ((first_call_time_step 1000 (by norm_num) (by norm_num)).2.2.2.2
      (by norm_num) (by norm_num)).2.1⟩

/-! ## Theorems on the Kalman filter -/

section Vec7
variable {α : Type} (a0 a1 a2 a3 a4 a5 a6 : α)
/-- The entries of a seven-element vector literal. -/
theorem vec7_0 : ![a0, a1, a2, a3, a4, a5, a6] 0 = a0 := rfl
theorem vec7_1 : ![a0, a1, a2, a3, a4, a5, a6] 1 = a1 := rfl
theorem vec7_2 : ![a0, a1, a2, a3, a4, a5, a6] 2 = a2 := rfl
theorem vec7_3 : ![a0, a1, a2, a3, a4, a5, a6] 3 = a3 := rfl
theorem vec7_4 : ![a0, a1, a2, a3, a4, a5, a6] 4 = a4 := rfl
theorem vec7_5 : ![a0, a1, a2, a3, a4, a5, a6] 5 = a5 := rfl
theorem vec7_6 : ![a0, a1, a2, a3, a4, a5, a6] 6 = a6 := rfl
end Vec7

section Vec4
variable {α : Type} (a0 a1 a2 a3 : α)
/-- The entries of a four-element vector literal. -/
theorem vec4_0 : ![a0, a1, a2, a3] 0 = a0 := rfl
theorem vec4_1 : ![a0, a1, a2, a3] 1 = a1 := rfl
theorem vec4_2 : ![a0, a1, a2, a3] 2 = a2 := rfl
theorem vec4_3 : ![a0, a1, a2, a3] 3 = a3 := rfl
end Vec4

section Entries
variable {K : Type} [Field K] [DecidableEq K]

/-- Every entry of the transition matrix has a value when `sqrt d` and `2 d` are not zero. -/
theorem entries_isSome (m : MathLib K) (e0 e1 e2 e3 a b c d deltat : K)
    (hr : m.sqrt d ≠ 0) (hd : 2 * d ≠ 0) (i j : Fin 7) :
    (TransitionMatrix_entries m e0 e1 e2 e3 a b c d deltat i j).isSome = true := by
  fin_cases i <;> fin_cases j <;>
    simp only [TransitionMatrix_entries, Fin.zero_eta, Fin.mk_one, Fin.reduceFinMk,
      vec7_0, vec7_1, vec7_2, vec7_3, vec7_4, vec7_5, vec7_6, fdiv_of_ne _ _ hr,
      fdiv_of_ne _ _ hd, Option.map_some', Option.isSome_some]

omit [DecidableEq K] in
/-- The matrix of values of a matrix all of whose entries have one. -/
theorem matrixValues_of_isSome {n : Nat} (Φ : Fin n → Fin 7 → Option K)
    (h : ∀ i j, (Φ i j).isSome = true) :
    matrixValues Φ = some (fun i j => (Φ i j).getD 0) := by
  unfold matrixValues
  rw [if_pos h]

end Entries

/-- With the gyro rate equal to the stored bias the half rates and `d` are zero. -/
theorem CTM_zero_rate (x : Fin 7 → ℝ) (g : Nat → ℝ) (dt : ℝ)
    (h0 : g 0 = x 4) (h1 : g 1 = x 5) (h2 : g 2 = x 6) :
    c_io_imu_CalculateTransitionMatrix
      (⟨Real.sqrt, Real.arctan, fun y x => Complex.arg ⟨x, y⟩, Real.sin, Real.cos⟩ : MathLib ℝ)
      x g dt
    = TransitionMatrix_entries
      (⟨Real.sqrt, Real.arctan, fun y x => Complex.arg ⟨x, y⟩, Real.sin, Real.cos⟩ : MathLib ℝ)
      (x 0) (x 1) (x 2) (x 3) 0 0 0 0 dt := by
  simp [c_io_imu_CalculateTransitionMatrix, h0, h1, h2]

/-- C12, amended. `c_io_imu_CalculateTransitionMatrix` has no guard for `d = 0`. For every
quaternion state, every `dt` and every gyro rate equal to the stored gyro bias on all three
axes, each of the twenty-four entries of rows 0-3 off the diagonal divides by `sqrt d = 0`
or by `2 d = 0` and has no value; the entries computed without a division, the diagonal
`cos(sqrt d · dt) = 1` of rows 0-3 and the rows 4-6, are those of the identity matrix. -/
theorem transition_at_zero_rate (x : Fin 7 → ℝ) (g : Nat → ℝ) (dt : ℝ)
    (h0 : g 0 = x 4) (h1 : g 1 = x 5) (h2 : g 2 = x 6) (i j : Fin 7) :
    c_io_imu_CalculateTransitionMatrix
      (⟨Real.sqrt, Real.arctan, fun y x => Complex.arg ⟨x, y⟩, Real.sin, Real.cos⟩ : MathLib ℝ)
      x g dt i j
    = if i.val < 4 ∧ i ≠ j then none else some (if i = j then 1 else 0) := by
  rw [CTM_zero_rate x g dt h0 h1 h2]
  fin_cases i <;> fin_cases j <;>
    simp only [TransitionMatrix_entries, Fin.zero_eta, Fin.mk_one, Fin.reduceFinMk,
      vec7_0, vec7_1, vec7_2, vec7_3, vec7_4, vec7_5, vec7_6] <;>
    simp [fdiv]

/-- C12, amended, witness: the state `(1, 0, 0, 0, 0, 0, 0)` with gyro rate `(0, 0, 0)`. -/
theorem transition_at_zero_rate_witness :
    ((fun _ : Nat => (0 : ℝ)) 0 = (![1, 0, 0, 0, 0, 0, 0] : Fin 7 → ℝ) 4) ∧
    c_io_imu_CalculateTransitionMatrix
      (⟨Real.sqrt, Real.arctan, fun y x => Complex.arg ⟨x, y⟩, Real.sin, Real.cos⟩ : MathLib ℝ)
      ![1, 0, 0, 0, 0, 0, 0] (fun _ => 0) (5 / 1000) 2 3
    = if (2 : Fin 7).val < 4 ∧ (2 : Fin 7) ≠ 3 then none
      else some (if (2 : Fin 7) = 3 then 1 else 0) :=
  ⟨rfl, transition_at_zero_rate ![1, 0, 0, 0, 0, 0, 0] (fun _ => 0) (5 / 1000) rfl rfl rfl 2 3⟩

/-- C12, as stated, fails. For the state `(1, 0, 0, 0, 0, 0, 0)`, gyro rate `(0, 0, 0)` and
`dt = 0.005` (the call that `c_io_imu_initKalmanFilter` makes when the nominal bias is zero),
the entry `[0][1] = -((a·Sin(Sqrt(d)·dt))/Sqrt(d))` divides by `sqrt 0 = 0`: nothing guards
the case `d = 0` and the entry has no value, so the matrix is not the identity. -/
theorem transition_at_zero_rate_counterexample :
    c_io_imu_CalculateTransitionMatrix
      (⟨Real.sqrt, Real.arctan, fun y x => Complex.arg ⟨x, y⟩, Real.sin, Real.cos⟩ : MathLib ℝ)
      ![1, 0, 0, 0, 0, 0, 0] (fun _ => 0) (5 / 1000) 0 1 = none := by
  rw [CTM_zero_rate _ _ _ rfl rfl rfl]
  simp only [TransitionMatrix_entries, vec7_0, vec7_1]
  simp [fdiv]

/-- With zero bias and a rate `p` about x only, the half rates are `a = p/2`, `b = c = 0`
and `d = (p/2)^2`. -/
theorem CTM_single_axis (p dt u v : ℝ) :
    c_io_imu_CalculateTransitionMatrix
      (⟨Real.sqrt, Real.arctan, fun y x => Complex.arg ⟨x, y⟩, Real.sin, Real.cos⟩ : MathLib ℝ)
      ![u, v, 0, 0, 0, 0, 0] (fun k => if k = 0 then p else 0) dt
    = TransitionMatrix_entries
      (⟨Real.sqrt, Real.arctan, fun y x => Complex.arg ⟨x, y⟩, Real.sin, Real.cos⟩ : MathLib ℝ)
      u v 0 0 (p / 2) 0 0 ((p / 2) ^ 2) dt := by
  have ha : (1 : ℝ) / 2 * (-0 + p) = p / 2 := by ring
  have hb : (1 : ℝ) / 2 * (-0 + 0) = 0 := by ring
  have hd : (p / 2) ^ 2 + (0 : ℝ) ^ 2 + 0 ^ 2 = (p / 2) ^ 2 := by ring
  simp only [c_io_imu_CalculateTransitionMatrix, vec7_0, vec7_1, vec7_2, vec7_3, vec7_4,
    vec7_5, vec7_6, if_true, one_ne_zero, if_false, OfNat.ofNat_ne_zero, ha, hb, hd]

/-- One prediction on a state `(u, v, 0, 0, 0, 0, 0)` with `b = c = 0`: a plane rotation of
`(u, v)`. -/
theorem rotation_step (u v a d dt : ℝ) (hr : Real.sqrt d ≠ 0) (hd : 2 * d ≠ 0) :
    (matrixValues (TransitionMatrix_entries
      (⟨Real.sqrt, Real.arctan, fun y x => Complex.arg ⟨x, y⟩, Real.sin, Real.cos⟩ : MathLib ℝ)
      u v 0 0 a 0 0 d dt)).map (fun Φ => Matrix.mulVec (Matrix.of Φ) ![u, v, 0, 0, 0, 0, 0])
    = some ![Real.cos (Real.sqrt d * dt) * u - a * Real.sin (Real.sqrt d * dt) / Real.sqrt d * v,
        a * Real.sin (Real.sqrt d * dt) / Real.sqrt d * u + Real.cos (Real.sqrt d * dt) * v,
        0, 0, 0, 0, 0] := by
  rw [matrixValues_of_isSome _ (entries_isSome _ _ _ _ _ _ _ _ _ _ hr hd)]
  simp only [Option.map_some', Option.some.injEq]
  funext i
  fin_cases i <;>
    simp only [Matrix.mulVec, Matrix.dotProduct, Matrix.of_apply, Fin.sum_univ_seven,
      TransitionMatrix_entries, Fin.zero_eta, Fin.mk_one, Fin.reduceFinMk,
      vec7_0, vec7_1, vec7_2, vec7_3, vec7_4, vec7_5, vec7_6, fdiv_of_ne _ _ hr,
      fdiv_of_ne _ _ hd, Option.map_some', Option.getD_some] <;> ring

/-- For `p ≠ 0`, `sqrt((p/2)^2) = |p|/2` is not zero, and the entries built from it are the
cosine and sine of `p·dt/2`, whatever the sign of `p`. -/
theorem single_axis_trig (p dt : ℝ) (hp : p ≠ 0) :
    Real.sqrt ((p / 2) ^ 2) ≠ 0 ∧ 2 * (p / 2) ^ 2 ≠ 0 ∧
    Real.cos (Real.sqrt ((p / 2) ^ 2) * dt) = Real.cos (p * dt / 2) ∧
    p / 2 * Real.sin (Real.sqrt ((p / 2) ^ 2) * dt) / Real.sqrt ((p / 2) ^ 2)
      = Real.sin (p * dt / 2) := by
  rw [Real.sqrt_sq_eq_abs]
  have h2 : p / 2 ≠ 0 := by positivity
  have e : p / 2 * dt = p * dt / 2 := by ring
  refine ⟨by simpa using h2, by positivity, ?_, ?_⟩
  · rcases abs_choice (p / 2) with h | h
    · rw [h, e]
    · rw [h, neg_mul, Real.cos_neg, e]
  · rcases abs_choice (p / 2) with h | h
    · rw [h, e]
      field_simp
    · rw [h, neg_mul, Real.sin_neg, e]
      field_simp
      ring

/-- One prediction with a rate `p ≠ 0` about x only and zero bias rotates `(e0, e1)` by the
angle `p·dt/2`. -/
theorem single_axis_step (p dt u v : ℝ) (hp : p ≠ 0) :
    predict_state_spec
      (⟨Real.sqrt, Real.arctan, fun y x => Complex.arg ⟨x, y⟩, Real.sin, Real.cos⟩ : MathLib ℝ)
      (fun k => if k = 0 then p else 0) dt ![u, v, 0, 0, 0, 0, 0]
    = some ![Real.cos (p * dt / 2) * u - Real.sin (p * dt / 2) * v,
        Real.sin (p * dt / 2) * u + Real.cos (p * dt / 2) * v, 0, 0, 0, 0, 0] := by
  obtain ⟨hr, hd, hc, hs⟩ := single_axis_trig p dt hp
  unfold predict_state_spec
  rw [CTM_single_axis, rotation_step u v (p / 2) ((p / 2) ^ 2) dt hr hd, hc, hs]

/-- C13. With zero gyro bias, a constant rate `p ≠ 0` about the x axis only, any step `dt` and
any `n`, applying `state ← Φ·state` `n` times from the identity quaternion `(1, 0, 0, 0)`,
with `Φ` computed by `c_io_imu_CalculateTransitionMatrix` from the current state, divides by
no zero and leaves the quaternion `(cos(p·n·dt/2), sin(p·n·dt/2), 0, 0)` and the bias zero:
the rotation about x by rate times total time. Over the reals. -/
theorem single_axis_rotation (p dt : ℝ) (hp : p ≠ 0) (n : Nat) :
    predict_state_iterate_spec
      (⟨Real.sqrt, Real.arctan, fun y x => Complex.arg ⟨x, y⟩, Real.sin, Real.cos⟩ : MathLib ℝ)
      (fun k => if k = 0 then p else 0) dt n ![1, 0, 0, 0, 0, 0, 0]
    = some ![Real.cos (p * n * dt / 2), Real.sin (p * n * dt / 2), 0, 0, 0, 0, 0] := by
  induction n with
  | zero => simp [predict_state_iterate_spec]
  | succ n ih =>
    simp only [predict_state_iterate_spec, ih]
    rw [single_axis_step p dt _ _ hp]
    have e : p * ((n + 1 : Nat) : ℝ) * dt / 2 = p * n * dt / 2 + p * dt / 2 := by
      push_cast
      ring
    rw [e, Real.cos_add, Real.sin_add]
    congr 1
    funext i
    fin_cases i <;>
      simp only [Fin.zero_eta, Fin.mk_one, Fin.reduceFinMk, vec7_0, vec7_1, vec7_2, vec7_3,
        vec7_4, vec7_5, vec7_6]
    · ring
    · ring

/-- C13, witness: the rate `2` rad/s about x, three steps of one second. -/
theorem single_axis_rotation_witness :
    (2 : ℝ) ≠ 0 ∧
    predict_state_iterate_spec
      (⟨Real.sqrt, Real.arctan, fun y x => Complex.arg ⟨x, y⟩, Real.sin, Real.cos⟩ : MathLib ℝ)
      (fun k => if k = 0 then 2 else 0) 1 3 ![1, 0, 0, 0, 0, 0, 0]
    = some ![Real.cos (2 * (3 : Nat) * 1 / 2), Real.sin (2 * (3 : Nat) * 1 / 2), 0, 0, 0, 0, 0] :=
  ⟨by norm_num, single_axis_rotation 2 1 (by norm_num) 3⟩

/-- C14: the code at the failing input. `c_io_imu_getKalmanFilterRPY` returns the caller's
array and the filter matrices exactly as it received them, for every input: the prediction
is a comment. With the stored state `(1, 0, 0, 0, 0, 0, 0)`, a sample with gyro rate
`(2, 0, 0)` and `dt = 1`, the prediction `Φ·state` is `(cos 1, sin 1, 0, 0, 0, 0, 0)`, but
the state vector stored after the call is still `(1, 0, 0, 0, 0, 0, 0)`, which differs. -/
theorem kalman_prediction_not_performed :
    (∀ (x : ImuSample ℝ) (rpy : Nat → ℝ) (st : KalmanState ℝ),
      c_io_imu_getKalmanFilterRPY x rpy st = (rpy, st)) ∧
    predict_state_spec
      (⟨Real.sqrt, Real.arctan, fun y x => Complex.arg ⟨x, y⟩, Real.sin, Real.cos⟩ : MathLib ℝ)
      (fun k => if k = 0 then 2 else 0) 1 ![1, 0, 0, 0, 0, 0, 0]
      = some ![Real.cos 1, Real.sin 1, 0, 0, 0, 0, 0] ∧
    (c_io_imu_getKalmanFilterRPY
      (⟨fun k => if k = 2 then 1 else 0, fun k => if k = 0 then 2 else 0, fun _ => 0, 1000⟩ :
        ImuSample ℝ)
      (fun _ => 0)
      ⟨c_io_imu_CalculateTransitionMatrix
          (⟨Real.sqrt, Real.arctan, fun y x => Complex.arg ⟨x, y⟩, Real.sin, Real.cos⟩ :
            MathLib ℝ)
          ![1, 0, 0, 0, 0, 0, 0] (fun k => if k = 0 then 2 else 0) 1,
        fun _ _ => 0, ![1, 0, 0, 0, 0, 0, 0]⟩).2.StateVector_f32 = ![1, 0, 0, 0, 0, 0, 0] ∧
    (![1, 0, 0, 0, 0, 0, 0] : Fin 7 → ℝ) ≠ ![Real.cos 1, Real.sin 1, 0, 0, 0, 0, 0] := by
  refine ⟨fun _ _ _ => rfl, ?_, rfl, ?_⟩
  · rw [single_axis_step 2 1 1 0 (by norm_num)]
    congr 1
    funext i
    fin_cases i <;>
      simp only [Fin.zero_eta, Fin.mk_one, Fin.reduceFinMk, vec7_0, vec7_1, vec7_2, vec7_3,
        vec7_4, vec7_5, vec7_6] <;> norm_num
  · intro h
    have h1 := congrFun h 1
    simp only [vec7_1] at h1
    have hpos : 0 < Real.sin 1 :=
      Real.sin_pos_of_pos_of_lt_pi one_pos (by linarith [Real.pi_gt_three])
    linarith

/-- A function that is a quadratic polynomial around `x0` has, at `x0`, the derivative given
by its linear coefficient. -/
theorem hasDerivAt_quadratic (f : ℝ → ℝ) (x0 D c : ℝ)
    (h : ∀ t, f t = f x0 + (t - x0) * D + (t - x0) ^ 2 * c) : HasDerivAt f D x0 := by
  have h1 : HasDerivAt (fun t : ℝ => f x0 + (t - x0) * D + (t - x0) ^ 2 * c)
      (1 * D + (2 * (x0 - x0) ^ (2 - 1) * 1) * c) x0 :=
    ((((hasDerivAt_id x0).sub_const x0).mul_const D).const_add (f x0)).add
      ((((hasDerivAt_id x0).sub_const x0).pow 2).mul_const c)
  have h2 : f = fun t : ℝ => f x0 + (t - x0) * D + (t - x0) ^ 2 * c := funext h
  rw [h2]
  convert h1 using 1
  simp

/-- C15. For every quaternion state and every `G`, each entry of rows 0, 1 and 2 of the
matrix written by `c_io_imu_CalculateH` has a value, and that value is the partial derivative,
with respect to the corresponding component of the state `(e0, e1, e2, e3, bp, bq, br)`, of
the corresponding component of the body-frame gravity measurement
`G·(2(e1·e3 − e0·e2), 2(e2·e3 + e0·e1), e0² − e1² − e2² + e3²)`; the gyro-bias columns
4, 5, 6 of all four rows of `H` are zero. -/
theorem calculateH_gravity_rows (G : ℝ) (x : Fin 7 → ℝ) :
    (∀ j : Fin 7, ∃ v, c_io_imu_CalculateH G x 0 j = some v ∧
      HasDerivAt (fun t => gravity_measurement_spec G (Function.update x j t) 0) v (x j)) ∧
    (∀ j : Fin 7, ∃ v, c_io_imu_CalculateH G x 1 j = some v ∧
      HasDerivAt (fun t => gravity_measurement_spec G (Function.update x j t) 1) v (x j)) ∧
    (∀ j : Fin 7, ∃ v, c_io_imu_CalculateH G x 2 j = some v ∧
      HasDerivAt (fun t => gravity_measurement_spec G (Function.update x j t) 2) v (x j)) ∧
    (∀ i : Fin 4, c_io_imu_CalculateH G x i 4 = some 0 ∧
      c_io_imu_CalculateH G x i 5 = some 0 ∧ c_io_imu_CalculateH G x i 6 = some 0) := by
  refine ⟨?_, ?_, ?_, ?_⟩
  · intro j
    fin_cases j <;>
      simp only [c_io_imu_CalculateH, Fin.zero_eta, Fin.mk_one, Fin.reduceFinMk, vec4_0,
        vec7_0, vec7_1, vec7_2, vec7_3, vec7_4, vec7_5, vec7_6] <;>
      refine ⟨_, rfl, hasDerivAt_quadratic _ _ _ 0 ?_⟩ <;>
      intro t <;> simp [gravity_measurement_spec] <;> ring1
  · intro j
    fin_cases j <;>
      simp only [c_io_imu_CalculateH, Fin.zero_eta, Fin.mk_one, Fin.reduceFinMk, vec4_1,
        vec7_0, vec7_1, vec7_2, vec7_3, vec7_4, vec7_5, vec7_6] <;>
      refine ⟨_, rfl, hasDerivAt_quadratic _ _ _ 0 ?_⟩ <;>
      intro t <;> simp [gravity_measurement_spec] <;> ring1
  · intro j
    fin_cases j <;>
      simp only [c_io_imu_CalculateH, Fin.zero_eta, Fin.mk_one, Fin.reduceFinMk, vec4_2,
        vec7_0, vec7_1, vec7_2, vec7_3, vec7_4, vec7_5, vec7_6]
    · refine ⟨_, rfl, hasDerivAt_quadratic _ _ _ G ?_⟩
      intro t
      simp [gravity_measurement_spec]
      ring1
    · refine ⟨_, rfl, hasDerivAt_quadratic _ _ _ (-G) ?_⟩
      intro t
      simp [gravity_measurement_spec]
      ring1
    · refine ⟨_, rfl, hasDerivAt_quadratic _ _ _ (-G) ?_⟩
      intro t
      simp [gravity_measurement_spec]
      ring1
    · refine ⟨_, rfl, hasDerivAt_quadratic _ _ _ G ?_⟩
      intro t
      simp [gravity_measurement_spec]
      ring1
    · refine ⟨_, rfl, hasDerivAt_quadratic _ _ _ 0 ?_⟩
      intro t
      simp [gravity_measurement_spec]
    · refine ⟨_, rfl, hasDerivAt_quadratic _ _ _ 0 ?_⟩
      intro t
      simp [gravity_measurement_spec]
    · refine ⟨_, rfl, hasDerivAt_quadratic _ _ _ 0 ?_⟩
      intro t
      simp [gravity_measurement_spec]
  · intro i
    fin_cases i <;>
      simp only [c_io_imu_CalculateH, Fin.zero_eta, Fin.mk_one, Fin.reduceFinMk, vec4_0,
        vec4_1, vec4_2, vec4_3, vec7_4, vec7_5, vec7_6, and_self]

/-! ## Theorems on `c_io_imu_getRaw` and on the status line -/

/-- Two bytes packed as `(int16_t)(lo | (hi << 8))` give the two's-complement value of the
pair. -/
theorem int16_of_bytes (lo hi : Int) (hlo : 0 ≤ lo ∧ lo < 256) (hhi : 0 ≤ hi ∧ hi < 256) :
    int16_t (int_or lo (int_shl hi 8)) = signed16_spec hi lo := by
  have h1 : int_shl hi 8 = 256 * hi := by
    unfold int_shl int32_t
    split <;> omega
  rw [h1]
  obtain ⟨l, rfl⟩ := Int.eq_ofNat_of_zero_le hlo.1
  obtain ⟨h, rfl⟩ := Int.eq_ofNat_of_zero_le hhi.1
  have hl : l < 2 ^ 8 := by omega
  have h2 := Nat.mul_add_lt_is_or hl h
  have h3 : int_or (l : Int) (256 * (h : Int)) = 256 * (h : Int) + l := by
    unfold int_or
    have e1 : ((l : Int) % 4294967296).toNat = l := by omega
    have e2 : ((256 * (h : Int)) % 4294967296).toNat = 2 ^ 8 * h := by omega
    rw [e1, e2, Nat.or_comm, ← h2]
    unfold int32_t
    push_cast
    split <;> omega
  rw [h3]
  unfold int16_t signed16_spec
  split <;> split <;> omega

/-- For a byte `lo`, `(uint8_t)lo & 0xFF` is `lo`. -/
theorem int_and_255 (lo : Int) (hlo : 0 ≤ lo ∧ lo < 256) : int_and (uint8_t lo) 255 = lo := by
  obtain ⟨l, rfl⟩ := Int.eq_ofNat_of_zero_le hlo.1
  unfold int_and uint8_t
  have e1 : (((l : Int) % 256) % 4294967296).toNat = l := by omega
  have e2 : ((255 : Int) % 4294967296).toNat = 2 ^ 8 - 1 := by decide
  rw [e1, e2, Nat.and_pow_two_sub_one_eq_mod]
  unfold int32_t
  push_cast
  split <;> omega

/-- Two bytes packed as `((signed char)hi << 8) | ((uint8_t)lo & 0xFF)` give the
two's-complement value of the pair. -/
theorem schar_of_bytes (hi lo : Int) (hhi : 0 ≤ hi ∧ hi < 256) (hlo : 0 ≤ lo ∧ lo < 256) :
    int_or (int_shl (signed_char hi) 8) (int_and (uint8_t lo) 255) = signed16_spec hi lo := by
  rw [int_and_255 lo hlo]
  obtain ⟨l, rfl⟩ := Int.eq_ofNat_of_zero_le hlo.1
  obtain ⟨h, rfl⟩ := Int.eq_ofNat_of_zero_le hhi.1
  have hl : l < 2 ^ 8 := by omega
  by_cases hneg : (h : Int) < 128
  · have h1 : int_shl (signed_char (h : Int)) 8 = 256 * (h : Int) := by
      unfold int_shl int32_t signed_char
      split <;> split <;> omega
    rw [h1]
    have h2 := Nat.mul_add_lt_is_or hl h
    unfold int_or
    have e1 : ((l : Int) % 4294967296).toNat = l := by omega
    have e2 : ((256 * (h : Int)) % 4294967296).toNat = 2 ^ 8 * h := by omega
    rw [e1, e2, ← h2]
    unfold int32_t signed16_spec
    push_cast
    split <;> split <;> omega
  · have h1 : int_shl (signed_char (h : Int)) 8 = 256 * (h : Int) - 65536 := by
      unfold int_shl int32_t signed_char
      split <;> split <;> omega
    rw [h1]
    have h2 := Nat.mul_add_lt_is_or hl (h + 16776960)
    unfold int_or
    have e1 : ((l : Int) % 4294967296).toNat = l := by omega
    have e2 : ((256 * (h : Int) - 65536) % 4294967296).toNat = 2 ^ 8 * (h + 16776960) := by
      omega
    rw [e1, e2, ← h2]
    unfold int32_t signed16_spec
    push_cast
    split <;> split <;> omega

/-- An element of a `uint8_t` array is a byte. -/
theorem uint8_range (v : Int) : 0 ≤ uint8_t v ∧ uint8_t v < 256 := by
  unfold uint8_t
  omega

/-- The two's-complement value of a byte pair fits sixteen bits. -/
theorem signed16_range (hi lo : Int) (hhi : 0 ≤ hi ∧ hi < 256) (hlo : 0 ≤ lo ∧ lo < 256) :
    -32768 ≤ signed16_spec hi lo ∧ signed16_spec hi lo ≤ 32767 := by
  unfold signed16_spec
  split <;> omega

/-- What the ITG/ADXL/HMC body returns, in terms of the signed value of each byte pair. -/
theorem getRaw_ITG_values {K : Type} [Field K] (accl gyro magn : Nat → Int)
    (accRaw gyrRaw magRaw : Nat → K) :
    ((c_io_imu_getRaw_ITG_ADXL_HMC accl gyro magn accRaw gyrRaw magRaw).1 0
        = ((signed16_spec (uint8_t (accl 1)) (uint8_t (accl 0)) : Int) : K) ∧
      (c_io_imu_getRaw_ITG_ADXL_HMC accl gyro magn accRaw gyrRaw magRaw).1 1
        = ((signed16_spec (uint8_t (accl 3)) (uint8_t (accl 2)) : Int) : K) ∧
      (c_io_imu_getRaw_ITG_ADXL_HMC accl gyro magn accRaw gyrRaw magRaw).1 2
        = ((signed16_spec (uint8_t (accl 5)) (uint8_t (accl 4)) : Int) : K)) ∧
    ((c_io_imu_getRaw_ITG_ADXL_HMC accl gyro magn accRaw gyrRaw magRaw).2.1 0
        = ((signed16_spec (uint8_t (gyro 0)) (uint8_t (gyro 1)) : Int) : K)
          * (174532925 / 10000000000 / (14375 / 1000)) ∧
      (c_io_imu_getRaw_ITG_ADXL_HMC accl gyro magn accRaw gyrRaw magRaw).2.1 1
        = ((signed16_spec (uint8_t (gyro 2)) (uint8_t (gyro 3)) : Int) : K)
          * (174532925 / 10000000000 / (14375 / 1000)) ∧
      (c_io_imu_getRaw_ITG_ADXL_HMC accl gyro magn accRaw gyrRaw magRaw).2.1 2
        = ((signed16_spec (uint8_t (gyro 4)) (uint8_t (gyro 5)) : Int) : K)
          * (174532925 / 10000000000 / (14375 / 1000))) ∧
    ((c_io_imu_getRaw_ITG_ADXL_HMC accl gyro magn accRaw gyrRaw magRaw).2.2 0
        = (((signed16_spec (uint8_t (magn 0)) (uint8_t (magn 1)) : Int) : K) - 205)
          / (4015 / 1000) ∧
      (c_io_imu_getRaw_ITG_ADXL_HMC accl gyro magn accRaw gyrRaw magRaw).2.2 1
        = (((signed16_spec (uint8_t (magn 4)) (uint8_t (magn 5)) : Int) : K) - (-119))
          / (369 / 100) ∧
      (c_io_imu_getRaw_ITG_ADXL_HMC accl gyro magn accRaw gyrRaw magRaw).2.2 2
        = (((signed16_spec (uint8_t (magn 2)) (uint8_t (magn 3)) : Int) : K) - (-79))
          / (3425 / 1000)) := by
  have e1 : Int.tdiv (250 - 488) 2 = -119 := by decide
  have e2 : Int.tdiv (607 - 196) 2 = 205 := by decide
  have e3 : Int.tdiv (263 - 422) 2 = -79 := by decide
  simp only [c_io_imu_getRaw_ITG_ADXL_HMC,
    int16_of_bytes _ _ (uint8_range _) (uint8_range _), e1, e2, e3]
  refine ⟨⟨?_, ?_, ?_⟩, ⟨?_, ?_, ?_⟩, ⟨?_, ?_, ?_⟩⟩ <;> simp [Function.update]

/-- What the MPU6050 body returns, in terms of the signed value of each byte pair. -/
theorem getRaw_MPU_values {K : Type} [Field K] (regs : Nat → Int)
    (accRaw gyrRaw magRaw : Nat → K) :
    ((c_io_imu_getRaw_MPU6050_HMC5883 regs accRaw gyrRaw magRaw).1 0
        = -1 * ((signed16_spec (uint8_t (regs 0)) (uint8_t (regs 1)) : Int) : K) / 16384 ∧
      (c_io_imu_getRaw_MPU6050_HMC5883 regs accRaw gyrRaw magRaw).1 1
        = -1 * ((signed16_spec (uint8_t (regs 2)) (uint8_t (regs 3)) : Int) : K) / 16384 ∧
      (c_io_imu_getRaw_MPU6050_HMC5883 regs accRaw gyrRaw magRaw).1 2
        = ((signed16_spec (uint8_t (regs 4)) (uint8_t (regs 5)) : Int) : K) / 16384) ∧
    ((c_io_imu_getRaw_MPU6050_HMC5883 regs accRaw gyrRaw magRaw).2.1 0
        = ((signed16_spec (uint8_t (regs 8)) (uint8_t (regs 9)) : Int) : K) / 131 ∧
      (c_io_imu_getRaw_MPU6050_HMC5883 regs accRaw gyrRaw magRaw).2.1 1
        = ((signed16_spec (uint8_t (regs 10)) (uint8_t (regs 11)) : Int) : K) / 131 ∧
      (c_io_imu_getRaw_MPU6050_HMC5883 regs accRaw gyrRaw magRaw).2.1 2
        = ((signed16_spec (uint8_t (regs 12)) (uint8_t (regs 13)) : Int) : K) / 131) ∧
    (c_io_imu_getRaw_MPU6050_HMC5883 regs accRaw gyrRaw magRaw).2.2 = magRaw := by
  have hs : ∀ hi lo : Int, int_or (int_shl (signed_char (uint8_t hi)) 8)
      (int_and (uint8_t (uint8_t lo)) 255) = signed16_spec (uint8_t hi) (uint8_t lo) := by
    intro hi lo
    exact schar_of_bytes _ _ (uint8_range _) (uint8_range _)
  simp only [c_io_imu_getRaw_MPU6050_HMC5883, hs]
  refine ⟨⟨?_, ?_, ?_⟩, ⟨?_, ?_, ?_⟩, ?_⟩ <;> simp [Function.update]

/-- C16: the code at the failing input. In the ITG/ADXL/HMC variant a gyro component is the
raw count divided by `14.375` and multiplied by `0.0174532925`, in rad/s. In the MPU6050
variant it is the raw count divided by `131` and nothing else, in deg/s: for the register
bytes `0x00, 0x83` (raw count 131, one degree per second) the x rate returned is `1`, not
`0.0174532925`. -/
theorem gyro_units_divergence :
    (∀ (accl gyro magn : Nat → Int) (accRaw gyrRaw magRaw : Nat → ℚ),
      (c_io_imu_getRaw_ITG_ADXL_HMC accl gyro magn accRaw gyrRaw magRaw).2.1 0
        = ((signed16_spec (uint8_t (gyro 0)) (uint8_t (gyro 1)) : Int) : ℚ)
          / (14375 / 1000) * (174532925 / 10000000000)) ∧
    (∀ (regs : Nat → Int) (accRaw gyrRaw magRaw : Nat → ℚ),
      (c_io_imu_getRaw_MPU6050_HMC5883 regs accRaw gyrRaw magRaw).2.1 0
        = ((signed16_spec (uint8_t (regs 8)) (uint8_t (regs 9)) : Int) : ℚ) / 131) ∧
    (c_io_imu_getRaw_MPU6050_HMC5883 (K := ℚ) (fun i => if i = 9 then 131 else 0)
      (fun _ => 0) (fun _ => 0) (fun _ => 0)).2.1 0 = 1 ∧
    (1 : ℚ) ≠ 131 / 131 * (174532925 / 10000000000) := by
  refine ⟨?_, ?_, ?_, by norm_num⟩
  · intro accl gyro magn accRaw gyrRaw magRaw
    rw [(getRaw_ITG_values accl gyro magn accRaw gyrRaw magRaw).2.1.1]
    ring
  · intro regs accRaw gyrRaw magRaw
    exact (getRaw_MPU_values regs accRaw gyrRaw magRaw).2.1.1
  · rw [(getRaw_MPU_values _ _ _ _).2.1.1]
    simp [signed16_spec, uint8_t]

/-- C17: the code at the failing input. In the MPU6050 variant an accelerometer component is
(up to sign) the raw count divided by `16384`, in g. In the ITG/ADXL/HMC variant it is the
raw count itself: for the register bytes `0x00, 0x01` (raw count 256, which is 1 g at the
configured full resolution of the ADXL345) the x acceleration returned is `256`, not `1`. -/
theorem accel_units_divergence :
    (∀ (regs : Nat → Int) (accRaw gyrRaw magRaw : Nat → ℚ),
      (c_io_imu_getRaw_MPU6050_HMC5883 regs accRaw gyrRaw magRaw).1 2
        = ((signed16_spec (uint8_t (regs 4)) (uint8_t (regs 5)) : Int) : ℚ) / 16384) ∧
    (∀ (accl gyro magn : Nat → Int) (accRaw gyrRaw magRaw : Nat → ℚ),
      (c_io_imu_getRaw_ITG_ADXL_HMC accl gyro magn accRaw gyrRaw magRaw).1 0
        = ((signed16_spec (uint8_t (accl 1)) (uint8_t (accl 0)) : Int) : ℚ)) ∧
    (c_io_imu_getRaw_ITG_ADXL_HMC (K := ℚ) (fun i => if i = 1 then 1 else 0) (fun _ => 0)
      (fun _ => 0) (fun _ => 0) (fun _ => 0) (fun _ => 0)).1 0 = 256 ∧
    (256 : ℚ) ≠ 256 / 256 := by
  refine ⟨?_, ?_, ?_, by norm_num⟩
  · intro regs accRaw gyrRaw magRaw
    exact (getRaw_MPU_values regs accRaw gyrRaw magRaw).1.2.2
  · intro accl gyro magn accRaw gyrRaw magRaw
    exact (getRaw_ITG_values accl gyro magn accRaw gyrRaw magRaw).1.1
  · rw [(getRaw_ITG_values _ _ _ _ _ _).1.1]
    simp [signed16_spec, uint8_t]

/-- C18. For every register byte block, `c_io_imu_getRaw` decodes each axis as the
two's-complement signed 16-bit value of its byte pair, in the byte order of the device. In
the ITG/ADXL/HMC variant: ADXL345 acceleration low byte first; ITG3205 gyro high byte first;
HMC5883 magnetometer high byte first with the registers in the order X, Z, Y; each value then
passes through the scaling of the code. In the MPU6050 variant: high byte first. Both
packing expressions, `(int16_t)(lo | (hi << 8))` and `((signed char)hi << 8) | lo`, equal
`256·hi + lo − 65536·[hi ≥ 128]`, which lies in `[-32768, 32767]`. -/
theorem getRaw_decodes_signed16 {K : Type} [Field K] (accl gyro magn regs : Nat → Int)
    (accRaw gyrRaw magRaw : Nat → K) :
    ((c_io_imu_getRaw_ITG_ADXL_HMC accl gyro magn accRaw gyrRaw magRaw).1 0
        = ((signed16_spec (uint8_t (accl 1)) (uint8_t (accl 0)) : Int) : K) ∧
      (c_io_imu_getRaw_ITG_ADXL_HMC accl gyro magn accRaw gyrRaw magRaw).1 1
        = ((signed16_spec (uint8_t (accl 3)) (uint8_t (accl 2)) : Int) : K) ∧
      (c_io_imu_getRaw_ITG_ADXL_HMC accl gyro magn accRaw gyrRaw magRaw).1 2
        = ((signed16_spec (uint8_t (accl 5)) (uint8_t (accl 4)) : Int) : K)) ∧
    ((c_io_imu_getRaw_ITG_ADXL_HMC accl gyro magn accRaw gyrRaw magRaw).2.1 0
        = ((signed16_spec (uint8_t (gyro 0)) (uint8_t (gyro 1)) : Int) : K)
          * (174532925 / 10000000000 / (14375 / 1000)) ∧
      (c_io_imu_getRaw_ITG_ADXL_HMC accl gyro magn accRaw gyrRaw magRaw).2.1 1
        = ((signed16_spec (uint8_t (gyro 2)) (uint8_t (gyro 3)) : Int) : K)
          * (174532925 / 10000000000 / (14375 / 1000)) ∧
      (c_io_imu_getRaw_ITG_ADXL_HMC accl gyro magn accRaw gyrRaw magRaw).2.1 2
        = ((signed16_spec (uint8_t (gyro 4)) (uint8_t (gyro 5)) : Int) : K)
          * (174532925 / 10000000000 / (14375 / 1000))) ∧
    ((c_io_imu_getRaw_ITG_ADXL_HMC accl gyro magn accRaw gyrRaw magRaw).2.2 0
        = (((signed16_spec (uint8_t (magn 0)) (uint8_t (magn 1)) : Int) : K) - 205)
          / (4015 / 1000) ∧
      (c_io_imu_getRaw_ITG_ADXL_HMC accl gyro magn accRaw gyrRaw magRaw).2.2 1
        = (((signed16_spec (uint8_t (magn 4)) (uint8_t (magn 5)) : Int) : K) - (-119))
          / (369 / 100) ∧
      (c_io_imu_getRaw_ITG_ADXL_HMC accl gyro magn accRaw gyrRaw magRaw).2.2 2
        = (((signed16_spec (uint8_t (magn 2)) (uint8_t (magn 3)) : Int) : K) - (-79))
          / (3425 / 1000)) ∧
    ((c_io_imu_getRaw_MPU6050_HMC5883 regs accRaw gyrRaw magRaw).1 0
        = -1 * ((signed16_spec (uint8_t (regs 0)) (uint8_t (regs 1)) : Int) : K) / 16384 ∧
      (c_io_imu_getRaw_MPU6050_HMC5883 regs accRaw gyrRaw magRaw).1 1
        = -1 * ((signed16_spec (uint8_t (regs 2)) (uint8_t (regs 3)) : Int) : K) / 16384 ∧
      (c_io_imu_getRaw_MPU6050_HMC5883 regs accRaw gyrRaw magRaw).1 2
        = ((signed16_spec (uint8_t (regs 4)) (uint8_t (regs 5)) : Int) : K) / 16384) ∧
    ((c_io_imu_getRaw_MPU6050_HMC5883 regs accRaw gyrRaw magRaw).2.1 0
        = ((signed16_spec (uint8_t (regs 8)) (uint8_t (regs 9)) : Int) : K) / 131 ∧
      (c_io_imu_getRaw_MPU6050_HMC5883 regs accRaw gyrRaw magRaw).2.1 1
        = ((signed16_spec (uint8_t (regs 10)) (uint8_t (regs 11)) : Int) : K) / 131 ∧
      (c_io_imu_getRaw_MPU6050_HMC5883 regs accRaw gyrRaw magRaw).2.1 2
        = ((signed16_spec (uint8_t (regs 12)) (uint8_t (regs 13)) : Int) : K) / 131) ∧
    (∀ hi lo : Int,
      int16_t (int_or (uint8_t lo) (int_shl (uint8_t hi) 8))
        = signed16_spec (uint8_t hi) (uint8_t lo) ∧
      int_or (int_shl (signed_char (uint8_t hi)) 8) (int_and (uint8_t (uint8_t lo)) 255)
        = signed16_spec (uint8_t hi) (uint8_t lo) ∧
      -32768 ≤ signed16_spec (uint8_t hi) (uint8_t lo) ∧
      signed16_spec (uint8_t hi) (uint8_t lo) ≤ 32767) := by
  obtain ⟨ha, hg, hm⟩ := getRaw_ITG_values (K := K) accl gyro magn accRaw gyrRaw magRaw
  obtain ⟨hma, hmg, _⟩ := getRaw_MPU_values (K := K) regs accRaw gyrRaw magRaw
  refine ⟨ha, hg, hm, hma, hmg, fun hi lo => ⟨?_, ?_, ?_⟩⟩
  · exact int16_of_bytes _ _ (uint8_range _) (uint8_range _)
  · exact schar_of_bytes _ _ (uint8_range _) (uint8_range _)
  · exact signed16_range _ _ (uint8_range _) (uint8_range _)

/-- C19, amended. For every tick count `ms` and every formatted roll and pitch strings `r`
and `p`, the status line that `module_io_run` emits is exactly the characters `"Time: "`,
the decimal digits of `ms`, SPACE, TAB, SPACE, `r`, SPACE, TAB, TAB, SPACE, `p`, LF, CR: the
format string puts a space before and after the single tab and around the pair of tabs. -/
theorem status_line_format (millis : Int) (r p : String) :
    module_io_run_status_line millis r p
      = some ("Time: ".data ++ (toString millis).data ++ [' ', '\t', ' '] ++ r.data
          ++ [' ', '\t', '\t', ' '] ++ p.data ++ ['\n', '\r']) := by
  simp [module_io_run_status_line, sprintf_chars]

/-- C19, as stated, fails. For `ms = 0`, `r = "1"` and `p = "2"` the line emitted is
`"Time: 0 \t 1 \t\t 2\n\r"`, with spaces around the tabs, not `"Time: 0\t1\t\t2\n\r"`. -/
theorem status_line_counterexample :
    module_io_run_status_line 0 "1" "2" = some "Time: 0 \t 1 \t\t 2\n\r".data ∧
    module_io_run_status_line 0 "1" "2" ≠ some "Time: 0\t1\t\t2\n\r".data := by
  constructor <;> decide

/-- C20: the code at the failing input. The offsets are computed in integer arithmetic:
`(607-196)/2` is `205`, `(250-488)/2` is `-119` and `(263-422)/2` is `-79`, so the code
returns `(raw − 205)/4.015`, `(raw + 119)/3.69` and `(raw + 79)/3.425`. For the raw counts
`X = 205` and `Z = −79` it returns `0` on both axes, where the midpoints `205.5` and `−79.5`
of the claim give `−0.5/4.015` and `0.5/3.425`. -/
theorem magnetometer_offsets_divergence :
    (∀ (accl gyro magn : Nat → Int) (accRaw gyrRaw magRaw : Nat → ℚ),
      (c_io_imu_getRaw_ITG_ADXL_HMC accl gyro magn accRaw gyrRaw magRaw).2.2 0
        = (((signed16_spec (uint8_t (magn 0)) (uint8_t (magn 1)) : Int) : ℚ) - 205)
          / (4015 / 1000) ∧
      (c_io_imu_getRaw_ITG_ADXL_HMC accl gyro magn accRaw gyrRaw magRaw).2.2 1
        = (((signed16_spec (uint8_t (magn 4)) (uint8_t (magn 5)) : Int) : ℚ) - (-119))
          / (369 / 100) ∧
      (c_io_imu_getRaw_ITG_ADXL_HMC accl gyro magn accRaw gyrRaw magRaw).2.2 2
        = (((signed16_spec (uint8_t (magn 2)) (uint8_t (magn 3)) : Int) : ℚ) - (-79))
          / (3425 / 1000)) ∧
    (c_io_imu_getRaw_ITG_ADXL_HMC (K := ℚ) (fun _ => 0) (fun _ => 0)
      (fun i => if i = 1 then 205 else if i = 2 then 255 else if i = 3 then 177 else 0)
      (fun _ => 0) (fun _ => 0) (fun _ => 0)).2.2 0 = 0 ∧
    (0 : ℚ) ≠ (205 - 2055 / 10) / (4015 / 1000) ∧
    (c_io_imu_getRaw_ITG_ADXL_HMC (K := ℚ) (fun _ => 0) (fun _ => 0)
      (fun i => if i = 1 then 205 else if i = 2 then 255 else if i = 3 then 177 else 0)
      (fun _ => 0) (fun _ => 0) (fun _ => 0)).2.2 2 = 0 ∧
    (0 : ℚ) ≠ (-79 - -(795 / 10)) / (3425 / 1000) := by
  refine ⟨fun accl gyro magn accRaw gyrRaw magRaw =>
    (getRaw_ITG_values accl gyro magn accRaw gyrRaw magRaw).2.2, ?_, by norm_num, ?_,
    by norm_num⟩
  · rw [(getRaw_ITG_values _ _ _ _ _ _).2.2.1]
    simp [signed16_spec, uint8_t]
  · rw [(getRaw_ITG_values _ _ _ _ _ _).2.2.2.2]
    simp [signed16_spec, uint8_t]

/-! ## Theorems on the heading row of `c_io_imu_CalculateH` -/

section Row3
variable {K : Type} [Field K] [DecidableEq K]

/-- The four quotients of row 3 of `c_io_imu_CalculateH` share the divisor
`CalculateH_divisor`; the last three entries of the row are `0`. -/
theorem CalculateH_row3 (G : K) (x : Fin 7 → K) :
    c_io_imu_CalculateH G x 3 0
      = fdiv (-2 * (2 * x 0 * x 1 * x 2 + (x 0 ^ 2 - x 1 ^ 2 + x 2 ^ 2) * x 3 + x 3 ^ 3))
        (CalculateH_divisor x) ∧
    c_io_imu_CalculateH G x 3 1
      = fdiv (-2 * (-(x 0 ^ 2 * x 2) + 2 * x 0 * x 1 * x 3
          + x 2 * (x 1 ^ 2 + x 2 ^ 2 + x 3 ^ 2)))
        (CalculateH_divisor x) ∧
    c_io_imu_CalculateH G x 3 2
      = fdiv (2 * x 1 * (x 0 ^ 2 + x 1 ^ 2 + x 2 ^ 2) + 4 * x 0 * x 2 * x 3
          - 2 * x 1 * x 3 ^ 2)
        (CalculateH_divisor x) ∧
    c_io_imu_CalculateH G x 3 3
      = fdiv (2 * (x 0 ^ 3 + 2 * x 1 * x 2 * x 3 + x 0 * (x 1 ^ 2 - x 2 ^ 2 + x 3 ^ 2)))
        (CalculateH_divisor x) ∧
    c_io_imu_CalculateH G x 3 4 = some 0 ∧
    c_io_imu_CalculateH G x 3 5 = some 0 ∧
    c_io_imu_CalculateH G x 3 6 = some 0 :=
  ⟨rfl, rfl, rfl, rfl, rfl, rfl, rfl⟩

omit [DecidableEq K] in
/-- The divisor of row 3 is `X² + Y²`. -/
theorem CalculateH_divisor_eq (x : Fin 7 → K) :
    CalculateH_divisor x = heading_X_spec x ^ 2 + heading_Y_spec x ^ 2 := by
  simp only [CalculateH_divisor, heading_X_spec, heading_Y_spec]
  ring

omit [DecidableEq K] in
/-- The divisor of row 3 is `(e0² + e1² + e2² + e3²)² − (2(e0·e2 − e1·e3))²`. -/
theorem CalculateH_divisor_norm (x : Fin 7 → K) :
    CalculateH_divisor x
      = (x 0 ^ 2 + x 1 ^ 2 + x 2 ^ 2 + x 3 ^ 2) ^ 2 - (2 * (x 0 * x 2 - x 1 * x 3)) ^ 2 := by
  simp only [CalculateH_divisor]
  ring

end Row3

/-- The derivative of `arctan (Y/X)` where `X ≠ 0` is `(X·Y' − Y·X')/(X² + Y²)`. -/
theorem hasDerivAt_arctan_div (X Y : ℝ → ℝ) (t0 dX dY : ℝ) (hX : HasDerivAt X dX t0)
    (hY : HasDerivAt Y dY t0) (h0 : X t0 ≠ 0) :
    HasDerivAt (fun t => Real.arctan (Y t / X t))
      ((X t0 * dY - Y t0 * dX) / (X t0 ^ 2 + Y t0 ^ 2)) t0 := by
  have h1 := (hY.div hX h0).arctan
  convert h1 using 1
  have h2 : X t0 ^ 2 + Y t0 ^ 2 ≠ 0 := by positivity
  have h3 : 1 + (Y t0 / X t0) ^ 2 ≠ 0 := by positivity
  field_simp
  ring

/-- C21. With `Y = 2(e1·e2 + e0·e3)` and `X = e0² + e1² − e2² − e3²`, the divisor
`((e0+e2)² + (e1−e3)²)·((e0−e2)² + (e1+e3)²)` of row 3 of `c_io_imu_CalculateH` equals
`X² + Y²`. For every state at which `X² + Y² ≠ 0` and every column `j` of the seven, the entry
`H[3][j]` has a value, and that value is `(X·∂Y/∂xj − Y·∂X/∂xj)/(X² + Y²)`, where `∂Y/∂xj`
and `∂X/∂xj` are the partial derivatives of `Y` and `X` along the state component `j`: the
gradient of the heading `ψ = atan2(Y, X)`. Where in addition `X ≠ 0`, that value is the
partial derivative of `arctan(Y/X)`, which differs from `atan2(Y, X)` by a locally constant
term. -/
theorem calculateH_heading_row (G : ℝ) (x : Fin 7 → ℝ)
    (h : heading_X_spec x ^ 2 + heading_Y_spec x ^ 2 ≠ 0) :
    CalculateH_divisor x = heading_X_spec x ^ 2 + heading_Y_spec x ^ 2 ∧
    ∀ j : Fin 7, ∃ dY dX : ℝ,
      HasDerivAt (fun t => heading_Y_spec (Function.update x j t)) dY (x j) ∧
      HasDerivAt (fun t => heading_X_spec (Function.update x j t)) dX (x j) ∧
      c_io_imu_CalculateH G x 3 j
        = some ((heading_X_spec x * dY - heading_Y_spec x * dX)
          / (heading_X_spec x ^ 2 + heading_Y_spec x ^ 2)) ∧
      (heading_X_spec x ≠ 0 →
        HasDerivAt (fun t => Real.arctan (heading_Y_spec (Function.update x j t)
            / heading_X_spec (Function.update x j t)))
          ((heading_X_spec x * dY - heading_Y_spec x * dX)
            / (heading_X_spec x ^ 2 + heading_Y_spec x ^ 2)) (x j)) := by
  have hdiv := CalculateH_divisor_eq x
  have hne : CalculateH_divisor x ≠ 0 := by rw [hdiv]; exact h
  obtain ⟨r0, r1, r2, r3, r4, r5, r6⟩ := CalculateH_row3 G x
  have key : ∀ (j : Fin 7) (dY dX : ℝ),
      HasDerivAt (fun t => heading_Y_spec (Function.update x j t)) dY (x j) →
      HasDerivAt (fun t => heading_X_spec (Function.update x j t)) dX (x j) →
      c_io_imu_CalculateH G x 3 j
        = some ((heading_X_spec x * dY - heading_Y_spec x * dX)
          / (heading_X_spec x ^ 2 + heading_Y_spec x ^ 2)) →
      ∃ dY dX : ℝ,
      HasDerivAt (fun t => heading_Y_spec (Function.update x j t)) dY (x j) ∧
      HasDerivAt (fun t => heading_X_spec (Function.update x j t)) dX (x j) ∧
      c_io_imu_CalculateH G x 3 j
        = some ((heading_X_spec x * dY - heading_Y_spec x * dX)
          / (heading_X_spec x ^ 2 + heading_Y_spec x ^ 2)) ∧
      (heading_X_spec x ≠ 0 →
        HasDerivAt (fun t => Real.arctan (heading_Y_spec (Function.update x j t)
            / heading_X_spec (Function.update x j t)))
          ((heading_X_spec x * dY - heading_Y_spec x * dX)
            / (heading_X_spec x ^ 2 + heading_Y_spec x ^ 2)) (x j)) := by
    intro j dY dX hY hX hH
    refine ⟨dY, dX, hY, hX, hH, fun h0 => ?_⟩
    have e := hasDerivAt_arctan_div (fun t => heading_X_spec (Function.update x j t))
      (fun t => heading_Y_spec (Function.update x j t)) (x j) dX dY hX hY
      (by simpa using h0)
    simpa using e
  refine ⟨hdiv, fun j => ?_⟩
  fin_cases j
  · refine key _ (2 * x 3) (2 * x 0) (hasDerivAt_quadratic _ _ _ 0 ?_)
      (hasDerivAt_quadratic _ _ _ 1 ?_) ?_
    · intro t
      simp [heading_Y_spec]
      ring1
    · intro t
      simp [heading_X_spec]
      ring1
    · simp only [Fin.zero_eta]
      rw [r0, fdiv_of_ne _ _ hne, hdiv]
      congr 2
      simp only [heading_X_spec, heading_Y_spec]
      ring
  · refine key _ (2 * x 2) (2 * x 1) (hasDerivAt_quadratic _ _ _ 0 ?_)
      (hasDerivAt_quadratic _ _ _ 1 ?_) ?_
    · intro t
      simp [heading_Y_spec]
      ring1
    · intro t
      simp [heading_X_spec]
      ring1
    · simp only [Fin.mk_one]
      rw [r1, fdiv_of_ne _ _ hne, hdiv]
      congr 2
      simp only [heading_X_spec, heading_Y_spec]
      ring
  · refine key _ (2 * x 1) (-(2 * x 2)) (hasDerivAt_quadratic _ _ _ 0 ?_)
      (hasDerivAt_quadratic _ _ _ (-1) ?_) ?_
    · intro t
      simp [heading_Y_spec]
      ring1
    · intro t
      simp [heading_X_spec]
      ring1
    · simp only [Fin.reduceFinMk]
      rw [r2, fdiv_of_ne _ _ hne, hdiv]
      congr 2
      simp only [heading_X_spec, heading_Y_spec]
      ring
  · refine key _ (2 * x 0) (-(2 * x 3)) (hasDerivAt_quadratic _ _ _ 0 ?_)
      (hasDerivAt_quadratic _ _ _ (-1) ?_) ?_
    · intro t
      simp [heading_Y_spec]
      ring1
    · intro t
      simp [heading_X_spec]
      ring1
    · simp only [Fin.reduceFinMk]
      rw [r3, fdiv_of_ne _ _ hne, hdiv]
      congr 2
      simp only [heading_X_spec, heading_Y_spec]
      ring
  · refine key _ 0 0 (hasDerivAt_quadratic _ _ _ 0 ?_) (hasDerivAt_quadratic _ _ _ 0 ?_) ?_
    · intro t
      simp [heading_Y_spec]
    · intro t
      simp [heading_X_spec]
    · simp only [Fin.reduceFinMk, r4]
      simp
  · refine key _ 0 0 (hasDerivAt_quadratic _ _ _ 0 ?_) (hasDerivAt_quadratic _ _ _ 0 ?_) ?_
    · intro t
      simp [heading_Y_spec]
    · intro t
      simp [heading_X_spec]
    · simp only [Fin.reduceFinMk, r5]
      simp
  · refine key _ 0 0 (hasDerivAt_quadratic _ _ _ 0 ?_) (hasDerivAt_quadratic _ _ _ 0 ?_) ?_
    · intro t
      simp [heading_Y_spec]
    · intro t
      simp [heading_X_spec]
    · simp only [Fin.reduceFinMk, r6]
      simp

/-- C21, witness: the identity quaternion `(1, 0, 0, 0)`, where `X = 1` and `Y = 0`. -/
theorem calculateH_heading_row_witness :
    heading_X_spec (![1, 0, 0, 0, 0, 0, 0] : Fin 7 → ℝ) ^ 2
      + heading_Y_spec (![1, 0, 0, 0, 0, 0, 0] : Fin 7 → ℝ) ^ 2 ≠ 0 ∧
    CalculateH_divisor (![1, 0, 0, 0, 0, 0, 0] : Fin 7 → ℝ)
      = heading_X_spec (![1, 0, 0, 0, 0, 0, 0] : Fin 7 → ℝ) ^ 2
        + heading_Y_spec (![1, 0, 0, 0, 0, 0, 0] : Fin 7 → ℝ) ^ 2 :=
  ⟨by simp only [heading_X_spec, heading_Y_spec, vec7_0, vec7_1, vec7_2, vec7_3]; norm_num,
    (calculateH_heading_row 1 ![1, 0, 0, 0, 0, 0, 0]
      (by simp only [heading_X_spec, heading_Y_spec, vec7_0, vec7_1, vec7_2, vec7_3]
          norm_num)).1⟩

/-! ## Theorems on the independence of the two serial lines -/

/-- C22. For every state, a receive interrupt of USART2 (with the receive flag raised or not)
and a read addressed to USART2 leave the ring buffer of USART6 as it was: storage, write
index, read index and flag; likewise an interrupt of USART6 and a read addressed to USART6
leave the ring buffer of USART2 as it was. `c_common_usart_read` called with any of the
other handles, USART1, USART3, UART4 or UART5, returns `0` and the state unchanged, and
`c_common_usart_available` called with one of them returns `0`. -/
theorem serial_lines_independent (rxne : Bool) (data : Nat) (s : UartState) :
    (USART2_IRQHandler rxne data s).map (fun t => t.line SerialLine.usart6)
      = (USART2_IRQHandler rxne data s).map (fun _ => s.line SerialLine.usart6) ∧
    (USART6_IRQHandler rxne data s).map (fun t => t.line SerialLine.usart2)
      = (USART6_IRQHandler rxne data s).map (fun _ => s.line SerialLine.usart2) ∧
    (c_common_usart_read USART2 s).map (fun p => p.2.line SerialLine.usart6)
      = (c_common_usart_read USART2 s).map (fun _ => s.line SerialLine.usart6) ∧
    (c_common_usart_read USART6 s).map (fun p => p.2.line SerialLine.usart2)
      = (c_common_usart_read USART6 s).map (fun _ => s.line SerialLine.usart2) ∧
    (c_common_usart_read USART1 s = some (0, s) ∧ c_common_usart_available USART1 s = false) ∧
    (c_common_usart_read USART3 s = some (0, s) ∧ c_common_usart_available USART3 s = false) ∧
    (c_common_usart_read UART4 s = some (0, s) ∧ c_common_usart_available UART4 s = false) ∧
    (c_common_usart_read UART5 s = some (0, s) ∧ c_common_usart_available UART5 s = false) := by
  refine ⟨?_, ?_, ?_, ?_, ⟨rfl, rfl⟩, ⟨rfl, rfl⟩, ⟨rfl, rfl⟩, ⟨rfl, rfl⟩⟩
  · cases rxne
    · rfl
    · have h := push_eq SerialLine.usart2 data s
      simp only [push] at h
      rw [h]
      cases RingBuffer.push data (s.line SerialLine.usart2) <;> rfl
  · cases rxne
    · rfl
    · have h := push_eq SerialLine.usart6 data s
      simp only [push] at h
      rw [h]
      cases RingBuffer.push data (s.line SerialLine.usart6) <;> rfl
  · have h := pop_eq SerialLine.usart2 s
    simp only [pop, SerialLine.handle] at h
    rw [h]
    cases RingBuffer.pop (s.line SerialLine.usart2) <;> rfl
  · have h := pop_eq SerialLine.usart6 s
    simp only [pop, SerialLine.handle] at h
    rw [h]
    cases RingBuffer.pop (s.line SerialLine.usart6) <;> rfl

/-! ## Theorems on the quaternion block of the transition matrix -/

/-- The quaternion block of the transition matrix is orthogonal as soon as `sqrt d` squares
to `d = a² + b² + c²`, is not zero, and `sin² + cos² = 1`. -/
theorem entries_block_orthogonal (m : MathLib ℝ) (e0 e1 e2 e3 a b c d dt : ℝ)
    (hd : d = a ^ 2 + b ^ 2 + c ^ 2) (hr : m.sqrt d ≠ 0) (hr2 : m.sqrt d ^ 2 = d)
    (hCS : m.sin (m.sqrt d * dt) ^ 2 + m.cos (m.sqrt d * dt) ^ 2 = 1) :
    (quaternionBlock
        (fun i j => (TransitionMatrix_entries m e0 e1 e2 e3 a b c d dt i j).getD 0)).transpose
      * quaternionBlock
        (fun i j => (TransitionMatrix_entries m e0 e1 e2 e3 a b c d dt i j).getD 0) = 1 := by
  have c0 : Fin.castLE (by decide : 4 ≤ 7) (0 : Fin 4) = (0 : Fin 7) := rfl
  have c1 : Fin.castLE (by decide : 4 ≤ 7) (1 : Fin 4) = (1 : Fin 7) := rfl
  have c2 : Fin.castLE (by decide : 4 ≤ 7) (2 : Fin 4) = (2 : Fin 7) := rfl
  have c3 : Fin.castLE (by decide : 4 ≤ 7) (3 : Fin 4) = (3 : Fin 7) := rfl
  have hkey : m.cos (m.sqrt d * dt) ^ 2
      + (a ^ 2 + b ^ 2 + c ^ 2) * (m.sin (m.sqrt d * dt) / m.sqrt d) ^ 2 = 1 := by
    have e : (a ^ 2 + b ^ 2 + c ^ 2) * (m.sin (m.sqrt d * dt) / m.sqrt d) ^ 2
        = m.sin (m.sqrt d * dt) ^ 2 := by
      have h3 : a ^ 2 + b ^ 2 + c ^ 2 = m.sqrt d ^ 2 := by rw [hr2, hd]
      rw [h3]
      field_simp
    rw [e]
    linarith
  ext i j
  rw [Matrix.one_apply]
  fin_cases i <;> fin_cases j <;>
    simp only [Matrix.mul_apply, Matrix.transpose_apply, quaternionBlock, Matrix.of_apply,
      Fin.sum_univ_four, c0, c1, c2, c3, Fin.zero_eta, Fin.mk_one, Fin.reduceFinMk,
      TransitionMatrix_entries, vec7_0, vec7_1, vec7_2, vec7_3, fdiv_of_ne _ _ hr,
      Option.map_some', Option.getD_some, Fin.reduceEq, if_true, if_false, Fin.isValue] <;>
    first
    | ring1
    | linear_combination hkey

/-- A matrix with `Mᵀ M = 1` preserves the sum of the squares of the components. -/
theorem norm_of_orthogonal (M : Matrix (Fin 4) (Fin 4) ℝ) (h : M.transpose * M = 1)
    (q : Fin 4 → ℝ) : ∑ i, (M.mulVec q i) ^ 2 = ∑ i, q i ^ 2 := by
  have e : Matrix.dotProduct (M.mulVec q) (M.mulVec q) = Matrix.dotProduct q q := by
    rw [Matrix.dotProduct_mulVec, ← Matrix.vecMul_transpose, Matrix.vecMul_vecMul, h,
      Matrix.vecMul_one]
  simpa [Matrix.dotProduct, pow_two] using e

/-- C23. For every state, gyro rate and `dt` such that the bias-corrected half rates
`a = (g0 − bp)/2`, `b = (g1 − bq)/2`, `c = (g2 − br)/2` have `d = a² + b² + c² > 0`, every
entry of the matrix of `c_io_imu_CalculateTransitionMatrix` has a value, the upper-left 4×4
block `M` of the matrix satisfies `Mᵀ·M = I`, and `M` preserves the sum of the squares of the
components of every quaternion it is applied to. Over the reals. -/
theorem quaternion_block_orthogonal (x : Fin 7 → ℝ) (g : Nat → ℝ) (dt : ℝ)
    (hd : 0 < (1 / 2 * (-x 4 + g 0)) ^ 2 + (1 / 2 * (-x 5 + g 1)) ^ 2
      + (1 / 2 * (-x 6 + g 2)) ^ 2) :
    ∃ Φ, matrixValues (c_io_imu_CalculateTransitionMatrix
        (⟨Real.sqrt, Real.arctan, fun y x => Complex.arg ⟨x, y⟩, Real.sin, Real.cos⟩ : MathLib ℝ)
        x g dt) = some Φ ∧
      (quaternionBlock Φ).transpose * quaternionBlock Φ = 1 ∧
      ∀ q : Fin 4 → ℝ,
        ∑ i, (Matrix.mulVec (quaternionBlock Φ) q i) ^ 2 = ∑ i, q i ^ 2 := by
  have hr : Real.sqrt ((1 / 2 * (-x 4 + g 0)) ^ 2 + (1 / 2 * (-x 5 + g 1)) ^ 2
      + (1 / 2 * (-x 6 + g 2)) ^ 2) ≠ 0 := (Real.sqrt_pos.mpr hd).ne'
  have hd2 : 2 * ((1 / 2 * (-x 4 + g 0)) ^ 2 + (1 / 2 * (-x 5 + g 1)) ^ 2
      + (1 / 2 * (-x 6 + g 2)) ^ 2) ≠ 0 := by positivity
  have horth := entries_block_orthogonal
    (⟨Real.sqrt, Real.arctan, fun y x => Complex.arg ⟨x, y⟩, Real.sin, Real.cos⟩ : MathLib ℝ)
    (x 0) (x 1) (x 2) (x 3) (1 / 2 * (-x 4 + g 0)) (1 / 2 * (-x 5 + g 1))
    (1 / 2 * (-x 6 + g 2)) _ dt rfl hr (Real.sq_sqrt hd.le) (Real.sin_sq_add_cos_sq _)
  refine ⟨_, matrixValues_of_isSome _
    (fun i j => entries_isSome _ _ _ _ _ _ _ _ _ _ hr hd2 i j), horth, fun q => ?_⟩
  exact norm_of_orthogonal _ horth q

/-- C23, witness: the state `(1, 0, 0, 0, 0, 0, 0)`, the gyro rate `(2, 0, 0)` and `dt = 1`,
where `d = 1`. -/
theorem quaternion_block_orthogonal_witness :
    (0 : ℝ) < (1 / 2 * (-(![1, 0, 0, 0, 0, 0, 0] : Fin 7 → ℝ) 4
        + (fun k : Nat => if k = 0 then (2 : ℝ) else 0) 0)) ^ 2
      + (1 / 2 * (-(![1, 0, 0, 0, 0, 0, 0] : Fin 7 → ℝ) 5
        + (fun k : Nat => if k = 0 then (2 : ℝ) else 0) 1)) ^ 2
      + (1 / 2 * (-(![1, 0, 0, 0, 0, 0, 0] : Fin 7 → ℝ) 6
        + (fun k : Nat => if k = 0 then (2 : ℝ) else 0) 2)) ^ 2 ∧
    ∃ Φ, matrixValues (c_io_imu_CalculateTransitionMatrix
        (⟨Real.sqrt, Real.arctan, fun y x => Complex.arg ⟨x, y⟩, Real.sin, Real.cos⟩ : MathLib ℝ)
        ![1, 0, 0, 0, 0, 0, 0] (fun k => if k = 0 then 2 else 0) 1) = some Φ ∧
      (quaternionBlock Φ).transpose * quaternionBlock Φ = 1 ∧
      ∀ q : Fin 4 → ℝ,
        ∑ i, (Matrix.mulVec (quaternionBlock Φ) q i) ^ 2 = ∑ i, q i ^ 2 :=
  ⟨by simp only [vec7_4, vec7_5, vec7_6]; norm_num,
    quaternion_block_orthogonal ![1, 0, 0, 0, 0, 0, 0] (fun k => if k = 0 then 2 else 0) 1
      (by simp only [vec7_4, vec7_5, vec7_6]; norm_num)⟩

/-! ## Theorems on the array `rpy` and on the actuator commands of `module_io_run` -/

/-- Six pairwise distinct indices do not all lie below three. -/
theorem six_distinct_exceed_three (l : List Nat) (hn : l.Nodup) (hl : l.length = 6) :
    ∃ i ∈ l, 3 ≤ i := by
  by_contra h
  push_neg at h
  have hsub : l.toFinset ⊆ Finset.range 3 := by
    intro i hi
    rw [List.mem_toFinset] at hi
    exact Finset.mem_range.mpr (h i hi)
  have hc := Finset.card_le_card hsub
  rw [List.toFinset_card_of_nodup hn, hl, Finset.card_range] at hc
  omega

section Frame
variable {K : Type} [Field K] [DecidableEq K]

/-- The elements of `rpy` outside `getComplimentaryRPY_rpy_writes` keep their value, and the
three rate elements receive the rates that the call also stores in `last_rpy`. -/
theorem getComplimentaryRPY_frame (m : MathLib K) (toFloat : Int → Int) (x : ImuSample K)
    (rpy : Nat → K) (st : ImuState K) (out : (Nat → K) × ImuState K)
    (h : c_io_imu_getComplimentaryRPY m toFloat x rpy st = some out) :
    (∀ i, i ∉ getComplimentaryRPY_rpy_writes → out.1 i = rpy i) ∧
    out.1 PV_IMU_DROLL = out.2.last_rpy PV_IMU_DROLL ∧
    out.1 PV_IMU_DPITCH = out.2.last_rpy PV_IMU_DPITCH ∧
    out.1 PV_IMU_DYAW = out.2.last_rpy PV_IMU_DYAW := by
  unfold c_io_imu_getComplimentaryRPY at h
  cases hA : getComplimentaryRPY_acce_rpy m x.acce_raw x.magn_raw with
  | none => simp [hA] at h
  | some A =>
    by_cases hw : (93 / 100 : K)
        + getComplimentaryRPY_IntegrationTimeDiff toFloat x.millis st.lastIntegrationTime = 0
    · simp [hA, getComplimentaryRPY_stage2, (fdiv_eq_none _ _).mpr hw] at h
    · simp only [hA, getComplimentaryRPY_stage2, getComplimentaryRPY_rates,
        fdiv_of_ne _ _ hw, Option.bind_eq_bind, Option.some_bind, Option.pure_def,
        Option.some.injEq] at h
      subst h
      refine ⟨?_, ?_, ?_, ?_⟩
      · intro i hi
        simp only [getComplimentaryRPY_rpy_writes, PV_IMU_ROLL, PV_IMU_PITCH, PV_IMU_YAW,
          PV_IMU_DROLL, PV_IMU_DPITCH, PV_IMU_DYAW, List.mem_cons, List.mem_singleton,
          List.not_mem_nil, or_false, not_or] at hi
        obtain ⟨h0, h1, h2, -, -, -, -, -, -, h3, h4, h5⟩ := hi
        simp [getComplimentaryRPY_stage1, Function.update, PV_IMU_ROLL, PV_IMU_PITCH,
          PV_IMU_YAW, PV_IMU_DROLL, PV_IMU_DPITCH, PV_IMU_DYAW, h0, h1, h2, h3, h4, h5]
      · simp [Function.update, PV_IMU_ROLL, PV_IMU_PITCH, PV_IMU_YAW, PV_IMU_DROLL,
          PV_IMU_DPITCH, PV_IMU_DYAW]
      · simp [Function.update, PV_IMU_ROLL, PV_IMU_PITCH, PV_IMU_YAW, PV_IMU_DROLL,
          PV_IMU_DPITCH, PV_IMU_DYAW]
      · simp [Function.update, PV_IMU_ROLL, PV_IMU_PITCH, PV_IMU_YAW, PV_IMU_DROLL,
          PV_IMU_DPITCH, PV_IMU_DYAW]

end Frame

/-- C24: the code at the failing input. The array that `module_io_run` passes has three
elements, `float rpy[] = {0,0,0};`. The elements that `c_io_imu_getComplimentaryRPY` assigns
are the six `PV_IMU_ROLL`, `PV_IMU_PITCH`, `PV_IMU_YAW`, `PV_IMU_DROLL`, `PV_IMU_DPITCH`,
`PV_IMU_DYAW`, and those of them outside the three-element array are `PV_IMU_DROLL`,
`PV_IMU_DPITCH`, `PV_IMU_DYAW`: for every sample and every filter memory the call on that
array writes outside it and has no defined value. In the first cycle, with the acceleration
`(0, 0, 1)`, the gyro rate `(1, 1, 1)` and tick count 1000, the callee stores `930/929` into
each of `rpy[PV_IMU_DROLL]`, `rpy[PV_IMU_DPITCH]` and `rpy[PV_IMU_DYAW]`, three floats past
the end of the caller's array. -/
theorem rpy_written_out_of_bounds :
    (module_io_run_rpy : List ℝ).length = 3 ∧
    getComplimentaryRPY_rpy_writes.dedup
      = [PV_IMU_ROLL, PV_IMU_PITCH, PV_IMU_YAW, PV_IMU_DROLL, PV_IMU_DPITCH, PV_IMU_DYAW] ∧
    getComplimentaryRPY_rpy_writes.filter
        (fun i => decide (¬ i < (module_io_run_rpy : List ℝ).length))
      = [PV_IMU_DROLL, PV_IMU_DPITCH, PV_IMU_DYAW] ∧
    (∀ (m : MathLib ℝ) (x : ImuSample ℝ) (st : ImuState ℝ),
      getComplimentaryRPY_on_array m float_of_long x module_io_run_rpy st = none) ∧
    (∃ out, c_io_imu_getComplimentaryRPY
        (⟨Real.sqrt, Real.arctan, fun y x => Complex.arg ⟨x, y⟩, Real.sin, Real.cos⟩ : MathLib ℝ)
        float_of_long
        (⟨fun j => if j = PV_IMU_Z then 1 else 0, fun _ => 1, fun _ => 0, 1000⟩ : ImuSample ℝ)
        (fun i => (module_io_run_rpy : List ℝ).getD i 0) ImuState.init = some out ∧
      out.1 PV_IMU_DROLL = 930 / 929 ∧ out.1 PV_IMU_DPITCH = 930 / 929 ∧
      out.1 PV_IMU_DYAW = 930 / 929) := by
  refine ⟨rfl, by decide, by decide, ?_, ?_⟩
  · intro m x st
    unfold getComplimentaryRPY_on_array
    rw [if_neg]
    simp [getComplimentaryRPY_rpy_writes, module_io_run_rpy, PV_IMU_DROLL]
  · obtain ⟨A, hA, _, _⟩ := level_acce_rpy (fun j => if j = PV_IMU_Z then 1 else 0)
      (fun _ => 0) (by simp [PV_IMU_X, PV_IMU_Z]) (by simp [PV_IMU_Y, PV_IMU_Z]) (by simp)
    have hw : (93 / 100 : ℝ) + -1 / 1000 ≠ 0 := by norm_num
    simp only [c_io_imu_getComplimentaryRPY, hA, ImuState.init,
      timeDiff_first_exact 1000 (by norm_num) (by norm_num),
      getComplimentaryRPY_stage2, getComplimentaryRPY_rates, fdiv_of_ne _ _ hw,
      Option.bind_eq_bind, Option.some_bind, Option.pure_def]
    refine ⟨_, rfl, ?_, ?_, ?_⟩ <;>
      simp [Function.update, PV_IMU_ROLL, PV_IMU_PITCH, PV_IMU_YAW, PV_IMU_DROLL,
        PV_IMU_DPITCH, PV_IMU_DYAW] <;> norm_num

/-- C25. The calls that a cycle of `module_io_run` makes to the actuation collaborator are
the same for any two contents of the actuation mailbox (a message waiting or none) and any
two contents of the buffer `iActuation`: `c_io_blctrl_setSpeed(0, 700)` followed by
`c_io_blctrl_setSpeed(1, 700)`. The message received does reach `iActuation`, which the
commands do not read. -/
theorem actuation_independent_of_mailbox {Msg : Type} (mailbox1 mailbox2 : Option Msg)
    (held1 held2 msg : Msg) :
    (module_io_run_actuation mailbox1 held1).1 = (module_io_run_actuation mailbox2 held2).1 ∧
    (module_io_run_actuation mailbox1 held1).1
      = [ActuatorCall.c_io_blctrl_setSpeed 0 700, ActuatorCall.c_io_blctrl_setSpeed 1 700] ∧
    (module_io_run_actuation (some msg) held1).2 = msg ∧
    (module_io_run_actuation (none : Option Msg) held1).2 = held1 :=
  ⟨rfl, rfl, rfl, rfl⟩

/-! ## Theorems on the zero of the heading divisor, the scaling of the acceleration and the
bias rows -/

/-- C26. For every unit quaternion, the divisor
`((e0+e2)² + (e1−e3)²)·((e0−e2)² + (e1+e3)²)` of row 3 of `c_io_imu_CalculateH` is zero if
and only if `2(e0·e2 − e1·e3)` is `1` or `-1`. Each of the four quotients of row 3 has no
value exactly when that divisor is zero: nothing guards the division. -/
theorem calculateH_divisor_zero_iff (G : ℝ) (x : Fin 7 → ℝ)
    (hu : x 0 ^ 2 + x 1 ^ 2 + x 2 ^ 2 + x 3 ^ 2 = 1) :
    (CalculateH_divisor x = 0 ↔
      2 * (x 0 * x 2 - x 1 * x 3) = 1 ∨ 2 * (x 0 * x 2 - x 1 * x 3) = -1) ∧
    (c_io_imu_CalculateH G x 3 0 = none ↔ CalculateH_divisor x = 0) ∧
    (c_io_imu_CalculateH G x 3 1 = none ↔ CalculateH_divisor x = 0) ∧
    (c_io_imu_CalculateH G x 3 2 = none ↔ CalculateH_divisor x = 0) ∧
    (c_io_imu_CalculateH G x 3 3 = none ↔ CalculateH_divisor x = 0) := by
  obtain ⟨r0, r1, r2, r3, -, -, -⟩ := CalculateH_row3 G x
  refine ⟨?_, ?_, ?_, ?_, ?_⟩
  · rw [CalculateH_divisor_norm, hu]
    constructor
    · intro h
      have h1 : (1 - 2 * (x 0 * x 2 - x 1 * x 3)) * (1 + 2 * (x 0 * x 2 - x 1 * x 3)) = 0 := by
        linear_combination h
      rcases mul_eq_zero.mp h1 with h2 | h2
      · left
        linarith
      · right
        linarith
    · rintro (h | h) <;> rw [h] <;> norm_num
  · rw [r0]
    exact fdiv_eq_none _ _
  · rw [r1]
    exact fdiv_eq_none _ _
  · rw [r2]
    exact fdiv_eq_none _ _
  · rw [r3]
    exact fdiv_eq_none _ _

/-- The square of `1/√2`. -/
theorem inv_sqrt_two_sq : (1 / Real.sqrt 2) ^ 2 = (1 / 2 : ℝ) := by
  rw [div_pow, Real.sq_sqrt (by norm_num)]
  norm_num

/-- C26, witness: `(1/√2, 0, 1/√2, 0)` is a unit quaternion with `2(e0·e2 − e1·e3) = 1`; the
divisor is zero there and the four quotients of row 3 of `H` have no value. -/
theorem calculateH_divisor_zero_iff_witness :
    ((![1 / Real.sqrt 2, 0, 1 / Real.sqrt 2, 0, 0, 0, 0] : Fin 7 → ℝ) 0 ^ 2
      + (![1 / Real.sqrt 2, 0, 1 / Real.sqrt 2, 0, 0, 0, 0] : Fin 7 → ℝ) 1 ^ 2
      + (![1 / Real.sqrt 2, 0, 1 / Real.sqrt 2, 0, 0, 0, 0] : Fin 7 → ℝ) 2 ^ 2
      + (![1 / Real.sqrt 2, 0, 1 / Real.sqrt 2, 0, 0, 0, 0] : Fin 7 → ℝ) 3 ^ 2 = 1) ∧
    CalculateH_divisor (![1 / Real.sqrt 2, 0, 1 / Real.sqrt 2, 0, 0, 0, 0] : Fin 7 → ℝ) = 0 ∧
    c_io_imu_CalculateH (1 : ℝ) ![1 / Real.sqrt 2, 0, 1 / Real.sqrt 2, 0, 0, 0, 0] 3 0 = none ∧
    c_io_imu_CalculateH (1 : ℝ) ![1 / Real.sqrt 2, 0, 1 / Real.sqrt 2, 0, 0, 0, 0] 3 1 = none ∧
    c_io_imu_CalculateH (1 : ℝ) ![1 / Real.sqrt 2, 0, 1 / Real.sqrt 2, 0, 0, 0, 0] 3 2 = none ∧
    c_io_imu_CalculateH (1 : ℝ) ![1 / Real.sqrt 2, 0, 1 / Real.sqrt 2, 0, 0, 0, 0] 3 3
      = none := by
  have hu : ((![1 / Real.sqrt 2, 0, 1 / Real.sqrt 2, 0, 0, 0, 0] : Fin 7 → ℝ) 0 ^ 2
      + (![1 / Real.sqrt 2, 0, 1 / Real.sqrt 2, 0, 0, 0, 0] : Fin 7 → ℝ) 1 ^ 2
      + (![1 / Real.sqrt 2, 0, 1 / Real.sqrt 2, 0, 0, 0, 0] : Fin 7 → ℝ) 2 ^ 2
      + (![1 / Real.sqrt 2, 0, 1 / Real.sqrt 2, 0, 0, 0, 0] : Fin 7 → ℝ) 3 ^ 2 = 1) := by
    simp only [vec7_0, vec7_1, vec7_2, vec7_3, inv_sqrt_two_sq]
    norm_num
  obtain ⟨hz, h0, h1, h2, h3⟩ := calculateH_divisor_zero_iff 1 _ hu
  have hd : CalculateH_divisor
      (![1 / Real.sqrt 2, 0, 1 / Real.sqrt 2, 0, 0, 0, 0] : Fin 7 → ℝ) = 0 := by
    refine hz.mpr (Or.inl ?_)
    simp only [vec7_0, vec7_1, vec7_2, vec7_3]
    have e := inv_sqrt_two_sq
    rw [pow_two] at e
    rw [e]
    norm_num
  exact ⟨hu, hd, h0.mpr hd, h1.mpr hd, h2.mpr hd, h3.mpr hd⟩

/-- C27. For every `k > 0` and every acceleration `(ax, ay, az)` with `ay² + az² > 0` and
`ax² + az² > 0`, `atan(k·ax / sqrt((k·ay)² + (k·az)²)) = atan(ax / sqrt(ay² + az²))` and
likewise for roll; lines 265-270 of `c_io_imu_getComplimentaryRPY` divide by no zero on the
acceleration and on its multiple by `k`, and compute the same array `acce_rpy` from both,
whose pitch and roll are those arc tangents. Over the reals. -/
theorem tilt_scale_invariant (acce_raw magn_raw : Nat → ℝ) (k : ℝ) (hk : 0 < k)
    (hp : 0 < acce_raw PV_IMU_Y ^ 2 + acce_raw PV_IMU_Z ^ 2)
    (hr : 0 < acce_raw PV_IMU_X ^ 2 + acce_raw PV_IMU_Z ^ 2) :
    Real.arctan (k * acce_raw PV_IMU_X
        / Real.sqrt ((k * acce_raw PV_IMU_Y) ^ 2 + (k * acce_raw PV_IMU_Z) ^ 2))
      = Real.arctan (acce_raw PV_IMU_X
        / Real.sqrt (acce_raw PV_IMU_Y ^ 2 + acce_raw PV_IMU_Z ^ 2)) ∧
    Real.arctan (k * acce_raw PV_IMU_Y
        / Real.sqrt ((k * acce_raw PV_IMU_X) ^ 2 + (k * acce_raw PV_IMU_Z) ^ 2))
      = Real.arctan (acce_raw PV_IMU_Y
        / Real.sqrt (acce_raw PV_IMU_X ^ 2 + acce_raw PV_IMU_Z ^ 2)) ∧
    ∃ acce_rpy,
      getComplimentaryRPY_acce_rpy
        (⟨Real.sqrt, Real.arctan, fun y x => Complex.arg ⟨x, y⟩, Real.sin, Real.cos⟩ : MathLib ℝ)
        acce_raw magn_raw = some acce_rpy ∧
      getComplimentaryRPY_acce_rpy
        (⟨Real.sqrt, Real.arctan, fun y x => Complex.arg ⟨x, y⟩, Real.sin, Real.cos⟩ : MathLib ℝ)
        (fun i => k * acce_raw i) magn_raw = some acce_rpy ∧
      acce_rpy PV_IMU_PITCH = Real.arctan (acce_raw PV_IMU_X
        / Real.sqrt (acce_raw PV_IMU_Y ^ 2 + acce_raw PV_IMU_Z ^ 2)) ∧
      acce_rpy PV_IMU_ROLL = Real.arctan (acce_raw PV_IMU_Y
        / Real.sqrt (acce_raw PV_IMU_X ^ 2 + acce_raw PV_IMU_Z ^ 2)) := by
  have hs : ∀ u v : ℝ, 0 < u ^ 2 + v ^ 2 →
      Real.sqrt ((k * u) ^ 2 + (k * v) ^ 2) = k * Real.sqrt (u ^ 2 + v ^ 2) := by
    intro u v _
    have e : (k * u) ^ 2 + (k * v) ^ 2 = k ^ 2 * (u ^ 2 + v ^ 2) := by ring
    rw [e, Real.sqrt_mul (by positivity), Real.sqrt_sq hk.le]
  have hq : ∀ w u v : ℝ, 0 < u ^ 2 + v ^ 2 →
      k * w / Real.sqrt ((k * u) ^ 2 + (k * v) ^ 2) = w / Real.sqrt (u ^ 2 + v ^ 2) := by
    intro w u v h
    rw [hs u v h]
    have h1 : Real.sqrt (u ^ 2 + v ^ 2) ≠ 0 := (Real.sqrt_pos.mpr h).ne'
    field_simp
    ring
  have hsp : Real.sqrt (acce_raw PV_IMU_Y ^ 2 + acce_raw PV_IMU_Z ^ 2) ≠ 0 :=
    (Real.sqrt_pos.mpr hp).ne'
  have hsr : Real.sqrt (acce_raw PV_IMU_X ^ 2 + acce_raw PV_IMU_Z ^ 2) ≠ 0 :=
    (Real.sqrt_pos.mpr hr).ne'
  refine ⟨by rw [hq _ _ _ hp], by rw [hq _ _ _ hr], ?_⟩
  have hkp : Real.sqrt ((k * acce_raw PV_IMU_Y) ^ 2 + (k * acce_raw PV_IMU_Z) ^ 2) ≠ 0 := by
    rw [hs _ _ hp]
    exact mul_ne_zero hk.ne' hsp
  have hkr : Real.sqrt ((k * acce_raw PV_IMU_X) ^ 2 + (k * acce_raw PV_IMU_Z) ^ 2) ≠ 0 := by
    rw [hs _ _ hr]
    exact mul_ne_zero hk.ne' hsr
  simp only [getComplimentaryRPY_acce_rpy, fdiv_of_ne _ _ hsp, fdiv_of_ne _ _ hsr,
    fdiv_of_ne _ _ hkp, fdiv_of_ne _ _ hkr, hq _ _ _ hp, hq _ _ _ hr,
    Option.bind_eq_bind, Option.some_bind, Option.pure_def]
  refine ⟨_, rfl, rfl, ?_, ?_⟩
  · simp [Function.update, PV_IMU_ROLL, PV_IMU_PITCH, PV_IMU_YAW]
  · simp [Function.update, PV_IMU_ROLL, PV_IMU_PITCH, PV_IMU_YAW]

/-- C27, witness: the acceleration `(0, 0, 1)` g and the factor `k = 16384`, the counts per g
of the MPU6050 accelerometer. -/
theorem tilt_scale_invariant_witness :
    (0 : ℝ) < 16384 ∧
    Real.arctan ((16384 : ℝ) * (fun i : Nat => if i = PV_IMU_Z then (1 : ℝ) else 0) PV_IMU_X
        / Real.sqrt
          (((16384 : ℝ) * (fun i : Nat => if i = PV_IMU_Z then (1 : ℝ) else 0) PV_IMU_Y) ^ 2
          + ((16384 : ℝ) * (fun i : Nat => if i = PV_IMU_Z then (1 : ℝ) else 0) PV_IMU_Z) ^ 2))
      = Real.arctan ((fun i : Nat => if i = PV_IMU_Z then (1 : ℝ) else 0) PV_IMU_X
        / Real.sqrt ((fun i : Nat => if i = PV_IMU_Z then (1 : ℝ) else 0) PV_IMU_Y ^ 2
          + (fun i : Nat => if i = PV_IMU_Z then (1 : ℝ) else 0) PV_IMU_Z ^ 2)) :=
  ⟨by norm_num,
    (tilt_scale_invariant (fun i => if i = PV_IMU_Z then 1 else 0) (fun _ => 0) 16384
      (by norm_num) (by simp [PV_IMU_Y, PV_IMU_Z]) (by simp [PV_IMU_X, PV_IMU_Z])).1⟩

/-- C28. For every state, gyro rate and `dt`, rows 4, 5 and 6 of the matrix of
`c_io_imu_CalculateTransitionMatrix` are `(0,0,0,0,1,0,0)`, `(0,0,0,0,0,1,0)` and
`(0,0,0,0,0,0,1)`, also where entries of rows 0-3 divide by zero. Hence for every 7-vector
`y` the components 4, 5, 6 of `Φ·y` have a value and equal those of `y`; and whenever the
whole matrix has values, the components 4, 5, 6 of the product `Φ·y` are those of `y`. -/
theorem transition_bias_rows_unit {K : Type} [Field K] [DecidableEq K] (m : MathLib K)
    (x : Fin 7 → K) (g : Nat → K) (dt : K) :
    (∀ j : Fin 7, c_io_imu_CalculateTransitionMatrix m x g dt 4 j
      = some ((![0, 0, 0, 0, 1, 0, 0] : Fin 7 → K) j)) ∧
    (∀ j : Fin 7, c_io_imu_CalculateTransitionMatrix m x g dt 5 j
      = some ((![0, 0, 0, 0, 0, 1, 0] : Fin 7 → K) j)) ∧
    (∀ j : Fin 7, c_io_imu_CalculateTransitionMatrix m x g dt 6 j
      = some ((![0, 0, 0, 0, 0, 0, 1] : Fin 7 → K) j)) ∧
    (∀ y : Fin 7 → K,
      rowApply (c_io_imu_CalculateTransitionMatrix m x g dt 4) y = some (y 4) ∧
      rowApply (c_io_imu_CalculateTransitionMatrix m x g dt 5) y = some (y 5) ∧
      rowApply (c_io_imu_CalculateTransitionMatrix m x g dt 6) y = some (y 6)) ∧
    (∀ y : Fin 7 → K,
      (matrixValues (c_io_imu_CalculateTransitionMatrix m x g dt)).map
          (fun Φ => (Matrix.mulVec (Matrix.of Φ) y 4, Matrix.mulVec (Matrix.of Φ) y 5,
            Matrix.mulVec (Matrix.of Φ) y 6))
        = (matrixValues (c_io_imu_CalculateTransitionMatrix m x g dt)).map
          (fun _ => (y 4, y 5, y 6))) := by
  have h4 : ∀ j : Fin 7, c_io_imu_CalculateTransitionMatrix m x g dt 4 j
      = some ((![0, 0, 0, 0, 1, 0, 0] : Fin 7 → K) j) := by
    intro j
    fin_cases j <;>
      simp only [c_io_imu_CalculateTransitionMatrix, TransitionMatrix_entries, Fin.zero_eta,
        Fin.mk_one, Fin.reduceFinMk, vec7_0, vec7_1, vec7_2, vec7_3, vec7_4, vec7_5, vec7_6]
  have h5 : ∀ j : Fin 7, c_io_imu_CalculateTransitionMatrix m x g dt 5 j
      = some ((![0, 0, 0, 0, 0, 1, 0] : Fin 7 → K) j) := by
    intro j
    fin_cases j <;>
      simp only [c_io_imu_CalculateTransitionMatrix, TransitionMatrix_entries, Fin.zero_eta,
        Fin.mk_one, Fin.reduceFinMk, vec7_0, vec7_1, vec7_2, vec7_3, vec7_4, vec7_5, vec7_6]
  have h6 : ∀ j : Fin 7, c_io_imu_CalculateTransitionMatrix m x g dt 6 j
      = some ((![0, 0, 0, 0, 0, 0, 1] : Fin 7 → K) j) := by
    intro j
    fin_cases j <;>
      simp only [c_io_imu_CalculateTransitionMatrix, TransitionMatrix_entries, Fin.zero_eta,
        Fin.mk_one, Fin.reduceFinMk, vec7_0, vec7_1, vec7_2, vec7_3, vec7_4, vec7_5, vec7_6]
  refine ⟨h4, h5, h6, ?_, ?_⟩
  · intro y
    refine ⟨?_, ?_, ?_⟩
    · simp only [rowApply, h4, Option.isSome_some, implies_true, if_true, Option.getD_some,
        Fin.sum_univ_seven, vec7_0, vec7_1, vec7_2, vec7_3, vec7_4, vec7_5, vec7_6]
      simp
    · simp only [rowApply, h5, Option.isSome_some, implies_true, if_true, Option.getD_some,
        Fin.sum_univ_seven, vec7_0, vec7_1, vec7_2, vec7_3, vec7_4, vec7_5, vec7_6]
      simp
    · simp only [rowApply, h6, Option.isSome_some, implies_true, if_true, Option.getD_some,
        Fin.sum_univ_seven, vec7_0, vec7_1, vec7_2, vec7_3, vec7_4, vec7_5, vec7_6]
      simp
  · intro y
    unfold matrixValues
    split
    · simp only [Option.map_some', Option.some.injEq, Prod.mk.injEq, Matrix.mulVec,
        Matrix.dotProduct, Matrix.of_apply, h4, h5, h6, Option.getD_some,
        Fin.sum_univ_seven, vec7_0, vec7_1, vec7_2, vec7_3, vec7_4, vec7_5, vec7_6]
      simp
    · rfl

end Provant
